import Mathlib

/-!
The SQL statement builder of `builder.go`, package `querybuilder`.

A shallow embedding of `builder.go` (package `querybuilder`) and theorems about
the four statement generators `ForQuery`, `ForRemove`, `ForInsert`, `ForUpdate`
and the output formatter `toSql`.

Conventions of the embedding

* A Go `string` is a list of characters (`Str`).
* A Go `interface{}` value is a `Value`: a text, an integer, or nil.
* A Go `map` is the list of its entries in the order in which the one `range`
  loop of the call visits them.
* A panic (a failed type assertion `val.(string)`, a failing WHERE renderer) is
  the result `none`.
* The receiver `*Builder` is passed explicitly and returned with its new
  parameter list.
-/

namespace querybuilder

/-- A Go string. -/
abbrev Str := List Char

/-- A Go `interface{}` value as the builder meets it: a `string`, an `int`, or nil. -/
inductive Value where
  | text (s : Str)
  | int (n : Int)
  | null
  deriving DecidableEq, Repr

/-- The dialect policy, Go interface `Modifier`, used by `builder.go` through its three
methods `QuoteName(name)`, `PrePh()` and `Ph(name)`. -/
structure Modifier where
  QuoteName : Str → Str
  PrePh : Str
  Ph : Str → Str

/-- A column projection `column{fieldName, quote}` (builder.go line 77, 153-158). -/
structure column where
  fieldName : Str
  quote : Bool

/-- The condition types `t_WHERE .. t_OR` (builder.go lines 17-24). -/
inductive CondType where
  | t_WHERE
  | t_RAW
  | t_QUOTE_BEGIN
  | t_QUOTE_END
  | t_AND
  | t_OR
  deriving DecidableEq, Repr

/-- The struct `Condition` (builder.go lines 26-29). -/
structure Condition where
  t : CondType
  id : Str
  deriving DecidableEq, Repr

/-- Modelled from the spec: the type `Where` of a registered predicate, which is declared
outside `builder.go`. The registry "renders one predicate to a fragment plus appends its
bound value to the builder's parameter list"; a predicate is kept as that fragment and
the values it appends (none for a parameter-free predicate). -/
structure Where where
  fragment : Str
  values : List Value
  deriving DecidableEq, Repr

/-- The struct `Builder` (builder.go lines 31-65). The field `whereFactory` is only
assigned by `Init` and is left out. -/
structure Builder where
  tableName : Str
  conditions : List Condition
  wheres : List (Str × Where)
  selects : List column
  orders : List (Str × Str)
  values : List Value
  limit : Int
  offset : Int
  modifier : Modifier
  group : Str
  replace : Bool
  isPrepare : Bool

/-- The pair of the local variable `sql` of a generator and its receiver. -/
abbrev St := Str × Builder

/-! ## Library functions of Go used by the builder -/

/-- Go `strings.Join(elems, sep)`. -/
def Join : List Str → Str → Str
  | [], _ => []
  | [a], _ => a
  | a :: b :: rest, sep => a ++ sep ++ Join (b :: rest) sep

/-- The first occurrence of `old` in `s`: the text before it and the text after it
(Go `strings.Index`); an empty `old` occurs at the start. -/
def cut (old : Str) : Str → Option (Str × Str)
  | [] => if old = [] then some ([], []) else none
  | c :: s =>
    if old.isPrefixOf (c :: s) then some ([], (c :: s).drop old.length)
    else match cut old s with
      | some (pre, post) => some (c :: pre, post)
      | none => none

/-- Go `strings.Replace(s, old, new, 1)`: the first occurrence of `old` is replaced. -/
def Replace (s old new : Str) : Str :=
  match cut old s with
  | some (pre, post) => pre ++ new ++ post
  | none => s

/-- Go `strconv.Itoa` on a natural number. -/
def itoa (n : Nat) : Str := Nat.toDigits 10 n

/-! ## Collaborators of `builder.go` declared outside it -/

/-- Modelled from the spec: the scan of the renumbering pass `replace`, whose definition is
outside `builder.go`. The occurrences of the marker are rewritten one after the other, from
left to right, the `i`-th into `Ph(i)`; `fuel` bounds the number of occurrences. -/
def replaceFrom (m : Modifier) : Nat → Nat → Str → Str
  | 0, _, s => s
  | fuel + 1, i, s =>
    match cut m.PrePh s with
    | none => s
    | some (pre, post) => pre ++ m.Ph (itoa i) ++ replaceFrom m fuel (i + 1) post

/-- Modelled from the spec: the placeholder renumbering pass `replace(modifier, sql)`,
whose definition is outside `builder.go`. It "scans the fully assembled SQL text and rewrites every
dialect placeholder marker occurrence into its final form (e.g., sequential numbered
markers), left-to-right". A text has at most as many occurrences of a non-empty marker
as it has characters; an empty marker has no occurrence. -/
def replace (m : Modifier) (sql : Str) : Str :=
  if m.PrePh = [] then sql else replaceFrom m sql.length 1 sql

/-- Modelled from the spec: one step of the WHERE renderer `handleWhere`, whose definition
is outside `builder.go`: the text and the values of one condition token. -/
def renderCondition (wheres : List (Str × Where)) (c : Condition) :
    Option (Str × List Value) :=
  match c.t with
  | .t_WHERE =>
    match wheres.lookup c.id with
    | some w => some (w.fragment, w.values)
    | none => none
  | .t_RAW => some (c.id, [])
  | .t_QUOTE_BEGIN => some ("(".toList, [])
  | .t_QUOTE_END => some (")".toList, [])
  | .t_AND => some (" AND ".toList, [])
  | .t_OR => some (" OR ".toList, [])

/-- Modelled from the spec: the walk of the WHERE renderer `handleWhere` over the
condition stream, left to right. -/
def renderConditions (wheres : List (Str × Where)) :
    List Condition → Option (Str × List Value)
  | [] => some ([], [])
  | c :: rest =>
    match renderCondition wheres c with
    | none => none
    | some (t, vs) =>
      match renderConditions wheres rest with
      | none => none
      | some (t', vs') => some (t ++ t', vs ++ vs')

/-- Modelled from the spec: the WHERE renderer `builder.handleWhere()`, whose definition
is outside `builder.go`. It "walks the Condition Stream": a predicate reference "resolves to the
registry's render of that predicate (text fragment + one appended parameter value, unless
the predicate is itself parameter-free)", a group opens and closes with the literal
parentheses, AND and OR are "the literal keyword with surrounding whitespace", a raw
fragment "is emitted verbatim", and a reference "absent from the registry fails fast".
The result is the clause body and the builder with the values appended. -/
def handleWhere (b : Builder) : Option (Str × Builder) :=
  match renderConditions b.wheres b.conditions with
  | none => none
  | some (t, vs) => some (t, { b with values := b.values ++ vs })

/-! ## builder.go -/

/-- Method `Builder.Init` (builder.go lines 74-84). -/
def Init (b : Builder) : Builder :=
  { b with
    conditions := []
    wheres := []
    selects := [⟨"*".toList, false⟩]
    orders := []
    values := []
    limit := -1
    offset := -1
    replace := true }

/-- Function `NewBuilder` (builder.go lines 67-72): the zero value of the struct with the
modifier set, then `Init`. -/
def NewBuilder (modifier : Modifier) : Builder :=
  Init
    { tableName := [], conditions := [], wheres := [], selects := [], orders := [],
      values := [], limit := 0, offset := 0, modifier := modifier, group := [],
      replace := false, isPrepare := false }

/-- Method `Builder.SetIsPrepare` (builder.go lines 86-89). -/
def SetIsPrepare (b : Builder) (isPrepare : Bool) : Builder :=
  { b with isPrepare := isPrepare }

/-- Method `Builder.From` (builder.go lines 91-94). -/
def From (b : Builder) (tableName : Str) : Builder :=
  { b with tableName := tableName }

/-- Method `Builder.Limit` (builder.go lines 101-104). -/
def Limit (b : Builder) (limit : Int) : Builder :=
  { b with limit := limit }

/-- Method `Builder.Offset` (builder.go lines 106-109). -/
def Offset (b : Builder) (offset : Int) : Builder :=
  { b with offset := offset }

/-- Method `Builder.Params` (builder.go lines 111-118): a copy of the parameter list. -/
def Params (b : Builder) : List Value :=
  b.values.foldl (fun result val => result ++ [val]) []

/-- Method `Builder.QuotedTableName` (builder.go lines 147-149). -/
def QuotedTableName (b : Builder) : Str :=
  b.modifier.QuoteName b.tableName

/-- Method `Builder.QuotedColumns` (builder.go lines 151-162). -/
def QuotedColumns (b : Builder) : List Str :=
  b.selects.map fun item =>
    if item.quote then b.modifier.QuoteName item.fieldName else item.fieldName

/-- The loop of `handleOrderBy` (builder.go lines 246-252), from counter `i`. -/
def handleOrderByLoop (length : Nat) : List (Str × Str) → Nat → Str → Str
  | [], _, sql => sql
  | (field, order) :: rest, i, sql =>
    let sql := sql ++ (field ++ " ".toList ++ order)
    let sql := if i < length then sql ++ ", ".toList else sql
    handleOrderByLoop length rest (i + 1) sql

/-- Function `handleOrderBy` (builder.go lines 242-255). -/
def handleOrderBy (orders : List (Str × Str)) : Str :=
  handleOrderByLoop orders.length orders 1 " ORDER BY ".toList

/-- Method `Builder.toSql` (builder.go lines 232-240): in inlining mode the first occurrence of
`Ph("")` is replaced by each parameter in turn, and the type assertion `val.(string)`
panics on a parameter that is no string. -/
def toSql (b : Builder) (sql : Str) : Option Str :=
  if !b.isPrepare then some sql
  else
    (Params b).foldlM
      (fun sql val =>
        match val with
        | .text s => some (Replace sql (b.modifier.Ph []) s)
        | _ => none)
      sql

/-- The statement `if len(builder.conditions) > 0 { sql += " WHERE " + builder.handleWhere() }`
(builder.go lines 124-126, 167-169, 217-219). -/
def stWhere (s : St) : Option St :=
  if s.2.conditions.length > 0 then
    match handleWhere s.2 with
    | some (w, b) => some (s.1 ++ (" WHERE ".toList ++ w), b)
    | none => none
  else some s

/-- The statement `if len(builder.orders) > 0 { sql += handleOrderBy(builder.orders) }`
(builder.go lines 127-129). -/
def stOrder (s : St) : St :=
  if s.2.orders.length > 0 then (s.1 ++ handleOrderBy s.2.orders, s.2) else s

/-- The statement `if builder.group != "" { sql += " " + builder.group }`
(builder.go lines 130-132). -/
def stGroup (s : St) : St :=
  if s.2.group ≠ [] then (s.1 ++ (" ".toList ++ s.2.group), s.2) else s

/-- The statement `if builder.limit > -1 { ... }` (builder.go lines 133-136, 170-173,
220-223). -/
def stLimit (s : St) : St :=
  if s.2.limit > -1 then
    (s.1 ++ (" LIMIT ".toList ++ s.2.modifier.PrePh),
      { s.2 with values := s.2.values ++ [Value.int s.2.limit] })
  else s

/-- The statement `if builder.offset > -1 { ... }` (builder.go lines 137-140, 174-177,
224-227). -/
def stOffset (s : St) : St :=
  if s.2.offset > -1 then
    (s.1 ++ (" OFFSET ".toList ++ s.2.modifier.PrePh),
      { s.2 with values := s.2.values ++ [Value.int s.2.offset] })
  else s

/-- The statement `if builder.replace { sql = replace(builder.modifier, sql) }`
(builder.go lines 141-143). -/
def stReplace (s : St) : St :=
  if s.2.replace then (replace s.2.modifier s.1, s.2) else s

/-- The last statement of every generator, `return builder.toSql(sql)`. -/
def stReturn (s : St) : Option St :=
  match toSql s.2 s.1 with
  | some out => some (out, s.2)
  | none => none

/-- Method `Builder.ForQuery` up to line 140: the assembled text, before the renumbering pass. -/
def ForQuery_sql (b : Builder) : Option St :=
  let b := { b with values := [] }
  let columns := QuotedColumns b
  let sql := "SELECT ".toList ++ Join columns ", ".toList ++ " FROM ".toList ++ QuotedTableName b
  match stWhere (sql, b) with
  | none => none
  | some s => some (stOffset (stLimit (stGroup (stOrder s))))

/-- Method `Builder.ForQuery` (builder.go lines 120-145): the returned text and the builder
afterwards. -/
def ForQuery (b : Builder) : Option St :=
  match ForQuery_sql b with
  | none => none
  | some s => stReturn (stReplace s)

/-- Method `Builder.ForRemove` up to line 177: the assembled text. -/
def ForRemove_sql (b : Builder) : Option St :=
  let b := { b with values := [] }
  let sql := "DELETE FROM ".toList ++ QuotedTableName b
  match stWhere (sql, b) with
  | none => none
  | some s => some (stOffset (stLimit s))

/-- Method `Builder.ForRemove` (builder.go lines 164-180). -/
def ForRemove (b : Builder) : Option St :=
  match ForRemove_sql b with
  | none => none
  | some s => stReturn (replace s.2.modifier s.1, s.2)

/-- The inner loop of `ForInsert` (builder.go lines 189-195) over the entries of row `i`;
the state is `fields`, `rowValue` and `builder.values`. -/
def ForInsert_row (m : Modifier) (i : Nat) :
    List (Str × Value) → List Str × List Str × List Value → List Str × List Str × List Value
  | [], st => st
  | (field, value) :: rest, (fields, rowValue, vals) =>
    let fields := if i = 0 then fields ++ [m.QuoteName field] else fields
    ForInsert_row m i rest (fields, rowValue ++ [m.PrePh], vals ++ [value])

/-- The outer loop of `ForInsert` (builder.go lines 187-197) from row index `i`; the state
is `fields`, `values` and `builder.values`. -/
def ForInsert_rows (m : Modifier) :
    Nat → List (List (Str × Value)) → List Str × List Str × List Value →
      List Str × List Str × List Value
  | _, [], st => st
  | i, row :: rest, (fields, values, vals) =>
    match ForInsert_row m i row (fields, [], vals) with
    | (fields, rowValue, vals) =>
      ForInsert_rows m (i + 1) rest
        (fields, values ++ ["(".toList ++ Join rowValue ", ".toList ++ ")".toList], vals)

/-- Method `Builder.ForInsert` up to line 199: the assembled text. -/
def ForInsert_sql (b : Builder) (data : List (List (Str × Value))) : St :=
  let sql := "INSERT INTO ".toList ++ QuotedTableName b
  match ForInsert_rows b.modifier 0 data ([], [], []) with
  | (fields, values, vals) =>
    let sql := sql ++ ("(".toList ++ Join fields ", ".toList ++ ")".toList)
    let sql := sql ++ (" VALUES".toList ++ Join values ", ".toList)
    (sql, { b with values := vals })

/-- Method `Builder.ForInsert` (builder.go lines 182-202). -/
def ForInsert (b : Builder) (data : List (List (Str × Value))) : Option St :=
  match ForInsert_sql b data with
  | s => stReturn (replace s.2.modifier s.1, s.2)

/-- The loop of `ForUpdate` (builder.go lines 209-216), from counter `i`. -/
def ForUpdate_set (length : Nat) : List (Str × Value) → Nat → St → St
  | [], _, s => s
  | (field, value) :: rest, i, (sql, b) =>
    let sql := sql ++ (b.modifier.QuoteName field ++ "=".toList ++ b.modifier.PrePh)
    let b := { b with values := b.values ++ [value] }
    let sql := if i < length then sql ++ ", ".toList else sql
    ForUpdate_set length rest (i + 1) (sql, b)

/-- Method `Builder.ForUpdate` up to line 227: the assembled text. -/
def ForUpdate_sql (b : Builder) (data : List (Str × Value)) : Option St :=
  let b := { b with values := [] }
  let sql := "UPDATE ".toList ++ QuotedTableName b ++ " SET ".toList
  match stWhere (ForUpdate_set data.length data 1 (sql, b)) with
  | none => none
  | some s => some (stOffset (stLimit s))

/-- Method `Builder.ForUpdate` (builder.go lines 204-230). -/
def ForUpdate (b : Builder) (data : List (Str × Value)) : Option St :=
  match ForUpdate_sql b data with
  | none => none
  | some s => stReturn (replace s.2.modifier s.1, s.2)

/-- Go map assignment `m[k] = v` on the entries of a map: the entry of `k` is replaced, or
added when there is none. The place of an entry in the list carries no meaning: a `range`
loop may visit the entries in any order. -/
def mapSet : List (Str × Str) → Str → Str → List (Str × Str)
  | [], k, v => [(k, v)]
  | (k', v') :: rest, k, v =>
    if k' = k then (k, v) :: rest else (k', v') :: mapSet rest k v

/-- Method `Builder.OrderBy` (builder.go lines 96-99). -/
def OrderBy (b : Builder) (field : Str) (order : Str) : Builder :=
  { b with orders := mapSet b.orders field order }

/-! ## Notions used in the statements -/

/-- The value tuple that `ForInsert` emits for one row. -/
def tuple (m : Modifier) (row : List (Str × Value)) : Str :=
  "(".toList ++ Join (row.map fun _ => m.PrePh) ", ".toList ++ ")".toList

/-- The WHERE clause of the spec: nothing for an empty condition stream, else ` WHERE `
and the rendered conditions, with the values the renderer appends; `none` when the
renderer fails. -/
def whereClause (b : Builder) : Option (Str × List Value) :=
  if b.conditions = [] then some ([], [])
  else match renderConditions b.wheres b.conditions with
    | some (t, vs) => some (" WHERE ".toList ++ t, vs)
    | none => none

/-- The ORDER BY clause of the spec: nothing without an order entry. -/
def orderClause (b : Builder) : Str :=
  if b.orders = [] then [] else handleOrderBy b.orders

/-- The group fragment of the spec, after a blank: nothing for an empty fragment. -/
def groupClause (b : Builder) : Str :=
  if b.group = [] then [] else " ".toList ++ b.group

/-- The trailing clause ` LIMIT ` + marker, present when the limit is greater than -1. -/
def limitClause (b : Builder) : Str :=
  if b.limit > -1 then " LIMIT ".toList ++ b.modifier.PrePh else []

/-- The value that the LIMIT clause appends. -/
def limitValue (b : Builder) : List Value :=
  if b.limit > -1 then [Value.int b.limit] else []

/-- The trailing clause ` OFFSET ` + marker, present when the offset is greater than -1. -/
def offsetClause (b : Builder) : Str :=
  if b.offset > -1 then " OFFSET ".toList ++ b.modifier.PrePh else []

/-- The value that the OFFSET clause appends. -/
def offsetValue (b : Builder) : List Value :=
  if b.offset > -1 then [Value.int b.offset] else []

/-- The assignment list of UPDATE: `field=marker` for each assignment, joined by `, `. -/
def setClause (b : Builder) (data : List (Str × Value)) : Str :=
  Join (data.map fun e => b.modifier.QuoteName e.1 ++ "=".toList ++ b.modifier.PrePh) ", ".toList

/-- What one clause emits in one go: a piece of text and the values it appends to the
parameter list with it. -/
abbrev Emission := Str × List Value

/-- The text of a sequence of emissions. -/
def textOf (E : List Emission) : Str := (E.map Prod.fst).flatten

/-- The values of a sequence of emissions. -/
def valuesOf (E : List Emission) : List Value := (E.map Prod.snd).flatten

/-- The emissions of the condition tokens, in the order of the stream; `none` when a
predicate reference does not resolve. -/
def renderAll (wheres : List (Str × Where)) : List Condition → Option (List Emission)
  | [] => some []
  | c :: rest =>
    match renderCondition wheres c with
    | none => none
    | some e =>
      match renderAll wheres rest with
      | none => none
      | some E => some (e :: E)

/-- The emissions of the WHERE clause: none for an empty condition stream, else the
keyword and then the emissions of the tokens. -/
def whereEmissions (b : Builder) : Option (List Emission) :=
  if b.conditions = [] then some []
  else match renderAll b.wheres b.conditions with
    | some E => some ((" WHERE ".toList, []) :: E)
    | none => none

/-- A sequence of emissions with the separator `, ` between them, as `strings.Join` and
the counter loops put it. -/
def commaBetween : List Emission → List Emission
  | [] => []
  | [a] => [a]
  | a :: b :: rest => a :: (", ".toList, []) :: commaBetween (b :: rest)

/-- The trailing emissions of `ForQuery`, `ForRemove` and `ForUpdate`: the LIMIT clause
with the limit and the OFFSET clause with the offset. -/
def trailEmissions (b : Builder) : List Emission :=
  [(limitClause b, limitValue b), (offsetClause b, offsetValue b)]

/-- The emissions of `ForQuery`, `W` being those of the WHERE clause. -/
def queryEmissions (b : Builder) (W : List Emission) : List Emission :=
  ("SELECT ".toList ++ Join (QuotedColumns b) ", ".toList ++ " FROM ".toList ++
      QuotedTableName b, []) :: W ++
    (orderClause b, []) :: (groupClause b, []) :: trailEmissions b

/-- The emissions of `ForRemove`, `W` being those of the WHERE clause. -/
def removeEmissions (b : Builder) (W : List Emission) : List Emission :=
  ("DELETE FROM ".toList ++ QuotedTableName b, []) :: W ++ trailEmissions b

/-- The emissions of `ForUpdate`, `W` being those of the WHERE clause: every assignment
emits `field=marker` with its value. -/
def updateEmissions (b : Builder) (data : List (Str × Value)) (W : List Emission) :
    List Emission :=
  ("UPDATE ".toList ++ QuotedTableName b ++ " SET ".toList, []) ::
    commaBetween
      (data.map fun e => (b.modifier.QuoteName e.1 ++ "=".toList ++ b.modifier.PrePh, [e.2])) ++
    W ++ trailEmissions b

/-- The emissions of one row of `ForInsert`: the parentheses and, for every entry, one
marker with the value of the entry. -/
def rowEmissions (m : Modifier) (row : List (Str × Value)) : List Emission :=
  ("(".toList, []) :: commaBetween (row.map fun e => (m.PrePh, [e.2])) ++ [(")".toList, [])]

/-- The emissions of several rows, with the separator `, ` between the rows. -/
def commaBetweenRows : List (List Emission) → List Emission
  | [] => []
  | [a] => a
  | a :: b :: rest => a ++ (", ".toList, []) :: commaBetweenRows (b :: rest)

/-- The emissions of `ForInsert`: the field list of the first row, then the rows. -/
def insertEmissions (b : Builder) (data : List (List (Str × Value))) : List Emission :=
  ("INSERT INTO ".toList ++ QuotedTableName b ++
      ("(".toList ++
        Join ((data.head?.getD []).map fun e => b.modifier.QuoteName e.1) ", ".toList ++
        ")".toList) ++ " VALUES".toList, []) ::
    commaBetweenRows (data.map (rowEmissions b.modifier))

/-- The assembly `sql` returns the text and the parameters of the emissions `E`, and every
emission holds as many markers `c` as values: the `i`-th marker of the text stands in the
emission that appended the `i`-th parameter. -/
def EmitsAligned (c : Char) (sql : Option St) (E : List Emission) : Prop :=
  ∃ s, sql = some s ∧ s.1 = textOf E ∧ Params s.2 = valuesOf E ∧
    ∀ e ∈ E, e.1.count c = e.2.length

/-- The characters of the keywords and the punctuation that the generators and the WHERE
renderer emit themselves. -/
def keywordChars : List Char :=
  "SELECT FROM WHERE ORDER BY LIMIT OFFSET DELETE INSERT INTO VALUES UPDATE SET AND OR (),=".toList

/-- The number `k` when `x` is the marker character `c`, and 0 for another character. -/
def weight (x c : Char) (k : Nat) : Nat := if x = c then k else 0

/-- A dialect whose marker at emission is the single character `c` and whose final markers
`Ph(1)`, `Ph(2)`, ... each hold the character `d` exactly once (`d` may be `c`); neither
is a character of a keyword. -/
structure Markers (c d : Char) (m : Modifier) : Prop where
  prePh : m.PrePh = [c]
  ph : ∀ i : Nat, (m.Ph (itoa i)).count d = 1
  keyword_c : c ∉ keywordChars
  keyword_d : d ∉ keywordChars

/-- A text that holds neither marker character. -/
abbrev clean (c d : Char) (t : Str) : Prop := c ∉ t ∧ d ∉ t

/-- A condition token that renders, to a text with one `c` for each value it appends and
with `d` nowhere but as `c`. -/
def alignedCond (c d : Char) (wheres : List (Str × Where)) (cnd : Condition) : Bool :=
  match renderCondition wheres cnd with
  | some (t, vs) => decide (t.count c = vs.length ∧ (d = c ∨ d ∉ t))
  | none => false

/-- The texts that every generator takes from its caller hold no marker character but
the markers of the predicates: the quoted table name is clean and every condition token is
aligned. -/
structure MarkerFree (c d : Char) (b : Builder) : Prop where
  table : clean c d (QuotedTableName b)
  conditions : ∀ cnd ∈ b.conditions, alignedCond c d b.wheres cnd = true

/-- The further texts that `ForQuery` takes from its caller hold no marker character: the
formatted columns, the order entries and the group fragment are clean. -/
structure SelectFree (c d : Char) (b : Builder) : Prop where
  columns : ∀ t ∈ QuotedColumns b, clean c d t
  orders : ∀ e ∈ b.orders, clean c d e.1 ∧ clean c d e.2
  group : clean c d b.group

/-- What `Markers` and `MarkerFree` say about one of the two marker characters, `x`. -/
structure FreeOf (x c : Char) (b : Builder) : Prop where
  keyword : x ∉ keywordChars
  prePh : b.modifier.PrePh = [c]
  table : x ∉ QuotedTableName b
  conditions : ∀ cnd ∈ b.conditions, ∃ t vs,
    renderCondition b.wheres cnd = some (t, vs) ∧ t.count x = weight x c vs.length

/-- What `SelectFree` says about one of the two marker characters, `x`. -/
structure FreeOfSelect (x : Char) (b : Builder) : Prop where
  columns : ∀ t ∈ QuotedColumns b, x ∉ t
  orders : ∀ e ∈ b.orders, x ∉ e.1 ∧ x ∉ e.2
  group : x ∉ b.group

/-- The state after the two trailing statements of `ForQuery`, `ForRemove` and `ForUpdate`
when the text before them is `head` and the parameters before them are `pv`. -/
def trail (b : Builder) (head : Str) (pv : List Value) : St :=
  (head ++ limitClause b ++ offsetClause b,
    { b with values := pv ++ limitValue b ++ offsetValue b })

/-- The text of `ForQuery` before its trailing clauses, `w` being the WHERE clause. -/
def queryHead (b : Builder) (w : Str) : Str :=
  "SELECT ".toList ++ Join (QuotedColumns b) ", ".toList ++ " FROM ".toList ++
    QuotedTableName b ++ w ++ orderClause b ++ groupClause b

/-- The text of `ForRemove` before its trailing clauses. -/
def removeHead (b : Builder) (w : Str) : Str :=
  "DELETE FROM ".toList ++ QuotedTableName b ++ w

/-- The text of `ForUpdate` before its trailing clauses. -/
def updateHead (b : Builder) (data : List (Str × Value)) (w : Str) : Str :=
  "UPDATE ".toList ++ QuotedTableName b ++ " SET ".toList ++ setClause b data ++ w

/-- What a call shows to its caller: the text and the parameter list afterwards. -/
def shown (r : Option St) : Option (Str × List Value) :=
  r.map fun s => (s.1, Params s.2)

/-- The generator with assembly `sql` and call `ret` renders the offset `v` of builder `b`:
its text is the text of the same builder with the offset unset followed by ` OFFSET ` and
one marker, its parameter list is that of the unset builder followed by `v`, and in
parameterized mode the call returns with this parameter list. -/
def AppendsOffset (sql ret : Builder → Option St) (b : Builder) (v : Int) : Prop :=
  ∃ s0 s, sql (Offset b (-1)) = some s0 ∧ sql b = some s ∧
    s.1 = s0.1 ++ (" OFFSET ".toList ++ b.modifier.PrePh) ∧
    Params s.2 = Params s0.2 ++ [.int v] ∧
    (b.isPrepare = false → ∃ r, ret b = some r ∧ Params r.2 = Params s.2)

/-- The generator with assembly `sql` and call `ret` renders the limit `v` of builder `b`:
its text is the text of the same builder with the limit unset with ` LIMIT ` and one marker
put in before the OFFSET clause, its parameter list is that of the unset builder with `v`
put in before the offset, and in parameterized mode the call returns with this parameter
list. -/
def InsertsLimit (sql ret : Builder → Option St) (b : Builder) (v : Int) : Prop :=
  ∃ s0 s pre pv, sql (Limit b (-1)) = some s0 ∧ sql b = some s ∧
    s0.1 = pre ++ offsetClause b ∧
    s.1 = pre ++ (" LIMIT ".toList ++ b.modifier.PrePh) ++ offsetClause b ∧
    Params s0.2 = pv ++ offsetValue b ∧
    Params s.2 = pv ++ [.int v] ++ offsetValue b ∧
    (b.isPrepare = false → ∃ r, ret b = some r ∧ Params r.2 = Params s.2)

/-- With the limit `v`, the generator `gen` shows what it shows with the limit that `Init`
installs: the LIMIT clause and its value are omitted. -/
def OmitsLimit (gen : Builder → Option St) (b : Builder) (v : Int) : Prop :=
  shown (gen (Limit b v)) = shown (gen (Limit b (Init b).limit))

/-- With the offset `v`, the generator `gen` shows what it shows with the offset that `Init`
installs: the OFFSET clause and its value are omitted. -/
def OmitsOffset (gen : Builder → Option St) (b : Builder) (v : Int) : Prop :=
  shown (gen (Offset b v)) = shown (gen (Offset b (Init b).offset))

/-- A value that the type assertion `val.(string)` accepts. -/
def isText : Value → Bool
  | .text _ => true
  | _ => false

/-- The substitution that the spec describes for literal-inlining mode: "substitute each
placeholder occurrence, left to right, with the corresponding parameter value"; the `i`-th
occurrence of `tok` in the original text receives the `i`-th value. -/
def substituteEach (tok : Str) : Str → List Str → Str
  | s, [] => s
  | s, v :: vs =>
    match cut tok s with
    | none => s
    | some (pre, post) => pre ++ v ++ substituteEach tok post vs

/-- The keyword `WHERE`. -/
def kwWHERE : Str := "WHERE".toList

/-- A text in which the keyword WHERE does not occur. -/
abbrev NoWhere (t : Str) : Prop := ¬ kwWHERE <:+: t

/-- A text that is empty or starts with a character that is no letter of WHERE. -/
abbrev sepStart (t : Str) : Prop := ∀ x ∈ t.head?, x ∉ kwWHERE

/-- A text without the keyword WHERE that is empty or starts with a character that is no
letter of it, as every optional clause of a statement does. -/
abbrev Clause (t : Str) : Prop := NoWhere t ∧ sepStart t

/-- The texts a builder takes from its caller and from its dialect do not hold the keyword
WHERE: the quoted table name, the formatted columns, the order entries, the group fragment
and the marker are free of it, and every final marker is a non-empty text with no letter
of it. -/
structure NoWhereIn (b : Builder) : Prop where
  table : NoWhere (QuotedTableName b)
  columns : ∀ t ∈ QuotedColumns b, NoWhere t
  orders : ∀ e ∈ b.orders, NoWhere e.1 ∧ NoWhere e.2
  group : NoWhere b.group
  prePh : NoWhere b.modifier.PrePh
  ph : ∀ i : Nat, b.modifier.Ph (itoa i) ≠ [] ∧ ∀ x ∈ b.modifier.Ph (itoa i), x ∉ kwWHERE

/-- The form of INSERT as the spec writes it,
`INSERT INTO <table>(<fields>) VALUES (<row-placeholders>)[, (<row-placeholders>)...]`: the
fields of the first row, and one blank between the keyword VALUES and the first tuple. -/
def insertForm (b : Builder) (data : List (List (Str × Value))) : Str :=
  "INSERT INTO ".toList ++ QuotedTableName b ++ "(".toList ++
    Join ((data.head?.getD []).map fun e => b.modifier.QuoteName e.1) ", ".toList ++
    ")".toList ++ " VALUES ".toList ++ Join (data.map (tuple b.modifier)) ", ".toList

/-- The generator with assembly `sql` and call `ret` renders limit and offset of builder `b`
as trailing clauses: against the text `s0` and the parameters of the same builder with both
unset, its text and its parameters end with the LIMIT clause and the limit, then the OFFSET
clause and the offset, each present when the field is greater than -1 and absent
otherwise; in parameterized mode the call returns with these parameters. -/
def TrailingClauses (sql ret : Builder → Option St) (b : Builder) : Prop :=
  ∃ s0 s, sql (Offset (Limit b (-1)) (-1)) = some s0 ∧ sql b = some s ∧
    (b.limit > -1 → b.offset > -1 →
      s.1 = s0.1 ++ (" LIMIT ".toList ++ b.modifier.PrePh ++ " OFFSET ".toList ++
        b.modifier.PrePh) ∧
      Params s.2 = Params s0.2 ++ [.int b.limit, .int b.offset]) ∧
    (b.limit > -1 → ¬ b.offset > -1 →
      s.1 = s0.1 ++ (" LIMIT ".toList ++ b.modifier.PrePh) ∧
      Params s.2 = Params s0.2 ++ [.int b.limit]) ∧
    (¬ b.limit > -1 → b.offset > -1 →
      s.1 = s0.1 ++ (" OFFSET ".toList ++ b.modifier.PrePh) ∧
      Params s.2 = Params s0.2 ++ [.int b.offset]) ∧
    (¬ b.limit > -1 → ¬ b.offset > -1 → s.1 = s0.1 ∧ Params s.2 = Params s0.2) ∧
    (b.isPrepare = false → ∃ r, ret b = some r ∧ Params r.2 = Params s.2)

/-- A sequence of `OrderBy` calls on a builder, each call given as its field and its
direction. -/
def OrderByAll (b : Builder) (calls : List (Str × Str)) : Builder :=
  calls.foldl (fun x c => OrderBy x c.1 c.2) b

/-- The direction of the most recent call for the field `f` in a sequence of calls, if
there is one. -/
def lastDirection (calls : List (Str × Str)) (f : Str) : Option Str :=
  calls.reverse.lookup f

/-- The builder as the next call finds it: the Go map of the order entries is the same, and
the `range` loop of that call visits the entries in the order `orders`, which Go may
choose anew at every loop. -/
def nextCall (b : Builder) (orders : List (Str × Str)) : Builder :=
  { b with orders := orders }

/-! ## Example dialects and builders -/

/-- A dialect with bracket quoting and the marker `?` in both forms. -/
def qmark : Modifier :=
  { QuoteName := fun n => "[".toList ++ n ++ "]".toList
    PrePh := "?".toList
    Ph := fun _ => "?".toList }

/-- A dialect with bracket quoting, the marker `?` at emission and the numbered final
form `$1`, `$2`, ... -/
def dollar : Modifier :=
  { QuoteName := fun n => "[".toList ++ n ++ "]".toList
    PrePh := "?".toList
    Ph := fun n => "$".toList ++ n }

/-- A builder on table `users` with the predicates `id=?` (value 7) and `name=?`
(value `a`), a raw fragment, one order entry, limit 10 and offset 0, in dialect `m`. -/
def usersBuilder (m : Modifier) : Builder :=
  { Offset (Limit (From (NewBuilder m) "users".toList) 10) 0 with
    conditions :=
      [⟨.t_WHERE, "w1".toList⟩, ⟨.t_AND, []⟩, ⟨.t_QUOTE_BEGIN, []⟩, ⟨.t_WHERE, "w2".toList⟩,
        ⟨.t_OR, []⟩, ⟨.t_RAW, "deleted IS NULL".toList⟩, ⟨.t_QUOTE_END, []⟩]
    wheres :=
      [("w1".toList, ⟨"id=?".toList, [.int 7]⟩), ("w2".toList, ⟨"name=?".toList, [.text "a".toList]⟩)]
    orders := [("age".toList, "DESC".toList)] }

/-- A builder without conditions whose group fragment holds a marker. -/
def havingBuilder : Builder :=
  { From (NewBuilder qmark) "users".toList with group := "GROUP BY n HAVING n > ?".toList }

/-- Two rows with the fields `name` and `age`. -/
def twoRows : List (List (Str × Value)) :=
  [[("name".toList, .text "a".toList), ("age".toList, .int 1)],
    [("name".toList, .text "b".toList), ("age".toList, .int 2)]]

/-- A builder on table `users` with the single predicate `id = 7`, registered as `id=?`. -/
def idBuilder : Builder :=
  { From (NewBuilder qmark) "users".toList with
    conditions := [⟨.t_WHERE, "w1".toList⟩]
    wheres := [("w1".toList, ⟨"id=?".toList, [.int 7]⟩)] }

/-- A builder on table `users` with limit 10 whose renumbering flag is off, in the numbered
dialect. -/
def rawBuilder : Builder :=
  { Limit (From (NewBuilder dollar) "users".toList) 10 with replace := false }

/-- The builder `From("users").Limit(10).Offset(0)`. -/
def pagedBuilder : Builder :=
  Offset (Limit (From (NewBuilder qmark) "users".toList) 10) 0

/-- The builder `From("users").Limit(10)` in inlining mode. -/
def inlineBuilder : Builder :=
  SetIsPrepare (Limit (From (NewBuilder qmark) "users".toList) 10) true

/-- The builder `From("users")` in inlining mode. -/
def inlineUsers : Builder :=
  SetIsPrepare (From (NewBuilder qmark) "users".toList) true

/-- A builder without conditions whose group fragment holds a subquery with a WHERE
clause. -/
def subqueryBuilder : Builder :=
  { From (NewBuilder qmark) "users".toList with
    group := "GROUP BY a HAVING a IN (SELECT a FROM t WHERE b=1)".toList }

/-- The builder after `From("users")`, `SetIsPrepare(true)` and a call of `ForQuery`. -/
def usedBuilder : Option Builder :=
  (ForQuery (SetIsPrepare (From (NewBuilder qmark) "users".toList) true)).map Prod.snd

/-- Three rows of different shapes: one entry, two entries, none. -/
def raggedRows : List (List (Str × Value)) :=
  [[("a".toList, .int 1)], [("b".toList, .int 2), ("c".toList, .int 3)], []]

/-- The builder after `OrderBy(f, ASC)` and `OrderBy(f, DESC)`. -/
def twiceOrdered : Builder :=
  OrderByAll (From (NewBuilder qmark) "users".toList)
    [("f".toList, "ASC".toList), ("f".toList, "DESC".toList)]

/-- The builder after `OrderBy(a, ASC)` and `OrderBy(b, DESC)`. -/
def twoOrders : Builder :=
  OrderByAll (From (NewBuilder qmark) "users".toList)
    [("a".toList, "ASC".toList), ("b".toList, "DESC".toList)]

/-- What `ForQuery` returns on `usersBuilder` in the dialect `qmark`. -/
def usersRendered : St :=
  (("SELECT * FROM [users] WHERE id=? AND (name=? OR deleted IS NULL) " ++
      "ORDER BY age DESC LIMIT ? OFFSET ?").toList,
    { usersBuilder qmark with values := [.int 7, .text "a".toList, .int 10, .int 0] })

/-- The builder `twoOrders` with the stale parameter `stale` in its parameter list, as a
call finds it whose `range` loop visits the two order entries in the other order. -/
def staleTwo : Builder :=
  nextCall { twoOrders with values := [.text "stale".toList] }
    [("b".toList, "DESC".toList), ("a".toList, "ASC".toList)]

/-! ## Basic facts -/

theorem foldl_snoc_eq (vs acc : List Value) :
    vs.foldl (fun result val => result ++ [val]) acc = acc ++ vs := by
  induction vs generalizing acc with
  | nil => simp
  | cons v vs ih => simp [ih]

theorem Params_eq (b : Builder) : Params b = b.values := by
  simp [Params, foldl_snoc_eq]

theorem cut_some {old : Str} {s pre post : Str} (h : cut old s = some (pre, post)) :
    s = pre ++ old ++ post := by
  induction s generalizing pre with
  | nil =>
    by_cases ho : old = []
    · simp [cut, ho] at h
      simp [h.1, h.2, ho]
    · simp [cut, ho] at h
  | cons c s ih =>
    unfold cut at h
    split at h
    · rename_i hp
      simp only [Option.some.injEq, Prod.mk.injEq] at h
      obtain ⟨rfl, rfl⟩ := h
      have := (List.prefix_iff_eq_append).1 (List.isPrefixOf_iff_prefix.1 hp)
      simpa using this.symm
    · split at h
      · rename_i p q hc
        simp only [Option.some.injEq, Prod.mk.injEq] at h
        obtain ⟨rfl, rfl⟩ := h
        simp [ih hc]
      · simp at h

theorem cut_char_none {c : Char} {s : Str} (h : cut [c] s = none) : c ∉ s := by
  induction s with
  | nil => simp
  | cons x s ih =>
    unfold cut at h
    split at h
    · simp at h
    · rename_i hp
      split at h
      · simp at h
      · rename_i hc
        have hx : x ≠ c := by
          intro e
          apply hp
          simp [e]
        simp only [List.mem_cons, not_or]
        exact ⟨fun e => hx e.symm, ih hc⟩

theorem cut_char_pre {c : Char} {s pre post : Str} (h : cut [c] s = some (pre, post)) :
    c ∉ pre := by
  induction s generalizing pre with
  | nil => simp [cut] at h
  | cons x s ih =>
    unfold cut at h
    split at h
    · simp only [Option.some.injEq, Prod.mk.injEq] at h
      simp [← h.1]
    · rename_i hp
      split at h
      · rename_i p q hc
        simp only [Option.some.injEq, Prod.mk.injEq] at h
        obtain ⟨rfl, rfl⟩ := h
        have hx : x ≠ c := by
          intro e
          apply hp
          simp [e]
        simp only [List.mem_cons, not_or]
        exact ⟨fun e => hx e.symm, ih hc⟩
      · simp at h

theorem cut_length {old : Str} {s pre post : Str} (ho : old ≠ [])
    (h : cut old s = some (pre, post)) : post.length < s.length := by
  have := cut_some h
  have hl : 0 < old.length := List.length_pos.2 ho
  rw [this]
  simp only [List.length_append]
  omega

theorem cut_nil_of_nonempty {old : Str} (h : old ≠ []) : cut old [] = none := by
  simp [cut, h]

/-- The scan of the renumbering pass does not depend on its fuel once the fuel is the
length of the text: the fuel that `replace` gives is enough. -/
theorem replaceFrom_fuel (m : Modifier) (h : m.PrePh ≠ []) (f1 f2 i : Nat) (s : Str)
    (h1 : s.length ≤ f1) (h2 : s.length ≤ f2) :
    replaceFrom m f1 i s = replaceFrom m f2 i s := by
  induction f1 generalizing f2 i s with
  | zero =>
    have hs : s = [] := List.length_eq_zero.1 (Nat.le_zero.1 h1)
    subst hs
    cases f2 with
    | zero => rfl
    | succ f2 => simp [replaceFrom, cut_nil_of_nonempty h]
  | succ f1 ih =>
    cases f2 with
    | zero =>
      have hs : s = [] := List.length_eq_zero.1 (Nat.le_zero.1 h2)
      subst hs
      simp [replaceFrom, cut_nil_of_nonempty h]
    | succ f2 =>
      unfold replaceFrom
      cases hc : cut m.PrePh s with
      | none => rfl
      | some r =>
        obtain ⟨pre, post⟩ := r
        have hl := cut_length h hc
        show pre ++ m.Ph (itoa i) ++ replaceFrom m f1 (i + 1) post =
          pre ++ m.Ph (itoa i) ++ replaceFrom m f2 (i + 1) post
        rw [ih f2 (i + 1) post (by omega) (by omega)]

/-! ## Closed forms of the loops -/

theorem handleOrderByLoop_eq (length : Nat) (rest : List (Str × Str)) (i : Nat) (sql : Str)
    (h : i + rest.length = length + 1) :
    handleOrderByLoop length rest i sql =
      sql ++ Join (rest.map fun e => e.1 ++ " ".toList ++ e.2) ", ".toList := by
  induction rest generalizing i sql with
  | nil => simp [handleOrderByLoop, Join]
  | cons e rest ih =>
    obtain ⟨field, order⟩ := e
    cases rest with
    | nil =>
      have hi : ¬ i < length := by simp at h; omega
      simp [handleOrderByLoop, Join, hi]
    | cons e' rest =>
      have hi : i < length := by simp at h; omega
      have h' : (i + 1) + (e' :: rest).length = length + 1 := by simp at h ⊢; omega
      rw [handleOrderByLoop]
      simp only [hi, if_true]
      rw [ih (i + 1) _ h']
      simp [Join, List.append_assoc]

theorem handleOrderBy_eq (orders : List (Str × Str)) :
    handleOrderBy orders =
      " ORDER BY ".toList ++ Join (orders.map fun e => e.1 ++ " ".toList ++ e.2) ", ".toList := by
  unfold handleOrderBy
  cases orders with
  | nil => simp [handleOrderByLoop, Join]
  | cons e rest => exact handleOrderByLoop_eq _ _ _ _ (by simp; omega)

theorem ForUpdate_set_eq (length : Nat) (rest : List (Str × Value)) (i : Nat) (sql : Str)
    (b : Builder) (h : i + rest.length = length + 1) :
    ForUpdate_set length rest i (sql, b) =
      (sql ++ Join (rest.map fun e => b.modifier.QuoteName e.1 ++ "=".toList ++ b.modifier.PrePh)
          ", ".toList,
        { b with values := b.values ++ rest.map Prod.snd }) := by
  induction rest generalizing i sql b with
  | nil => simp [ForUpdate_set, Join]
  | cons e rest ih =>
    obtain ⟨field, value⟩ := e
    cases rest with
    | nil =>
      have hi : ¬ i < length := by simp at h; omega
      simp [ForUpdate_set, Join, hi]
    | cons e' rest =>
      have hi : i < length := by simp at h; omega
      have h' : (i + 1) + (e' :: rest).length = length + 1 := by simp at h ⊢; omega
      rw [ForUpdate_set]
      simp only [hi, if_true]
      rw [ih (i + 1) _ _ h']
      simp [Join, List.append_assoc]

theorem ForUpdate_set_nil (length i : Nat) (s : St) : ForUpdate_set length [] i s = s := by
  simp [ForUpdate_set]

theorem ForInsert_row_eq (m : Modifier) (i : Nat) (row : List (Str × Value))
    (fields rowValue : List Str) (vals : List Value) :
    ForInsert_row m i row (fields, rowValue, vals) =
      (fields ++ (if i = 0 then row.map (fun e => m.QuoteName e.1) else []),
        rowValue ++ row.map (fun _ => m.PrePh), vals ++ row.map Prod.snd) := by
  induction row generalizing fields rowValue vals with
  | nil => simp [ForInsert_row]
  | cons e row ih =>
    obtain ⟨field, value⟩ := e
    simp only [ForInsert_row]
    rw [ih]
    by_cases hi : i = 0 <;> simp [hi]

theorem ForInsert_rows_eq (m : Modifier) (i : Nat) (data : List (List (Str × Value)))
    (fields values : List Str) (vals : List Value) :
    ForInsert_rows m i data (fields, values, vals) =
      (fields ++ (if i = 0 then (data.head?.getD []).map (fun e => m.QuoteName e.1) else []),
        values ++ data.map (tuple m), vals ++ (data.map fun row => row.map Prod.snd).flatten) := by
  induction data generalizing i fields values vals with
  | nil => simp [ForInsert_rows]
  | cons row data ih =>
    simp only [ForInsert_rows, ForInsert_row_eq]
    rw [ih]
    by_cases hi : i = 0 <;> simp [hi, tuple, List.append_assoc]

theorem ForInsert_sql_eq (b : Builder) (data : List (List (Str × Value))) :
    ForInsert_sql b data =
      ("INSERT INTO ".toList ++ QuotedTableName b ++
          ("(".toList ++
              Join ((data.head?.getD []).map fun e => b.modifier.QuoteName e.1) ", ".toList ++
            ")".toList) ++
          (" VALUES".toList ++ Join (data.map (tuple b.modifier)) ", ".toList),
        { b with values := (data.map fun row => row.map Prod.snd).flatten }) := by
  simp [ForInsert_sql, ForInsert_rows_eq]

/-! ## Closed forms of the generators -/

theorem stWhere_eq (sql : Str) (b : Builder) :
    stWhere (sql, b) =
      match whereClause b with
      | some (w, vs) => some (sql ++ w, { b with values := b.values ++ vs })
      | none => none := by
  unfold stWhere whereClause handleWhere
  by_cases hc : b.conditions = []
  · have hl : ¬ b.conditions.length > 0 := by simp [hc]
    simp only [hl, if_false]
    rw [if_pos hc]
    simp
  · have hl : b.conditions.length > 0 := List.length_pos.2 hc
    simp only [hl, hc, if_true, if_false]
    cases hr : renderConditions b.wheres b.conditions with
    | none => simp
    | some r => simp

theorem stOrder_eq (sql : Str) (b : Builder) : stOrder (sql, b) = (sql ++ orderClause b, b) := by
  unfold stOrder orderClause
  cases b.orders <;> simp

theorem stGroup_eq (sql : Str) (b : Builder) : stGroup (sql, b) = (sql ++ groupClause b, b) := by
  unfold stGroup groupClause
  by_cases h : b.group = [] <;> simp [h]

theorem stLimit_eq (sql : Str) (b : Builder) :
    stLimit (sql, b) = (sql ++ limitClause b, { b with values := b.values ++ limitValue b }) := by
  unfold stLimit limitClause limitValue
  by_cases h : b.limit > -1 <;> simp [h]

theorem stOffset_eq (sql : Str) (b : Builder) :
    stOffset (sql, b) = (sql ++ offsetClause b, { b with values := b.values ++ offsetValue b }) := by
  unfold stOffset offsetClause offsetValue
  by_cases h : b.offset > -1 <;> simp [h]

theorem ForQuery_sql_eq (b : Builder) :
    ForQuery_sql b =
      match whereClause b with
      | some (w, vs) =>
        some ("SELECT ".toList ++ Join (QuotedColumns b) ", ".toList ++ " FROM ".toList ++
            QuotedTableName b ++ w ++ orderClause b ++ groupClause b ++ limitClause b ++
            offsetClause b,
          { b with values := vs ++ limitValue b ++ offsetValue b })
      | none => none := by
  unfold ForQuery_sql
  simp only [stWhere_eq]
  have hw : whereClause { b with values := [] } = whereClause b := rfl
  rw [hw]
  cases whereClause b with
  | none => rfl
  | some r =>
    obtain ⟨w, vs⟩ := r
    simp only [stOrder_eq, stGroup_eq, stLimit_eq, stOffset_eq]
    simp [orderClause, groupClause, limitClause, limitValue, offsetClause, offsetValue,
      QuotedColumns, QuotedTableName, List.append_assoc]

theorem ForRemove_sql_eq (b : Builder) :
    ForRemove_sql b =
      match whereClause b with
      | some (w, vs) =>
        some ("DELETE FROM ".toList ++ QuotedTableName b ++ w ++ limitClause b ++ offsetClause b,
          { b with values := vs ++ limitValue b ++ offsetValue b })
      | none => none := by
  unfold ForRemove_sql
  simp only [stWhere_eq]
  have hw : whereClause { b with values := [] } = whereClause b := rfl
  rw [hw]
  cases whereClause b with
  | none => rfl
  | some r =>
    obtain ⟨w, vs⟩ := r
    simp only [stLimit_eq, stOffset_eq]
    simp [limitClause, limitValue, offsetClause, offsetValue, QuotedTableName, List.append_assoc]

theorem ForUpdate_sql_eq (b : Builder) (data : List (Str × Value)) :
    ForUpdate_sql b data =
      match whereClause b with
      | some (w, vs) =>
        some ("UPDATE ".toList ++ QuotedTableName b ++ " SET ".toList ++ setClause b data ++ w ++
            limitClause b ++ offsetClause b,
          { b with values := data.map Prod.snd ++ vs ++ limitValue b ++ offsetValue b })
      | none => none := by
  unfold ForUpdate_sql
  have hset : ∀ sql (b0 : Builder), ForUpdate_set data.length data 1 (sql, b0) =
      (sql ++ setClause b0 data, { b0 with values := b0.values ++ data.map Prod.snd }) := by
    intro sql b0
    cases data with
    | nil => simp [ForUpdate_set, setClause, Join]
    | cons e rest => exact ForUpdate_set_eq _ _ _ _ _ (by simp; omega)
  simp only [hset, stWhere_eq]
  have hw : whereClause { b with values := ([] : List Value) ++ data.map Prod.snd } =
      whereClause b := rfl
  simp only [hw]
  cases whereClause b with
  | none => rfl
  | some r =>
    obtain ⟨w, vs⟩ := r
    simp only [stLimit_eq, stOffset_eq]
    simp [limitClause, limitValue, offsetClause, offsetValue, QuotedTableName, setClause,
      List.append_assoc]

/-! ## Counting marker characters -/

theorem count_keyword {x : Char} (hx : x ∉ keywordChars) (s : Str)
    (hs : ∀ y ∈ s, y ∈ keywordChars) : s.count x = 0 :=
  List.count_eq_zero.2 fun h => hx (hs x h)

theorem count_SELECT {x : Char} (hx : x ∉ keywordChars) : List.count x "SELECT ".toList = 0 :=
  count_keyword hx _ (by decide)

theorem count_comma {x : Char} (hx : x ∉ keywordChars) : List.count x ", ".toList = 0 :=
  count_keyword hx _ (by decide)

theorem count_FROM {x : Char} (hx : x ∉ keywordChars) : List.count x " FROM ".toList = 0 :=
  count_keyword hx _ (by decide)

theorem count_WHERE {x : Char} (hx : x ∉ keywordChars) : List.count x " WHERE ".toList = 0 :=
  count_keyword hx _ (by decide)

theorem count_ORDERBY {x : Char} (hx : x ∉ keywordChars) : List.count x " ORDER BY ".toList = 0 :=
  count_keyword hx _ (by decide)

theorem count_blank {x : Char} (hx : x ∉ keywordChars) : List.count x " ".toList = 0 :=
  count_keyword hx _ (by decide)

theorem count_LIMIT {x : Char} (hx : x ∉ keywordChars) : List.count x " LIMIT ".toList = 0 :=
  count_keyword hx _ (by decide)

theorem count_OFFSET {x : Char} (hx : x ∉ keywordChars) : List.count x " OFFSET ".toList = 0 :=
  count_keyword hx _ (by decide)

theorem count_DELETE {x : Char} (hx : x ∉ keywordChars) : List.count x "DELETE FROM ".toList = 0 :=
  count_keyword hx _ (by decide)

theorem count_INSERT {x : Char} (hx : x ∉ keywordChars) : List.count x "INSERT INTO ".toList = 0 :=
  count_keyword hx _ (by decide)

theorem count_open {x : Char} (hx : x ∉ keywordChars) : List.count x "(".toList = 0 :=
  count_keyword hx _ (by decide)

theorem count_close {x : Char} (hx : x ∉ keywordChars) : List.count x ")".toList = 0 :=
  count_keyword hx _ (by decide)

theorem count_VALUES {x : Char} (hx : x ∉ keywordChars) : List.count x " VALUES".toList = 0 :=
  count_keyword hx _ (by decide)

theorem count_UPDATE {x : Char} (hx : x ∉ keywordChars) : List.count x "UPDATE ".toList = 0 :=
  count_keyword hx _ (by decide)

theorem count_SET {x : Char} (hx : x ∉ keywordChars) : List.count x " SET ".toList = 0 :=
  count_keyword hx _ (by decide)

theorem count_eq {x : Char} (hx : x ∉ keywordChars) : List.count x "=".toList = 0 :=
  count_keyword hx _ (by decide)

theorem count_AND {x : Char} (hx : x ∉ keywordChars) : List.count x " AND ".toList = 0 :=
  count_keyword hx _ (by decide)

theorem count_OR {x : Char} (hx : x ∉ keywordChars) : List.count x " OR ".toList = 0 :=
  count_keyword hx _ (by decide)

theorem weight_self (c : Char) (k : Nat) : weight c c k = k := by simp [weight]

theorem weight_zero (x c : Char) : weight x c 0 = 0 := by simp [weight]

theorem weight_add (x c : Char) (j k : Nat) : weight x c (j + k) = weight x c j + weight x c k := by
  unfold weight
  split <;> rfl

theorem count_marker (x c : Char) : List.count x [c] = weight x c 1 := by
  unfold weight
  by_cases h : x = c
  · simp [h]
  · have h' : ¬ c = x := fun e => h e.symm
    simp [h, List.count_singleton, h']

theorem count_Join (x : Char) (ts : List Str) (sep : Str) :
    (Join ts sep).count x = (ts.map (List.count x)).sum + (ts.length - 1) * sep.count x := by
  induction ts with
  | nil => simp [Join]
  | cons a ts ih =>
    cases ts with
    | nil => simp [Join]
    | cons b rest =>
      simp only [Join, List.count_append, ih, List.map_cons, List.sum_cons, List.length_cons]
      simp only [Nat.add_sub_cancel]
      ring

theorem sum_map_count {α : Type} (x : Char) (f : α → Str) (k : Nat) (l : List α)
    (h : ∀ a ∈ l, (f a).count x = k) : ((l.map f).map (List.count x)).sum = l.length * k := by
  induction l with
  | nil => simp
  | cons a l ih =>
    have ha := h a (List.mem_cons_self _ _)
    have hl := ih fun a' h' => h a' (List.mem_cons_of_mem _ h')
    simp only [List.map_cons, List.sum_cons, ha, hl, List.length_cons]
    ring

theorem weight_mul (x c : Char) (n : Nat) : n * weight x c 1 = weight x c n := by
  unfold weight
  split <;> simp

theorem renderConditions_count (x c : Char) (wheres : List (Str × Where))
    (conds : List Condition)
    (h : ∀ cnd ∈ conds, ∃ t vs,
      renderCondition wheres cnd = some (t, vs) ∧ t.count x = weight x c vs.length) :
    ∃ t vs, renderConditions wheres conds = some (t, vs) ∧ t.count x = weight x c vs.length := by
  induction conds with
  | nil => exact ⟨[], [], rfl, by simp [weight_zero]⟩
  | cons cnd rest ih =>
    obtain ⟨t, vs, h1, h2⟩ := h cnd (List.mem_cons_self _ _)
    obtain ⟨t', vs', h1', h2'⟩ := ih fun a ha => h a (List.mem_cons_of_mem _ ha)
    refine ⟨t ++ t', vs ++ vs', ?_, ?_⟩
    · simp [renderConditions, h1, h1']
    · simp [List.count_append, h2, h2', weight_add]

theorem whereClause_count {x c : Char} {b : Builder} (h : FreeOf x c b) :
    ∃ w vs, whereClause b = some (w, vs) ∧ w.count x = weight x c vs.length := by
  unfold whereClause
  by_cases hc : b.conditions = []
  · exact ⟨[], [], by simp [hc], by simp [weight_zero]⟩
  · obtain ⟨t, vs, h1, h2⟩ := renderConditions_count x c b.wheres b.conditions h.conditions
    refine ⟨" WHERE ".toList ++ t, vs, by simp only [hc, h1, if_false], ?_⟩
    simp only [List.count_append, count_WHERE h.keyword, h2, Nat.zero_add]

theorem orderClause_count {x : Char} {b : Builder} (hk : x ∉ keywordChars)
    (h : FreeOfSelect x b) : (orderClause b).count x = 0 := by
  unfold orderClause
  split
  · simp
  · rw [handleOrderBy_eq, List.count_append, count_ORDERBY hk, count_Join,
      count_comma hk, sum_map_count x _ 0]
    · simp
    · intro e he
      have := h.orders e he
      simp only [List.count_append, count_blank hk, List.count_eq_zero.2 this.1,
        List.count_eq_zero.2 this.2]

theorem groupClause_count {x : Char} {b : Builder} (hk : x ∉ keywordChars)
    (h : FreeOfSelect x b) : (groupClause b).count x = 0 := by
  unfold groupClause
  split
  · simp
  · simp only [List.count_append, count_blank hk, List.count_eq_zero.2 h.group]

theorem limitClause_count {x c : Char} {b : Builder} (h : FreeOf x c b) :
    (limitClause b).count x = weight x c (limitValue b).length := by
  unfold limitClause limitValue
  split
  · simp only [List.count_append, count_LIMIT h.keyword, h.prePh, count_marker,
      List.length_singleton, Nat.zero_add]
  · simp [weight_zero]

theorem offsetClause_count {x c : Char} {b : Builder} (h : FreeOf x c b) :
    (offsetClause b).count x = weight x c (offsetValue b).length := by
  unfold offsetClause offsetValue
  split
  · simp only [List.count_append, count_OFFSET h.keyword, h.prePh, count_marker,
      List.length_singleton, Nat.zero_add]
  · simp [weight_zero]

theorem columns_count {x : Char} {b : Builder} (hk : x ∉ keywordChars)
    (h : FreeOfSelect x b) : (Join (QuotedColumns b) ", ".toList).count x = 0 := by
  rw [count_Join, count_comma hk]
  have := sum_map_count x (fun t : Str => t) 0 (QuotedColumns b)
    (fun t ht => List.count_eq_zero.2 (h.columns t ht))
  simp only [List.map_id'] at this
  simp [this]

theorem setClause_count {x c : Char} {b : Builder} (h : FreeOf x c b)
    (data : List (Str × Value)) (hd : ∀ e ∈ data, x ∉ b.modifier.QuoteName e.1) :
    (setClause b data).count x = weight x c data.length := by
  unfold setClause
  rw [count_Join, count_comma h.keyword, sum_map_count x _ (weight x c 1)]
  · simp [weight_mul]
  · intro e he
    simp only [List.count_append, count_eq h.keyword, h.prePh, count_marker,
      List.count_eq_zero.2 (hd e he), Nat.zero_add, Nat.add_zero]

theorem tuple_count {x c : Char} {m : Modifier} (hk : x ∉ keywordChars) (hp : m.PrePh = [c])
    (row : List (Str × Value)) : (tuple m row).count x = weight x c row.length := by
  unfold tuple
  rw [List.count_append, List.count_append, count_open hk, count_close hk, count_Join,
    count_comma hk, sum_map_count x _ (weight x c 1)]
  · simp [weight_mul]
  · intro e _
    simp [hp, count_marker]

theorem ForQuery_sql_count {x c : Char} {b : Builder} (h : FreeOf x c b)
    (hs : FreeOfSelect x b) :
    ∃ s, ForQuery_sql b = some s ∧ s.1.count x = weight x c s.2.values.length ∧
      s.2.modifier = b.modifier ∧ s.2.isPrepare = b.isPrepare ∧ s.2.replace = b.replace := by
  obtain ⟨w, vs, hw, hc⟩ := whereClause_count h
  rw [ForQuery_sql_eq, hw]
  refine ⟨_, rfl, ?_, rfl, rfl, rfl⟩
  simp only [List.count_append, count_SELECT h.keyword, columns_count h.keyword hs,
    count_FROM h.keyword, List.count_eq_zero.2 h.table, hc, orderClause_count h.keyword hs,
    groupClause_count h.keyword hs, limitClause_count h, offsetClause_count h,
    List.length_append, weight_add]
  omega

theorem ForRemove_sql_count {x c : Char} {b : Builder} (h : FreeOf x c b) :
    ∃ s, ForRemove_sql b = some s ∧ s.1.count x = weight x c s.2.values.length ∧
      s.2.modifier = b.modifier ∧ s.2.isPrepare = b.isPrepare := by
  obtain ⟨w, vs, hw, hc⟩ := whereClause_count h
  rw [ForRemove_sql_eq, hw]
  refine ⟨_, rfl, ?_, rfl, rfl⟩
  simp only [List.count_append, count_DELETE h.keyword, List.count_eq_zero.2 h.table, hc,
    limitClause_count h, offsetClause_count h, List.length_append, weight_add]
  omega

theorem ForUpdate_sql_count {x c : Char} {b : Builder} (h : FreeOf x c b)
    (data : List (Str × Value)) (hd : ∀ e ∈ data, x ∉ b.modifier.QuoteName e.1) :
    ∃ s, ForUpdate_sql b data = some s ∧ s.1.count x = weight x c s.2.values.length ∧
      s.2.modifier = b.modifier ∧ s.2.isPrepare = b.isPrepare := by
  obtain ⟨w, vs, hw, hc⟩ := whereClause_count h
  rw [ForUpdate_sql_eq, hw]
  refine ⟨_, rfl, ?_, rfl, rfl⟩
  simp only [List.count_append, count_UPDATE h.keyword, count_SET h.keyword,
    List.count_eq_zero.2 h.table, hc, setClause_count h data hd, limitClause_count h,
    offsetClause_count h, List.length_append, List.length_map, weight_add]
  omega

theorem sum_map_weight {α : Type} (x c : Char) (f : α → Nat) (l : List α) :
    (l.map fun a => weight x c (f a)).sum = weight x c (l.map f).sum := by
  induction l with
  | nil => simp [weight_zero]
  | cons a l ih => simp [ih, weight_add]

theorem ForInsert_sql_count {x c : Char} {b : Builder} (hk : x ∉ keywordChars)
    (hp : b.modifier.PrePh = [c]) (ht : x ∉ QuotedTableName b)
    (data : List (List (Str × Value)))
    (hd : ∀ e ∈ data.head?.getD [], x ∉ b.modifier.QuoteName e.1) :
    (ForInsert_sql b data).1.count x = weight x c (ForInsert_sql b data).2.values.length := by
  rw [ForInsert_sql_eq]
  have hf : (Join ((data.head?.getD []).map fun e => b.modifier.QuoteName e.1)
      ", ".toList).count x = 0 := by
    rw [count_Join, count_comma hk, List.map_map, ]
    have := sum_map_count x (fun e : Str × Value => b.modifier.QuoteName e.1) 0
      (data.head?.getD []) (fun e he => List.count_eq_zero.2 (hd e he))
    rw [List.map_map] at this
    simp [this]
  have hv : (Join (data.map (tuple b.modifier)) ", ".toList).count x =
      weight x c (data.map fun row => row.map Prod.snd).flatten.length := by
    rw [count_Join, count_comma hk, List.map_map]
    have e1 : (List.count x ∘ tuple b.modifier) = fun row => weight x c row.length := by
      funext row
      exact tuple_count hk hp row
    rw [e1, sum_map_weight]
    simp [List.length_flatten, List.map_map, Function.comp_def]
  simp only [List.count_append, count_INSERT hk, count_open hk, count_close hk,
    count_VALUES hk, List.count_eq_zero.2 ht, hf, hv]
  omega

theorem replaceFrom_count {c d : Char} {m : Modifier} (hP : m.PrePh = [c])
    (hph : ∀ i : Nat, (m.Ph (itoa i)).count d = 1) (fuel i : Nat) (s : Str)
    (hf : s.length ≤ fuel) :
    (replaceFrom m fuel i s).count d = s.count c + (if d = c then 0 else s.count d) := by
  induction fuel generalizing i s with
  | zero =>
    have : s = [] := List.length_eq_zero.1 (Nat.le_zero.1 hf)
    subst this
    simp [replaceFrom]
  | succ fuel ih =>
    unfold replaceFrom
    rw [hP]
    cases hc : cut [c] s with
    | none =>
      have h0 := List.count_eq_zero.2 (cut_char_none hc)
      by_cases hdc : d = c
      · simp [hdc, h0]
      · simp [hdc, h0]
    | some r =>
      obtain ⟨pre, post⟩ := r
      have hs := cut_some hc
      have hpre := List.count_eq_zero.2 (cut_char_pre hc)
      have hlen : post.length ≤ fuel := by
        have := cut_length (by simp) hc
        omega
      simp only [List.count_append, hph, ih (i + 1) post hlen]
      rw [hs]
      simp only [List.count_append, hpre, count_marker]
      by_cases hdc : d = c
      · subst hdc
        simp [weight_self, hpre]
      · have hw : weight d c 1 = 0 := by simp [weight, hdc]
        simp [hdc, hw, weight_self]
        omega

theorem replace_count {c d : Char} {m : Modifier} (hm : Markers c d m) (s : Str) (n : Nat)
    (hc : s.count c = n) (hd : s.count d = weight d c n) : (replace m s).count d = n := by
  unfold replace
  rw [if_neg (by simp [hm.prePh]), replaceFrom_count hm.prePh hm.ph _ _ _ (Nat.le_refl _), hc]
  by_cases hdc : d = c
  · simp [hdc]
  · have : weight d c n = 0 := by simp [weight, hdc]
    simp [hdc, hd, this]

theorem toSql_parameterized (b : Builder) (sql : Str) (h : b.isPrepare = false) :
    toSql b sql = some sql := by
  simp [toSql, h]

theorem stReturn_parameterized (s : St) (h : s.2.isPrepare = false) : stReturn s = some s := by
  simp [stReturn, toSql_parameterized _ _ h]

theorem freeOf_c {c d : Char} {b : Builder} (hm : Markers c d b.modifier)
    (hb : MarkerFree c d b) : FreeOf c c b := by
  refine ⟨hm.keyword_c, hm.prePh, hb.table.1, ?_⟩
  intro cnd hc
  have := hb.conditions cnd hc
  unfold alignedCond at this
  split at this
  · rename_i t vs hr
    simp only [decide_eq_true_eq] at this
    exact ⟨t, vs, hr, by rw [weight_self]; exact this.1⟩
  · simp at this

theorem freeOf_d {c d : Char} {b : Builder} (hm : Markers c d b.modifier)
    (hb : MarkerFree c d b) : FreeOf d c b := by
  refine ⟨hm.keyword_d, hm.prePh, hb.table.2, ?_⟩
  intro cnd hc
  have := hb.conditions cnd hc
  unfold alignedCond at this
  split at this
  · rename_i t vs hr
    simp only [decide_eq_true_eq] at this
    refine ⟨t, vs, hr, ?_⟩
    rcases this.2 with h | h
    · rw [h, weight_self]; exact this.1
    · by_cases hdc : d = c
      · rw [hdc, weight_self]; exact this.1
      · simp [weight, hdc, List.count_eq_zero.2 h]
  · simp at this

/-! ## Emissions -/

theorem textOf_nil : textOf [] = [] := rfl

theorem valuesOf_nil : valuesOf [] = [] := rfl

theorem textOf_cons (e : Emission) (E : List Emission) : textOf (e :: E) = e.1 ++ textOf E := by
  simp [textOf]

theorem valuesOf_cons (e : Emission) (E : List Emission) :
    valuesOf (e :: E) = e.2 ++ valuesOf E := by
  simp [valuesOf]

theorem textOf_append (E F : List Emission) : textOf (E ++ F) = textOf E ++ textOf F := by
  simp [textOf]

theorem valuesOf_append (E F : List Emission) :
    valuesOf (E ++ F) = valuesOf E ++ valuesOf F := by
  simp [valuesOf]

theorem textOf_commaBetween (L : List Emission) :
    textOf (commaBetween L) = Join (L.map Prod.fst) ", ".toList := by
  induction L with
  | nil => rfl
  | cons a L ih =>
    cases L with
    | nil => simp [commaBetween, Join, textOf_cons, textOf_nil]
    | cons b rest =>
      simp only [commaBetween, textOf_cons, ih, List.map_cons, Join, List.append_assoc]

theorem valuesOf_commaBetween (L : List Emission) :
    valuesOf (commaBetween L) = (L.map Prod.snd).flatten := by
  induction L with
  | nil => rfl
  | cons a L ih =>
    cases L with
    | nil => simp [commaBetween, valuesOf_cons, valuesOf_nil]
    | cons b rest =>
      simp only [commaBetween, valuesOf_cons, ih, List.map_cons, List.flatten_cons,
        List.nil_append]

theorem textOf_commaBetweenRows (LL : List (List Emission)) :
    textOf (commaBetweenRows LL) = Join (LL.map textOf) ", ".toList := by
  induction LL with
  | nil => rfl
  | cons a LL ih =>
    cases LL with
    | nil => simp [commaBetweenRows, Join]
    | cons b rest =>
      simp only [commaBetweenRows, textOf_append, textOf_cons, ih, List.map_cons, Join,
        List.append_assoc]

theorem valuesOf_commaBetweenRows (LL : List (List Emission)) :
    valuesOf (commaBetweenRows LL) = (LL.map valuesOf).flatten := by
  induction LL with
  | nil => rfl
  | cons a LL ih =>
    cases LL with
    | nil => simp [commaBetweenRows]
    | cons b rest =>
      simp only [commaBetweenRows, valuesOf_append, valuesOf_cons, ih, List.map_cons,
        List.flatten_cons, List.nil_append]

theorem mem_commaBetween {e : Emission} {L : List Emission} (h : e ∈ commaBetween L) :
    e ∈ L ∨ e = (", ".toList, []) := by
  induction L with
  | nil => simp [commaBetween] at h
  | cons a L ih =>
    cases L with
    | nil => exact Or.inl (by simpa [commaBetween] using h)
    | cons b rest =>
      simp only [commaBetween, List.mem_cons] at h
      rcases h with h | h | h
      · exact Or.inl (by simp [h])
      · exact Or.inr h
      · rcases ih (by simpa [List.mem_cons] using h) with h' | h'
        · exact Or.inl (List.mem_cons_of_mem _ h')
        · exact Or.inr h'

theorem mem_commaBetweenRows {e : Emission} {LL : List (List Emission)}
    (h : e ∈ commaBetweenRows LL) : (∃ L ∈ LL, e ∈ L) ∨ e = (", ".toList, []) := by
  induction LL with
  | nil => simp [commaBetweenRows] at h
  | cons a LL ih =>
    cases LL with
    | nil => exact Or.inl ⟨a, by simp, by simpa [commaBetweenRows] using h⟩
    | cons b rest =>
      simp only [commaBetweenRows, List.mem_append, List.mem_cons] at h
      rcases h with h | h | h
      · exact Or.inl ⟨a, by simp, h⟩
      · exact Or.inr h
      · rcases ih h with ⟨L, hL, he⟩ | h'
        · exact Or.inl ⟨L, List.mem_cons_of_mem _ hL, he⟩
        · exact Or.inr h'

theorem renderConditions_eq_renderAll (wheres : List (Str × Where)) (conds : List Condition) :
    renderConditions wheres conds =
      (renderAll wheres conds).map fun E => (textOf E, valuesOf E) := by
  induction conds with
  | nil => rfl
  | cons c rest ih =>
    unfold renderConditions renderAll
    cases renderCondition wheres c with
    | none => rfl
    | some e =>
      obtain ⟨t, vs⟩ := e
      simp only [ih]
      cases renderAll wheres rest with
      | none => rfl
      | some E => simp [textOf_cons, valuesOf_cons]

theorem mem_renderAll {wheres : List (Str × Where)} {conds : List Condition}
    {E : List Emission} (h : renderAll wheres conds = some E) :
    ∀ e ∈ E, ∃ cnd ∈ conds, renderCondition wheres cnd = some e := by
  induction conds generalizing E with
  | nil =>
    simp only [renderAll, Option.some.injEq] at h
    subst h
    simp
  | cons c rest ih =>
    unfold renderAll at h
    cases hc : renderCondition wheres c with
    | none => simp [hc] at h
    | some e0 =>
      cases hr : renderAll wheres rest with
      | none => simp [hc, hr] at h
      | some E0 =>
        simp only [hc, hr, Option.some.injEq] at h
        subst h
        intro e he
        rcases List.mem_cons.1 he with h1 | h1
        · exact ⟨c, by simp, by rw [h1, hc]⟩
        · obtain ⟨cnd, hcnd, hrc⟩ := ih hr e h1
          exact ⟨cnd, List.mem_cons_of_mem _ hcnd, hrc⟩

theorem whereClause_eq_whereEmissions (b : Builder) :
    whereClause b = (whereEmissions b).map fun W => (textOf W, valuesOf W) := by
  unfold whereClause whereEmissions
  split
  · rfl
  · rw [renderConditions_eq_renderAll]
    cases renderAll b.wheres b.conditions with
    | none => rfl
    | some E => simp [textOf_cons, valuesOf_cons]

theorem whereClause_of_emissions {b : Builder} {W : List Emission}
    (h : whereEmissions b = some W) : whereClause b = some (textOf W, valuesOf W) := by
  rw [whereClause_eq_whereEmissions, h]
  rfl

theorem textOf_trailEmissions (b : Builder) :
    textOf (trailEmissions b) = limitClause b ++ offsetClause b := by
  simp [trailEmissions, textOf]

theorem valuesOf_trailEmissions (b : Builder) :
    valuesOf (trailEmissions b) = limitValue b ++ offsetValue b := by
  simp [trailEmissions, valuesOf]

theorem ForQuery_sql_emissions {b : Builder} {W : List Emission}
    (h : whereEmissions b = some W) :
    ForQuery_sql b =
      some (textOf (queryEmissions b W), { b with values := valuesOf (queryEmissions b W) }) := by
  rw [ForQuery_sql_eq, whereClause_of_emissions h]
  simp [queryEmissions, textOf_cons, textOf_append, valuesOf_cons, valuesOf_append,
    textOf_trailEmissions, valuesOf_trailEmissions, List.append_assoc]

theorem ForRemove_sql_emissions {b : Builder} {W : List Emission}
    (h : whereEmissions b = some W) :
    ForRemove_sql b =
      some (textOf (removeEmissions b W),
        { b with values := valuesOf (removeEmissions b W) }) := by
  rw [ForRemove_sql_eq, whereClause_of_emissions h]
  simp [removeEmissions, textOf_cons, textOf_append, valuesOf_cons, valuesOf_append,
    textOf_trailEmissions, valuesOf_trailEmissions, List.append_assoc]

theorem flatten_map_singleton {α : Type} (f : α → Value) (l : List α) :
    (l.map fun x => [f x]).flatten = l.map f := by
  induction l with
  | nil => rfl
  | cons a l ih => simp [ih]

theorem ForUpdate_sql_emissions {b : Builder} {W : List Emission}
    (data : List (Str × Value)) (h : whereEmissions b = some W) :
    ForUpdate_sql b data =
      some (textOf (updateEmissions b data W),
        { b with values := valuesOf (updateEmissions b data W) }) := by
  rw [ForUpdate_sql_eq, whereClause_of_emissions h]
  simp [updateEmissions, setClause, textOf_cons, textOf_append, valuesOf_cons,
    valuesOf_append, textOf_commaBetween, valuesOf_commaBetween, textOf_trailEmissions,
    valuesOf_trailEmissions, List.append_assoc, List.map_map, Function.comp_def,
    flatten_map_singleton]

theorem textOf_rowEmissions (m : Modifier) (row : List (Str × Value)) :
    textOf (rowEmissions m row) = tuple m row := by
  simp [rowEmissions, tuple, textOf_cons, textOf_append, textOf_commaBetween, textOf_nil,
    List.map_map, Function.comp_def]

theorem valuesOf_rowEmissions (m : Modifier) (row : List (Str × Value)) :
    valuesOf (rowEmissions m row) = row.map Prod.snd := by
  simp [rowEmissions, valuesOf_cons, valuesOf_append, valuesOf_commaBetween, valuesOf_nil,
    List.map_map, Function.comp_def, flatten_map_singleton]

theorem ForInsert_sql_emissions (b : Builder) (data : List (List (Str × Value))) :
    ForInsert_sql b data =
      (textOf (insertEmissions b data), { b with values := valuesOf (insertEmissions b data) }) := by
  rw [ForInsert_sql_eq]
  simp [insertEmissions, textOf_cons, valuesOf_cons, textOf_commaBetweenRows,
    valuesOf_commaBetweenRows, List.map_map, Function.comp_def, textOf_rowEmissions,
    valuesOf_rowEmissions, List.append_assoc]

theorem whereEmissions_some {x c : Char} {b : Builder} (h : FreeOf x c b) :
    ∃ W, whereEmissions b = some W ∧ ∀ e ∈ W, e.1.count x = weight x c e.2.length := by
  unfold whereEmissions
  by_cases hc : b.conditions = []
  · exact ⟨[], by rw [if_pos hc], by simp⟩
  · rw [if_neg hc]
    have hsome : ∃ E, renderAll b.wheres b.conditions = some E := by
      obtain ⟨t, vs, hr, -⟩ := renderConditions_count x c b.wheres b.conditions h.conditions
      rw [renderConditions_eq_renderAll] at hr
      cases hE : renderAll b.wheres b.conditions with
      | none => simp [hE] at hr
      | some E => exact ⟨E, rfl⟩
    obtain ⟨E, hE⟩ := hsome
    refine ⟨(" WHERE ".toList, []) :: E, by rw [hE], ?_⟩
    intro e he
    rcases List.mem_cons.1 he with h1 | h1
    · rw [h1]
      simp only [count_WHERE h.keyword, List.length_nil, weight_zero]
    · obtain ⟨cnd, hcnd, hrc⟩ := mem_renderAll hE e h1
      obtain ⟨t, vs, hr, hcount⟩ := h.conditions cnd hcnd
      rw [hrc] at hr
      rw [Option.some.inj hr]
      exact hcount

theorem aligned_commaBetween {x c : Char} (hk : x ∉ keywordChars) {L : List Emission}
    (hL : ∀ e ∈ L, e.1.count x = weight x c e.2.length) :
    ∀ e ∈ commaBetween L, e.1.count x = weight x c e.2.length := by
  intro e he
  rcases mem_commaBetween he with h | h
  · exact hL e h
  · rw [h]
    simp only [count_comma hk, List.length_nil, weight_zero]

theorem aligned_commaBetweenRows {x c : Char} (hk : x ∉ keywordChars)
    {LL : List (List Emission)}
    (hL : ∀ L ∈ LL, ∀ e ∈ L, e.1.count x = weight x c e.2.length) :
    ∀ e ∈ commaBetweenRows LL, e.1.count x = weight x c e.2.length := by
  intro e he
  rcases mem_commaBetweenRows he with ⟨L, h1, h2⟩ | h
  · exact hL L h1 e h2
  · rw [h]
    simp only [count_comma hk, List.length_nil, weight_zero]

theorem aligned_nil (x c : Char) :
    ∀ e ∈ ([] : List Emission), e.1.count x = weight x c e.2.length :=
  fun _ h => absurd h (List.not_mem_nil _)

theorem aligned_cons {x c : Char} {a : Emission} {E : List Emission}
    (ha : a.1.count x = weight x c a.2.length)
    (hE : ∀ e ∈ E, e.1.count x = weight x c e.2.length) :
    ∀ e ∈ a :: E, e.1.count x = weight x c e.2.length := by
  intro e he
  rcases List.mem_cons.1 he with h | h
  · rw [h]; exact ha
  · exact hE e h

theorem aligned_append {x c : Char} {E F : List Emission}
    (hE : ∀ e ∈ E, e.1.count x = weight x c e.2.length)
    (hF : ∀ e ∈ F, e.1.count x = weight x c e.2.length) :
    ∀ e ∈ E ++ F, e.1.count x = weight x c e.2.length :=
  fun e he => (List.mem_append.1 he).elim (hE e) (hF e)

theorem aligned_literal {x c : Char} {t : Str} (h : t.count x = 0) :
    ((t, []) : Emission).1.count x = weight x c ((t, []) : Emission).2.length := by
  show t.count x = weight x c 0
  rw [weight_zero, h]

theorem trailEmissions_aligned {x c : Char} {b : Builder} (h : FreeOf x c b) :
    ∀ e ∈ trailEmissions b, e.1.count x = weight x c e.2.length :=
  aligned_cons (limitClause_count h) (aligned_cons (offsetClause_count h) (aligned_nil x c))

theorem queryEmissions_aligned {x c : Char} {b : Builder} (h : FreeOf x c b)
    (hs : FreeOfSelect x b) {W : List Emission}
    (hW : ∀ e ∈ W, e.1.count x = weight x c e.2.length) :
    ∀ e ∈ queryEmissions b W, e.1.count x = weight x c e.2.length := by
  have h1 : ("SELECT ".toList ++ Join (QuotedColumns b) ", ".toList ++ " FROM ".toList ++
      QuotedTableName b).count x = 0 := by
    simp only [List.count_append, count_SELECT h.keyword, columns_count h.keyword hs,
      count_FROM h.keyword, List.count_eq_zero.2 h.table]
  exact aligned_append (aligned_cons (aligned_literal h1) hW)
    (aligned_cons (aligned_literal (orderClause_count h.keyword hs))
      (aligned_cons (aligned_literal (groupClause_count h.keyword hs))
        (trailEmissions_aligned h)))

theorem removeEmissions_aligned {x c : Char} {b : Builder} (h : FreeOf x c b)
    {W : List Emission} (hW : ∀ e ∈ W, e.1.count x = weight x c e.2.length) :
    ∀ e ∈ removeEmissions b W, e.1.count x = weight x c e.2.length := by
  have h1 : ("DELETE FROM ".toList ++ QuotedTableName b).count x = 0 := by
    simp only [List.count_append, count_DELETE h.keyword, List.count_eq_zero.2 h.table]
  exact aligned_append (aligned_cons (aligned_literal h1) hW) (trailEmissions_aligned h)

theorem updateEmissions_aligned {x c : Char} {b : Builder} (h : FreeOf x c b)
    (data : List (Str × Value)) (hd : ∀ e ∈ data, x ∉ b.modifier.QuoteName e.1)
    {W : List Emission} (hW : ∀ e ∈ W, e.1.count x = weight x c e.2.length) :
    ∀ e ∈ updateEmissions b data W, e.1.count x = weight x c e.2.length := by
  have h1 : ("UPDATE ".toList ++ QuotedTableName b ++ " SET ".toList).count x = 0 := by
    simp only [List.count_append, count_UPDATE h.keyword, count_SET h.keyword,
      List.count_eq_zero.2 h.table]
  have h2 : ∀ e ∈ data.map fun e : Str × Value =>
      ((b.modifier.QuoteName e.1 ++ "=".toList ++ b.modifier.PrePh, [e.2]) : Emission),
      e.1.count x = weight x c e.2.length := by
    intro e he
    obtain ⟨a, ha, rfl⟩ := List.mem_map.1 he
    simp only [List.count_append, count_eq h.keyword, h.prePh, count_marker,
      List.count_eq_zero.2 (hd a ha), Nat.zero_add, List.length_singleton]
  exact aligned_append
    (aligned_append (aligned_cons (aligned_literal h1) (aligned_commaBetween h.keyword h2)) hW)
    (trailEmissions_aligned h)

theorem rowEmissions_aligned {x c : Char} {m : Modifier} (hk : x ∉ keywordChars)
    (hp : m.PrePh = [c]) (row : List (Str × Value)) :
    ∀ e ∈ rowEmissions m row, e.1.count x = weight x c e.2.length := by
  have h2 : ∀ e ∈ row.map fun e : Str × Value => ((m.PrePh, [e.2]) : Emission),
      e.1.count x = weight x c e.2.length := by
    intro e he
    obtain ⟨a, -, rfl⟩ := List.mem_map.1 he
    simp only [hp, count_marker, List.length_singleton]
  exact aligned_append
    (aligned_cons (aligned_literal (count_open hk)) (aligned_commaBetween hk h2))
    (aligned_cons (aligned_literal (count_close hk)) (aligned_nil x c))

theorem insertEmissions_aligned {x c : Char} {b : Builder} (hk : x ∉ keywordChars)
    (hp : b.modifier.PrePh = [c]) (ht : x ∉ QuotedTableName b)
    (data : List (List (Str × Value)))
    (hd : ∀ e ∈ data.head?.getD [], x ∉ b.modifier.QuoteName e.1) :
    ∀ e ∈ insertEmissions b data, e.1.count x = weight x c e.2.length := by
  have hf : (Join ((data.head?.getD []).map fun e => b.modifier.QuoteName e.1)
      ", ".toList).count x = 0 := by
    rw [count_Join, count_comma hk]
    have := sum_map_count x (fun e : Str × Value => b.modifier.QuoteName e.1) 0
      (data.head?.getD []) (fun e he => List.count_eq_zero.2 (hd e he))
    rw [this]
    simp
  have h1 : ("INSERT INTO ".toList ++ QuotedTableName b ++
      ("(".toList ++
        Join ((data.head?.getD []).map fun e => b.modifier.QuoteName e.1) ", ".toList ++
        ")".toList) ++ " VALUES".toList).count x = 0 := by
    simp only [List.count_append, count_INSERT hk, count_open hk, count_close hk,
      count_VALUES hk, List.count_eq_zero.2 ht, hf]
  refine aligned_cons (aligned_literal h1) (aligned_commaBetweenRows hk ?_)
  intro L hL
  obtain ⟨row, -, rfl⟩ := List.mem_map.1 hL
  exact rowEmissions_aligned hk hp row

theorem freeOfSelect_c {c d : Char} {b : Builder} (hs : SelectFree c d b) :
    FreeOfSelect c b :=
  ⟨fun t ht => (hs.columns t ht).1, fun e he => ⟨(hs.orders e he).1.1, (hs.orders e he).2.1⟩,
    hs.group.1⟩

theorem freeOfSelect_d {c d : Char} {b : Builder} (hs : SelectFree c d b) :
    FreeOfSelect d b :=
  ⟨fun t ht => (hs.columns t ht).2, fun e he => ⟨(hs.orders e he).1.2, (hs.orders e he).2.2⟩,
    hs.group.2⟩

theorem digitChar_digit : ∀ k, k < 10 → Nat.digitChar k ∈ "0123456789".toList := by decide

theorem toDigitsCore_digit (fuel n : Nat) (ds : List Char)
    (h : ∀ y ∈ ds, y ∈ "0123456789".toList) :
    ∀ y ∈ Nat.toDigitsCore 10 fuel n ds, y ∈ "0123456789".toList := by
  induction fuel generalizing n ds with
  | zero => simpa [Nat.toDigitsCore] using h
  | succ fuel ih =>
    have hd := digitChar_digit (n % 10) (Nat.mod_lt _ (by decide))
    have hcons : ∀ y ∈ Nat.digitChar (n % 10) :: ds, y ∈ "0123456789".toList := by
      intro y hy
      rcases List.mem_cons.1 hy with e | e
      · rw [e]; exact hd
      · exact h y e
    unfold Nat.toDigitsCore
    by_cases h0 : n / 10 = 0
    · simpa [h0] using hcons
    · simp only [h0, if_false]
      exact ih _ _ hcons

theorem itoa_digit (i : Nat) : ∀ y ∈ itoa i, y ∈ "0123456789".toList :=
  toDigitsCore_digit _ _ _ (by simp)

theorem markers_qmark : Markers '?' '?' qmark :=
  ⟨rfl, fun _ => rfl, by decide, by decide⟩

theorem markers_dollar : Markers '?' '$' dollar := by
  refine ⟨rfl, fun i => ?_, by decide, by decide⟩
  have h : '$' ∉ itoa i := fun hm => absurd (itoa_digit i _ hm) (by decide)
  show List.count '$' ("$".toList ++ itoa i) = 1
  rw [List.count_append, List.count_eq_zero.2 h]
  rfl

/-! ## C1: placeholder markers and parameters -/

/-- C1, as the claim states it, fails: `ForQuery` on a builder without conditions whose
group fragment is `GROUP BY n HAVING n > ?` returns, in parameterized mode, a text with one
placeholder marker and leaves an empty parameter list; so it does with the renumbering
flag off, when neither the renumbering pass nor the WHERE renderer is called. -/
theorem markers_exceed_params :
    (ForQuery havingBuilder).map (fun s => (String.mk s.1, s.1.count '?', (Params s.2).length)) =
        some ("SELECT * FROM [users] GROUP BY n HAVING n > ?", 1, 0) ∧
      (ForQuery { havingBuilder with replace := false }).map
          (fun s => (String.mk s.1, s.1.count '?', (Params s.2).length)) =
        some ("SELECT * FROM [users] GROUP BY n HAVING n > ?", 1, 0) := by
  decide

/-- C1, amended: in parameterized mode, for a dialect whose marker at emission is one
character `c` and whose final markers each hold the character `d` once, as long as the
texts a generator takes from the caller (the quoted table name, the formatted columns, the
order entries, the group fragment, the quoted field names, the raw fragments) hold no
marker character and every predicate holds one marker for each value it appends: the text
a generator assembles and its parameter list are the concatenations, in one order, of the
pieces its clauses emit and of the values they append with them, every piece holding as
many markers as values (so the `i`-th marker stands where the `i`-th parameter was
appended), and the returned text holds as many marker characters as `Params()` afterwards
has values. `ForQuery` leaves the markers as emitted when the renumbering flag is off. -/
theorem markers_match_params (c d : Char) (b : Builder) (hm : Markers c d b.modifier)
    (hp : b.isPrepare = false) :
    (MarkerFree c d b → SelectFree c d b →
        ∃ W, whereEmissions b = some W ∧
          EmitsAligned c (ForQuery_sql b) (queryEmissions b W) ∧
          ∃ s, ForQuery b = some s ∧ Params s.2 = valuesOf (queryEmissions b W) ∧
            s.1.count (if b.replace then d else c) = (Params s.2).length) ∧
      (MarkerFree c d b →
        ∃ W, whereEmissions b = some W ∧
          EmitsAligned c (ForRemove_sql b) (removeEmissions b W) ∧
          ∃ s, ForRemove b = some s ∧ Params s.2 = valuesOf (removeEmissions b W) ∧
            s.1.count d = (Params s.2).length) ∧
      (∀ data : List (List (Str × Value)), clean c d (QuotedTableName b) →
        (∀ e ∈ data.head?.getD [], clean c d (b.modifier.QuoteName e.1)) →
        EmitsAligned c (some (ForInsert_sql b data)) (insertEmissions b data) ∧
          ∃ s, ForInsert b data = some s ∧ Params s.2 = valuesOf (insertEmissions b data) ∧
            s.1.count d = (Params s.2).length) ∧
      (∀ data : List (Str × Value), MarkerFree c d b →
        (∀ e ∈ data, clean c d (b.modifier.QuoteName e.1)) →
        ∃ W, whereEmissions b = some W ∧
          EmitsAligned c (ForUpdate_sql b data) (updateEmissions b data W) ∧
          ∃ s, ForUpdate b data = some s ∧ Params s.2 = valuesOf (updateEmissions b data W) ∧
            s.1.count d = (Params s.2).length) := by
  refine ⟨fun hb hs => ?_, fun hb => ?_, fun data ht hd => ?_, fun data hb hd => ?_⟩
  · obtain ⟨W, hW, hWa⟩ := whereEmissions_some (freeOf_c hm hb)
    have hal := queryEmissions_aligned (freeOf_c hm hb) (freeOfSelect_c hs) hWa
    simp only [weight_self] at hal
    have h1 := ForQuery_sql_emissions hW
    obtain ⟨s, h2, hc, -⟩ := ForQuery_sql_count (freeOf_c hm hb) (freeOfSelect_c hs)
    obtain ⟨s', h2', hd', -⟩ := ForQuery_sql_count (freeOf_d hm hb) (freeOfSelect_d hs)
    rw [h1] at h2 h2'
    rw [← Option.some.inj h2, weight_self] at hc
    rw [← Option.some.inj h2'] at hd'
    refine ⟨W, hW, ⟨_, h1, rfl, Params_eq _, hal⟩, ?_⟩
    unfold ForQuery
    rw [h1]
    by_cases hr : b.replace = true
    · refine ⟨(replace b.modifier (textOf (queryEmissions b W)),
        { b with values := valuesOf (queryEmissions b W) }), ?_, Params_eq _, ?_⟩
      · show stReturn (stReplace _) = _
        have e : stReplace (textOf (queryEmissions b W),
            { b with values := valuesOf (queryEmissions b W) }) =
            (replace b.modifier (textOf (queryEmissions b W)),
              { b with values := valuesOf (queryEmissions b W) }) := by
          simp [stReplace, hr]
        rw [e]
        exact stReturn_parameterized _ hp
      · simp only [hr, if_true, Params_eq]
        exact replace_count hm _ _ hc hd'
    · refine ⟨(textOf (queryEmissions b W),
        { b with values := valuesOf (queryEmissions b W) }), ?_, Params_eq _, ?_⟩
      · show stReturn (stReplace _) = _
        have e : stReplace (textOf (queryEmissions b W),
            { b with values := valuesOf (queryEmissions b W) }) =
            (textOf (queryEmissions b W),
              { b with values := valuesOf (queryEmissions b W) }) := by
          simp [stReplace, hr]
        rw [e]
        exact stReturn_parameterized _ hp
      · simp only [hr, Params_eq]
        simpa using hc
  · obtain ⟨W, hW, hWa⟩ := whereEmissions_some (freeOf_c hm hb)
    have hal := removeEmissions_aligned (freeOf_c hm hb) hWa
    simp only [weight_self] at hal
    have h1 := ForRemove_sql_emissions hW
    obtain ⟨s, h2, hc, -⟩ := ForRemove_sql_count (freeOf_c hm hb)
    obtain ⟨s', h2', hd', -⟩ := ForRemove_sql_count (freeOf_d hm hb)
    rw [h1] at h2 h2'
    rw [← Option.some.inj h2, weight_self] at hc
    rw [← Option.some.inj h2'] at hd'
    refine ⟨W, hW, ⟨_, h1, rfl, Params_eq _, hal⟩, ?_⟩
    unfold ForRemove
    rw [h1]
    refine ⟨_, stReturn_parameterized _ hp, Params_eq _, ?_⟩
    simp only [Params_eq]
    exact replace_count hm _ _ hc hd'
  · have hal := insertEmissions_aligned hm.keyword_c hm.prePh ht.1 data
      fun e he => (hd e he).1
    simp only [weight_self] at hal
    have h1 := ForInsert_sql_emissions b data
    have hc := ForInsert_sql_count hm.keyword_c hm.prePh ht.1 data fun e he => (hd e he).1
    have hd' := ForInsert_sql_count hm.keyword_d hm.prePh ht.2 data fun e he => (hd e he).2
    rw [h1] at hc hd'
    rw [weight_self] at hc
    refine ⟨⟨_, rfl, by rw [h1], by rw [h1, Params_eq], hal⟩, ?_⟩
    unfold ForInsert
    rw [h1]
    refine ⟨_, stReturn_parameterized _ hp, Params_eq _, ?_⟩
    simp only [Params_eq]
    exact replace_count hm _ _ hc hd'
  · obtain ⟨W, hW, hWa⟩ := whereEmissions_some (freeOf_c hm hb)
    have hal := updateEmissions_aligned (freeOf_c hm hb) data (fun e he => (hd e he).1) hWa
    simp only [weight_self] at hal
    have h1 := ForUpdate_sql_emissions data hW
    obtain ⟨s, h2, hc, -⟩ :=
      ForUpdate_sql_count (freeOf_c hm hb) data fun e he => (hd e he).1
    obtain ⟨s', h2', hd', -⟩ :=
      ForUpdate_sql_count (freeOf_d hm hb) data fun e he => (hd e he).2
    rw [h1] at h2 h2'
    rw [← Option.some.inj h2, weight_self] at hc
    rw [← Option.some.inj h2'] at hd'
    refine ⟨W, hW, ⟨_, h1, rfl, Params_eq _, hal⟩, ?_⟩
    unfold ForUpdate
    rw [h1]
    refine ⟨_, stReturn_parameterized _ hp, Params_eq _, ?_⟩
    simp only [Params_eq]
    exact replace_count hm _ _ hc hd'

theorem usersBuilder_markerFree : MarkerFree '?' '$' (usersBuilder dollar) :=
  ⟨by decide, by decide⟩

theorem usersBuilder_selectFree : SelectFree '?' '$' (usersBuilder dollar) :=
  ⟨by decide, by decide, by decide⟩

/-- The amended C1 at the builder `usersBuilder` in the numbered dialect, with the rows
`twoRows` and the assignment `age = 5`: for each generator, the returned text holds as many
`$` as there are parameters; the text returned by `ForQuery` and its parameters are
`... WHERE id=$1 AND (name=$2 OR deleted IS NULL) ORDER BY age DESC LIMIT $3 OFFSET $4`
and `[7, a, 10, 0]`. -/
theorem markers_match_params_witness :
    shown (ForQuery (usersBuilder dollar)) =
        some (("SELECT * FROM [users] WHERE id=$1 AND (name=$2 OR deleted IS NULL) " ++
          "ORDER BY age DESC LIMIT $3 OFFSET $4").toList,
          [.int 7, .text "a".toList, .int 10, .int 0]) ∧
      (∃ s, ForQuery (usersBuilder dollar) = some s ∧
        s.1.count (if (usersBuilder dollar).replace then '$' else '?') = (Params s.2).length) ∧
      (∃ s, ForRemove (usersBuilder dollar) = some s ∧ s.1.count '$' = (Params s.2).length) ∧
      (∃ s, ForInsert (usersBuilder dollar) twoRows = some s ∧
        s.1.count '$' = (Params s.2).length) ∧
      (∃ s, ForUpdate (usersBuilder dollar) [("age".toList, .int 5)] = some s ∧
        s.1.count '$' = (Params s.2).length) :=
  have h := markers_match_params '?' '$' (usersBuilder dollar) markers_dollar rfl
  ⟨by decide,
    match h.1 usersBuilder_markerFree usersBuilder_selectFree with
    | ⟨_, _, _, s, h1, _, h3⟩ => ⟨s, h1, h3⟩,
    match h.2.1 usersBuilder_markerFree with
    | ⟨_, _, _, s, h1, _, h3⟩ => ⟨s, h1, h3⟩,
    match h.2.2.1 twoRows (by decide) (by decide) with
    | ⟨_, s, h1, _, h3⟩ => ⟨s, h1, h3⟩,
    match h.2.2.2 [("age".toList, .int 5)] usersBuilder_markerFree (by decide) with
    | ⟨_, _, _, s, h1, _, h3⟩ => ⟨s, h1, h3⟩⟩

/-! ## C2: the parameter list of UPDATE -/

theorem whereClause_nil {b : Builder} {w : Str} {vs : List Value}
    (hw : whereClause b = some (w, vs)) (hc : b.conditions = []) : w = [] ∧ vs = [] := by
  unfold whereClause at hw
  rw [if_pos hc] at hw
  simp only [Option.some.injEq, Prod.mk.injEq] at hw
  exact ⟨hw.1.symm, hw.2.symm⟩

theorem ForUpdate_some {b : Builder} {data : List (Str × Value)} {s r : St}
    (hs : ForUpdate_sql b data = some s) (hr : ForUpdate b data = some r) : r.2 = s.2 := by
  unfold ForUpdate at hr
  rw [hs] at hr
  simp only [stReturn] at hr
  split at hr
  · simp only [Option.some.injEq] at hr
    rw [← hr]
  · simp at hr

/-- C2: when the WHERE renderer returns the clause `w` with the values `vs` (both empty for
an empty condition stream), `ForUpdate` assembles `UPDATE <table> SET <field=marker, ...>`
followed by `w` and the LIMIT and OFFSET clauses, and the parameter list is the assignment
values in the traversal order of the SET fields, then `vs`, then the limit when it is
greater than -1, then the offset when it is greater than -1; every returning call of
`ForUpdate` leaves this list, and in parameterized mode the call returns. -/
theorem update_params (b : Builder) (data : List (Str × Value)) (w : Str) (vs : List Value)
    (hw : whereClause b = some (w, vs)) :
    (b.conditions = [] → vs = []) ∧
      ∃ s, ForUpdate_sql b data = some s ∧
        s.1 = "UPDATE ".toList ++ QuotedTableName b ++ " SET ".toList ++ setClause b data ++ w ++
          limitClause b ++ offsetClause b ∧
        Params s.2 = data.map Prod.snd ++ vs ++ limitValue b ++ offsetValue b ∧
        (∀ r, ForUpdate b data = some r → Params r.2 = Params s.2) ∧
        (b.isPrepare = false → ∃ r, ForUpdate b data = some r) := by
  refine ⟨fun hc => (whereClause_nil hw hc).2, ?_⟩
  have h := ForUpdate_sql_eq b data
  rw [hw] at h
  refine ⟨_, h, rfl, by simp [Params_eq], ?_, ?_⟩
  · intro r hr
    rw [ForUpdate_some h hr]
  · intro hp
    unfold ForUpdate
    rw [h]
    exact ⟨_, stReturn_parameterized _ hp⟩

/-- C2 at the assignment `age = 5` on the builder with the predicate `id = 7`: the
parameter list is `[5, 7]`. -/
theorem update_params_witness :
    whereClause idBuilder = some (" WHERE id=?".toList, [.int 7]) ∧
      ∃ s, ForUpdate_sql idBuilder [("age".toList, .int 5)] = some s ∧
        Params s.2 = [.int 5, .int 7] ∧
        (∀ r, ForUpdate idBuilder [("age".toList, .int 5)] = some r → Params r.2 = Params s.2) ∧
        (idBuilder.isPrepare = false → ∃ r, ForUpdate idBuilder [("age".toList, .int 5)] = some r) :=
  ⟨by decide,
    match (update_params idBuilder [("age".toList, .int 5)] " WHERE id=?".toList [.int 7]
      (by decide)).2 with
    | ⟨s, h1, _, h3, h4, h5⟩ => ⟨s, h1, h3, h4, h5⟩⟩

/-! ## C3: INSERT of rows of one shape -/

theorem tuple_eq_replicate (m : Modifier) (row : List (Str × Value)) :
    tuple m row =
      "(".toList ++ Join (List.replicate row.length m.PrePh) ", ".toList ++ ")".toList := by
  unfold tuple
  rw [List.map_const']

/-- C3: for a first row and further rows that are all traversed in the field order of the
first, `ForInsert` assembles `INSERT INTO <table>(<fields>) VALUES<tuples>` where the field
list is the quoted keys of the first row, there is one tuple for each row, each tuple holds
as many placeholders as there are fields, and the parameter list is the concatenation of
the rows' values, row by row; in parameterized mode this text, after the renumbering pass,
is returned. -/
theorem insert_same_shape (b : Builder) (row : List (Str × Value))
    (rest : List (List (Str × Value)))
    (h : ∀ r ∈ rest, r.map Prod.fst = row.map Prod.fst) :
    (ForInsert_sql b (row :: rest)).1 =
        "INSERT INTO ".toList ++ QuotedTableName b ++
          ("(".toList ++ Join (row.map fun e => b.modifier.QuoteName e.1) ", ".toList ++
            ")".toList) ++
          (" VALUES".toList ++
            Join ((row :: rest).map fun _ =>
              "(".toList ++ Join (List.replicate row.length b.modifier.PrePh) ", ".toList ++
                ")".toList) ", ".toList) ∧
      Params (ForInsert_sql b (row :: rest)).2 =
        ((row :: rest).map fun r => r.map Prod.snd).flatten ∧
      (b.isPrepare = false →
        ForInsert b (row :: rest) =
          some (replace b.modifier (ForInsert_sql b (row :: rest)).1,
            (ForInsert_sql b (row :: rest)).2)) := by
  have hlen : ∀ r ∈ row :: rest, r.length = row.length := by
    intro r hr
    rcases List.mem_cons.1 hr with e | e
    · rw [e]
    · have := congrArg List.length (h r e)
      simpa using this
  have htup : (row :: rest).map (tuple b.modifier) =
      (row :: rest).map fun _ =>
        "(".toList ++ Join (List.replicate row.length b.modifier.PrePh) ", ".toList ++
          ")".toList := by
    apply List.map_congr_left
    intro r hr
    rw [tuple_eq_replicate, hlen r hr]
  refine ⟨?_, ?_, ?_⟩
  · rw [ForInsert_sql_eq, htup]
    rfl
  · rw [ForInsert_sql_eq, Params_eq]
  · intro hp
    unfold ForInsert
    have hmod : (ForInsert_sql b (row :: rest)).2.modifier = b.modifier := by
      rw [ForInsert_sql_eq]
    have hprep : (ForInsert_sql b (row :: rest)).2.isPrepare = b.isPrepare := by
      rw [ForInsert_sql_eq]
    show stReturn (replace (ForInsert_sql b (row :: rest)).2.modifier
      (ForInsert_sql b (row :: rest)).1, (ForInsert_sql b (row :: rest)).2) = _
    rw [hmod]
    exact stReturn_parameterized _ (hprep.trans hp)

/-- C3 at the two rows `{name: a, age: 1}` and `{name: b, age: 2}`: the field list is
`([name], [age])`, there are two tuples of two placeholders, and the parameters are
`[a, 1, b, 2]`. -/
theorem insert_same_shape_witness :
    (∀ r ∈ [[("name".toList, Value.text "b".toList), ("age".toList, Value.int 2)]],
        r.map Prod.fst =
          [("name".toList, Value.text "a".toList), ("age".toList, Value.int 1)].map Prod.fst) ∧
      (ForInsert_sql (From (NewBuilder qmark) "users".toList) twoRows).1 =
        "INSERT INTO [users]([name], [age]) VALUES(?, ?), (?, ?)".toList ∧
      Params (ForInsert_sql (From (NewBuilder qmark) "users".toList) twoRows).2 =
        [.text "a".toList, .int 1, .text "b".toList, .int 2] :=
  have h := insert_same_shape (From (NewBuilder qmark) "users".toList)
    [("name".toList, .text "a".toList), ("age".toList, .int 1)]
    [[("name".toList, .text "b".toList), ("age".toList, .int 2)]] (by decide)
  ⟨by decide, h.1, h.2.1⟩

/-! ## C4: the renumbering flag -/

theorem shown_stReturn_congr (t : Str) (b1 b2 : Builder) (h1 : b1.isPrepare = b2.isPrepare)
    (h2 : b1.values = b2.values) (h3 : b1.modifier = b2.modifier) :
    shown (stReturn (t, b1)) = shown (stReturn (t, b2)) := by
  have e : toSql b1 t = toSql b2 t := by
    unfold toSql
    rw [Params_eq, Params_eq, h1, h2, h3]
  unfold stReturn
  show shown (match toSql b1 t with
    | some out => some (out, b1)
    | none => none) = shown (match toSql b2 t with
    | some out => some (out, b2)
    | none => none)
  rw [e]
  cases toSql b2 t with
  | none => rfl
  | some out => simp [shown, Params_eq, h2]

/-- The text and the parameters that `ForRemove`, `ForInsert` and `ForUpdate` return do not
depend on the renumbering flag of the builder. -/
theorem flag_not_read (b : Builder) (flag : Bool) (rows : List (List (Str × Value)))
    (data : List (Str × Value)) :
    shown (ForRemove { b with replace := flag }) = shown (ForRemove b) ∧
      shown (ForInsert { b with replace := flag } rows) = shown (ForInsert b rows) ∧
      shown (ForUpdate { b with replace := flag } data) = shown (ForUpdate b data) := by
  refine ⟨?_, ?_, ?_⟩
  · unfold ForRemove
    rw [ForRemove_sql_eq, ForRemove_sql_eq]
    have hw : whereClause { b with replace := flag } = whereClause b := rfl
    rw [hw]
    cases whereClause b with
    | none => rfl
    | some r => exact shown_stReturn_congr _ _ _ rfl rfl rfl
  · unfold ForInsert
    rw [ForInsert_sql_eq, ForInsert_sql_eq]
    exact shown_stReturn_congr _ _ _ rfl rfl rfl
  · unfold ForUpdate
    rw [ForUpdate_sql_eq, ForUpdate_sql_eq]
    have hw : whereClause { b with replace := flag } = whereClause b := rfl
    rw [hw]
    cases whereClause b with
    | none => rfl
    | some r => exact shown_stReturn_congr _ _ _ rfl rfl rfl

/-- C4 at the failing input: on a builder with limit 10 whose renumbering flag is off, in the
numbered dialect, `ForQuery` returns the assembled text with the raw marker, while
`ForRemove`, `ForInsert` and `ForUpdate` return a text whose markers are renumbered. -/
theorem renumbering_flag_ignored :
    rawBuilder.replace = false ∧
      (ForQuery rawBuilder).map (fun s => String.mk s.1) =
        some "SELECT * FROM [users] LIMIT ?" ∧
      (ForRemove_sql rawBuilder).map (fun s => String.mk s.1) =
        some "DELETE FROM [users] LIMIT ?" ∧
      (ForRemove rawBuilder).map (fun s => String.mk s.1) =
        some "DELETE FROM [users] LIMIT $1" ∧
      String.mk (ForInsert_sql rawBuilder twoRows).1 =
        "INSERT INTO [users]([name], [age]) VALUES(?, ?), (?, ?)" ∧
      (ForInsert rawBuilder twoRows).map (fun s => String.mk s.1) =
        some "INSERT INTO [users]([name], [age]) VALUES($1, $2), ($3, $4)" ∧
      (ForUpdate_sql rawBuilder [("age".toList, .int 5)]).map (fun s => String.mk s.1) =
        some "UPDATE [users] SET [age]=? LIMIT ?" ∧
      (ForUpdate rawBuilder [("age".toList, .int 5)]).map (fun s => String.mk s.1) =
        some "UPDATE [users] SET [age]=$1 LIMIT $2" := by
  decide

/-! ## The trailing clauses LIMIT and OFFSET -/

theorem ForQuery_sql_trail {b : Builder} {w : Str} {vs : List Value}
    (hw : whereClause b = some (w, vs)) :
    ForQuery_sql b = some (trail b (queryHead b w) vs) := by
  rw [ForQuery_sql_eq, hw]
  rfl

theorem ForRemove_sql_trail {b : Builder} {w : Str} {vs : List Value}
    (hw : whereClause b = some (w, vs)) :
    ForRemove_sql b = some (trail b (removeHead b w) vs) := by
  rw [ForRemove_sql_eq, hw]
  rfl

theorem ForUpdate_sql_trail {b : Builder} {w : Str} {vs : List Value}
    (data : List (Str × Value)) (hw : whereClause b = some (w, vs)) :
    ForUpdate_sql b data = some (trail b (updateHead b data w) (data.map Prod.snd ++ vs)) := by
  rw [ForUpdate_sql_eq, hw]
  rfl

theorem ForQuery_returns {b : Builder} {s : St} (hs : ForQuery_sql b = some s)
    (hp : s.2.isPrepare = false) : ∃ r, ForQuery b = some r ∧ r.2 = s.2 := by
  unfold ForQuery
  rw [hs]
  refine ⟨stReplace s, ?_, ?_⟩
  · show stReturn (stReplace s) = _
    apply stReturn_parameterized
    unfold stReplace
    split <;> exact hp
  · unfold stReplace
    split <;> rfl

theorem ForRemove_returns {b : Builder} {s : St} (hs : ForRemove_sql b = some s)
    (hp : s.2.isPrepare = false) : ∃ r, ForRemove b = some r ∧ r.2 = s.2 := by
  unfold ForRemove
  rw [hs]
  exact ⟨_, stReturn_parameterized _ hp, rfl⟩

theorem ForUpdate_returns {b : Builder} {data : List (Str × Value)} {s : St}
    (hs : ForUpdate_sql b data = some s) (hp : s.2.isPrepare = false) :
    ∃ r, ForUpdate b data = some r ∧ r.2 = s.2 := by
  unfold ForUpdate
  rw [hs]
  exact ⟨_, stReturn_parameterized _ hp, rfl⟩

theorem trail_offset_zero (b : Builder) (head : Str) (pv : List Value) (h : b.offset = 0) :
    (trail b head pv).1 =
        (trail (Offset b (-1)) head pv).1 ++ (" OFFSET ".toList ++ b.modifier.PrePh) ∧
      Params (trail b head pv).2 = Params (trail (Offset b (-1)) head pv).2 ++ [.int 0] := by
  simp [trail, Params_eq, offsetClause, offsetValue, limitClause, limitValue, Offset, h]

theorem trail_limit_zero (b : Builder) (head : Str) (pv : List Value) (h : b.limit = 0) :
    (trail (Limit b (-1)) head pv).1 = head ++ offsetClause b ∧
      (trail b head pv).1 = head ++ (" LIMIT ".toList ++ b.modifier.PrePh) ++ offsetClause b ∧
      Params (trail (Limit b (-1)) head pv).2 = pv ++ offsetValue b ∧
      Params (trail b head pv).2 = pv ++ [.int 0] ++ offsetValue b := by
  simp [trail, Params_eq, offsetClause, offsetValue, limitClause, limitValue, Limit, h]

/-! ## C5: a limit or an offset of zero -/

/-- C5: for a builder whose WHERE renderer returns, an offset of exactly 0 is rendered by
`ForQuery`, `ForRemove` and `ForUpdate` as the clause ` OFFSET ` + marker with the value 0
appended to the parameter list, and a limit of exactly 0 as the clause ` LIMIT ` + marker
with the value 0; in parameterized mode the calls return. -/
theorem zero_is_rendered (b : Builder) (data : List (Str × Value)) (w : Str)
    (vs : List Value) (hw : whereClause b = some (w, vs)) :
    (b.offset = 0 →
        AppendsOffset ForQuery_sql ForQuery b 0 ∧ AppendsOffset ForRemove_sql ForRemove b 0 ∧
          AppendsOffset (fun x => ForUpdate_sql x data) (fun x => ForUpdate x data) b 0) ∧
      (b.limit = 0 →
        InsertsLimit ForQuery_sql ForQuery b 0 ∧ InsertsLimit ForRemove_sql ForRemove b 0 ∧
          InsertsLimit (fun x => ForUpdate_sql x data) (fun x => ForUpdate x data) b 0) := by
  have hwo : whereClause (Offset b (-1)) = some (w, vs) := hw
  have hwl : whereClause (Limit b (-1)) = some (w, vs) := hw
  refine ⟨fun h => ⟨?_, ?_, ?_⟩, fun h => ⟨?_, ?_, ?_⟩⟩
  · have ht := trail_offset_zero b (queryHead b w) vs h
    refine ⟨_, _, ForQuery_sql_trail hwo, ForQuery_sql_trail hw, ht.1, ht.2, fun hp => ?_⟩
    obtain ⟨r, hr, e⟩ := ForQuery_returns (ForQuery_sql_trail hw) hp
    exact ⟨r, hr, by rw [e]⟩
  · have ht := trail_offset_zero b (removeHead b w) vs h
    refine ⟨_, _, ForRemove_sql_trail hwo, ForRemove_sql_trail hw, ht.1, ht.2, fun hp => ?_⟩
    obtain ⟨r, hr, e⟩ := ForRemove_returns (ForRemove_sql_trail hw) hp
    exact ⟨r, hr, by rw [e]⟩
  · have ht := trail_offset_zero b (updateHead b data w) (data.map Prod.snd ++ vs) h
    refine ⟨_, _, ForUpdate_sql_trail data hwo, ForUpdate_sql_trail data hw, ht.1, ht.2,
      fun hp => ?_⟩
    obtain ⟨r, hr, e⟩ := ForUpdate_returns (ForUpdate_sql_trail data hw) hp
    exact ⟨r, hr, by rw [e]⟩
  · have ht := trail_limit_zero b (queryHead b w) vs h
    refine ⟨_, _, _, _, ForQuery_sql_trail hwl, ForQuery_sql_trail hw, ht.1, ht.2.1, ht.2.2.1,
      ht.2.2.2, fun hp => ?_⟩
    obtain ⟨r, hr, e⟩ := ForQuery_returns (ForQuery_sql_trail hw) hp
    exact ⟨r, hr, by rw [e]⟩
  · have ht := trail_limit_zero b (removeHead b w) vs h
    refine ⟨_, _, _, _, ForRemove_sql_trail hwl, ForRemove_sql_trail hw, ht.1, ht.2.1,
      ht.2.2.1, ht.2.2.2, fun hp => ?_⟩
    obtain ⟨r, hr, e⟩ := ForRemove_returns (ForRemove_sql_trail hw) hp
    exact ⟨r, hr, by rw [e]⟩
  · have ht := trail_limit_zero b (updateHead b data w) (data.map Prod.snd ++ vs) h
    refine ⟨_, _, _, _, ForUpdate_sql_trail data hwl, ForUpdate_sql_trail data hw, ht.1,
      ht.2.1, ht.2.2.1, ht.2.2.2, fun hp => ?_⟩
    obtain ⟨r, hr, e⟩ := ForUpdate_returns (ForUpdate_sql_trail data hw) hp
    exact ⟨r, hr, by rw [e]⟩

/-- C5 at `Limit(10).Offset(0)`: both clauses are rendered and the parameters are
`[10, 0]`; the offset clause is what the theorem says it is. -/
theorem zero_is_rendered_witness :
    whereClause pagedBuilder = some ([], []) ∧ pagedBuilder.offset = 0 ∧
      shown (ForQuery pagedBuilder) =
        some ("SELECT * FROM [users] LIMIT ? OFFSET ?".toList, [.int 10, .int 0]) ∧
      (AppendsOffset ForQuery_sql ForQuery pagedBuilder 0 ∧
        AppendsOffset ForRemove_sql ForRemove pagedBuilder 0 ∧
        AppendsOffset (fun x => ForUpdate_sql x [("age".toList, .int 5)])
          (fun x => ForUpdate x [("age".toList, .int 5)]) pagedBuilder 0) :=
  ⟨by decide, by decide, by decide,
    (zero_is_rendered pagedBuilder [("age".toList, .int 5)] [] [] (by decide)).1 (by decide)⟩

/-! ## C6: which values suppress LIMIT and OFFSET -/

theorem trail_limit_unset (b : Builder) (head : Str) (pv : List Value) (v : Int)
    (h : v ≤ -1) :
    (trail (Limit b v) head pv).1 = (trail (Limit b (-1)) head pv).1 ∧
      (trail (Limit b v) head pv).2.values = (trail (Limit b (-1)) head pv).2.values := by
  have h1 : ¬ v > -1 := by omega
  simp [trail, limitClause, limitValue, offsetClause, offsetValue, Limit, h1]

theorem trail_limit_set (b : Builder) (head : Str) (pv : List Value) (v : Int)
    (h : ¬ v ≤ -1) :
    (trail (Limit b v) head pv).2.values.length =
      (trail (Limit b (-1)) head pv).2.values.length + 1 := by
  have h1 : v > -1 := by omega
  simp [trail, limitClause, limitValue, offsetClause, offsetValue, Limit, h1]
  omega

theorem trail_offset_unset (b : Builder) (head : Str) (pv : List Value) (v : Int)
    (h : v ≤ -1) :
    (trail (Offset b v) head pv).1 = (trail (Offset b (-1)) head pv).1 ∧
      (trail (Offset b v) head pv).2.values = (trail (Offset b (-1)) head pv).2.values := by
  have h1 : ¬ v > -1 := by omega
  simp [trail, limitClause, limitValue, offsetClause, offsetValue, Offset, h1]

theorem trail_offset_set (b : Builder) (head : Str) (pv : List Value) (v : Int)
    (h : ¬ v ≤ -1) :
    (trail (Offset b v) head pv).2.values.length =
      (trail (Offset b (-1)) head pv).2.values.length + 1 := by
  have h1 : v > -1 := by omega
  simp [trail, limitClause, limitValue, offsetClause, offsetValue, Offset, h1]
  omega

/-- Two states with the same text and parameters are shown alike, and two states shown
alike have parameter lists of one length. -/
theorem shown_some_iff (s t : St) :
    shown (some s) = shown (some t) ↔ s.1 = t.1 ∧ s.2.values = t.2.values := by
  simp [shown, Params_eq]

theorem omits_of_trail {gen : Builder → Option St} {s t : St} {x y : Builder} {v : Int}
    (hx : gen x = some s) (hy : gen y = some t)
    (hu : v ≤ -1 → s.1 = t.1 ∧ s.2.values = t.2.values)
    (hs : ¬ v ≤ -1 → s.2.values.length = t.2.values.length + 1) :
    shown (gen x) = shown (gen y) ↔ v ≤ -1 := by
  rw [hx, hy, shown_some_iff]
  constructor
  · intro h
    by_contra hv
    have := hs hv
    rw [h.2] at this
    omega
  · exact hu

theorem ForQuery_parameterized {b : Builder} {s : St} (hs : ForQuery_sql b = some s)
    (hp : s.2.isPrepare = false) : ForQuery b = some (stReplace s) := by
  unfold ForQuery
  rw [hs]
  show stReturn (stReplace s) = _
  apply stReturn_parameterized
  unfold stReplace
  split <;> exact hp

theorem ForRemove_parameterized {b : Builder} {s : St} (hs : ForRemove_sql b = some s)
    (hp : s.2.isPrepare = false) : ForRemove b = some (replace s.2.modifier s.1, s.2) := by
  unfold ForRemove
  rw [hs]
  exact stReturn_parameterized _ hp

theorem ForUpdate_parameterized {b : Builder} {data : List (Str × Value)} {s : St}
    (hs : ForUpdate_sql b data = some s) (hp : s.2.isPrepare = false) :
    ForUpdate b data = some (replace s.2.modifier s.1, s.2) := by
  unfold ForUpdate
  rw [hs]
  exact stReturn_parameterized _ hp

theorem stReplace_congr {s t : St} (h1 : s.1 = t.1) (hm : s.2.modifier = t.2.modifier)
    (hr : s.2.replace = t.2.replace) : (stReplace s).1 = (stReplace t).1 := by
  unfold stReplace
  rw [hr, hm]
  split
  · show replace t.2.modifier s.1 = replace t.2.modifier t.1
    rw [h1]
  · exact h1

theorem stReplace_values (s : St) : (stReplace s).2 = s.2 := by
  unfold stReplace
  split <;> rfl

/-- C6, as the claim states it, fails: with `Limit(-2)` the generator `ForQuery` omits the
LIMIT clause although -2 is not the value -1 that `Init` installs; so it does with the
renumbering flag off, when neither the renumbering pass nor the WHERE renderer is called. -/
theorem negative_limit_omitted :
    shown (ForQuery (Limit (From (NewBuilder qmark) "users".toList) (-2))) =
        some ("SELECT * FROM [users]".toList, []) ∧
      shown (ForQuery
          { Limit (From (NewBuilder qmark) "users".toList) (-2) with replace := false }) =
        some ("SELECT * FROM [users]".toList, []) ∧
      (Init (From (NewBuilder qmark) "users".toList)).limit = -1 ∧ (-2 : Int) ≠ -1 := by
  decide

theorem omitsLimit_sql_iff {gen : Builder → Option St} {b : Builder} (head : Str)
    (pv : List Value) (v : Int)
    (hg : ∀ u, gen (Limit b u) = some (trail (Limit b u) head pv)) :
    OmitsLimit gen b v ↔ v ≤ -1 :=
  omits_of_trail (hg v) (hg (-1)) (trail_limit_unset b head pv v) (trail_limit_set b head pv v)

theorem omitsOffset_sql_iff {gen : Builder → Option St} {b : Builder} (head : Str)
    (pv : List Value) (v : Int)
    (hg : ∀ u, gen (Offset b u) = some (trail (Offset b u) head pv)) :
    OmitsOffset gen b v ↔ v ≤ -1 :=
  omits_of_trail (hg v) (hg (-1)) (trail_offset_unset b head pv v)
    (trail_offset_set b head pv v)

theorem omitsLimit_ret_iff {gen : Builder → Option St} {b : Builder} (head : Str)
    (pv : List Value) (v : Int) (f : St → St)
    (hf : ∀ s t : St, s.1 = t.1 → s.2.modifier = t.2.modifier → s.2.replace = t.2.replace →
      (f s).1 = (f t).1)
    (hf2 : ∀ s, (f s).2 = s.2)
    (hg : ∀ u, gen (Limit b u) = some (f (trail (Limit b u) head pv))) :
    OmitsLimit gen b v ↔ v ≤ -1 := by
  refine omits_of_trail (hg v) (hg (-1)) (fun h => ?_) (fun h => ?_)
  · have := trail_limit_unset b head pv v h
    exact ⟨hf _ _ this.1 rfl rfl, by rw [hf2, hf2]; exact this.2⟩
  · rw [hf2, hf2]
    exact trail_limit_set b head pv v h

theorem omitsOffset_ret_iff {gen : Builder → Option St} {b : Builder} (head : Str)
    (pv : List Value) (v : Int) (f : St → St)
    (hf : ∀ s t : St, s.1 = t.1 → s.2.modifier = t.2.modifier → s.2.replace = t.2.replace →
      (f s).1 = (f t).1)
    (hf2 : ∀ s, (f s).2 = s.2)
    (hg : ∀ u, gen (Offset b u) = some (f (trail (Offset b u) head pv))) :
    OmitsOffset gen b v ↔ v ≤ -1 := by
  refine omits_of_trail (hg v) (hg (-1)) (fun h => ?_) (fun h => ?_)
  · have := trail_offset_unset b head pv v h
    exact ⟨hf _ _ this.1 rfl rfl, by rw [hf2, hf2]; exact this.2⟩
  · rw [hf2, hf2]
    exact trail_offset_set b head pv v h

theorem renumbered_congr (s t : St) (h1 : s.1 = t.1) (hm : s.2.modifier = t.2.modifier)
    (_ : s.2.replace = t.2.replace) :
    ((replace s.2.modifier s.1, s.2) : St).1 = ((replace t.2.modifier t.1, t.2) : St).1 := by
  show replace s.2.modifier s.1 = replace t.2.modifier t.1
  rw [h1, hm]

/-- C6, amended: `Init` installs the value -1 for limit and offset, and for every integer
`v` passed to `Limit` (respectively `Offset`) on a builder whose WHERE renderer returns,
`ForQuery`, `ForRemove` and `ForUpdate` omit the LIMIT (respectively OFFSET) clause and its
parameter if and only if `v` is at most -1, that is for every negative `v` and not only
for -1; this holds of the assembled text and, in parameterized mode, of the returned
text. -/
theorem clause_omitted_iff_negative (b : Builder) (data : List (Str × Value)) (w : Str)
    (vs : List Value) (hw : whereClause b = some (w, vs)) (v : Int) :
    ((Init b).limit = -1 ∧ (Init b).offset = -1) ∧
      ((OmitsLimit ForQuery_sql b v ↔ v ≤ -1) ∧ (OmitsLimit ForRemove_sql b v ↔ v ≤ -1) ∧
        (OmitsLimit (fun x => ForUpdate_sql x data) b v ↔ v ≤ -1)) ∧
      ((OmitsOffset ForQuery_sql b v ↔ v ≤ -1) ∧ (OmitsOffset ForRemove_sql b v ↔ v ≤ -1) ∧
        (OmitsOffset (fun x => ForUpdate_sql x data) b v ↔ v ≤ -1)) ∧
      (b.isPrepare = false →
        ((OmitsLimit ForQuery b v ↔ v ≤ -1) ∧ (OmitsLimit ForRemove b v ↔ v ≤ -1) ∧
          (OmitsLimit (fun x => ForUpdate x data) b v ↔ v ≤ -1)) ∧
        ((OmitsOffset ForQuery b v ↔ v ≤ -1) ∧ (OmitsOffset ForRemove b v ↔ v ≤ -1) ∧
          (OmitsOffset (fun x => ForUpdate x data) b v ↔ v ≤ -1))) := by
  have hwl : ∀ u, whereClause (Limit b u) = some (w, vs) := fun _ => hw
  have hwo : ∀ u, whereClause (Offset b u) = some (w, vs) := fun _ => hw
  refine ⟨⟨rfl, rfl⟩, ⟨?_, ?_, ?_⟩, ⟨?_, ?_, ?_⟩, fun hp => ⟨⟨?_, ?_, ?_⟩, ?_, ?_, ?_⟩⟩
  · exact omitsLimit_sql_iff (queryHead b w) vs v fun u => ForQuery_sql_trail (hwl u)
  · exact omitsLimit_sql_iff (removeHead b w) vs v fun u => ForRemove_sql_trail (hwl u)
  · exact omitsLimit_sql_iff (updateHead b data w) (data.map Prod.snd ++ vs) v fun u => ForUpdate_sql_trail data (hwl u)
  · exact omitsOffset_sql_iff (queryHead b w) vs v fun u => ForQuery_sql_trail (hwo u)
  · exact omitsOffset_sql_iff (removeHead b w) vs v fun u => ForRemove_sql_trail (hwo u)
  · exact omitsOffset_sql_iff (updateHead b data w) (data.map Prod.snd ++ vs) v fun u => ForUpdate_sql_trail data (hwo u)
  · exact omitsLimit_ret_iff (queryHead b w) vs v stReplace (fun _ _ => stReplace_congr)
      stReplace_values
      fun u => ForQuery_parameterized (ForQuery_sql_trail (hwl u)) hp
  · exact omitsLimit_ret_iff (removeHead b w) vs v
      (fun s => (replace s.2.modifier s.1, s.2)) renumbered_congr
      (fun _ => rfl) fun u => ForRemove_parameterized (ForRemove_sql_trail (hwl u)) hp
  · exact omitsLimit_ret_iff (updateHead b data w) (data.map Prod.snd ++ vs) v
      (fun s => (replace s.2.modifier s.1, s.2)) renumbered_congr
      (fun _ => rfl) fun u => ForUpdate_parameterized (ForUpdate_sql_trail data (hwl u)) hp
  · exact omitsOffset_ret_iff (queryHead b w) vs v stReplace (fun _ _ => stReplace_congr)
      stReplace_values
      fun u => ForQuery_parameterized (ForQuery_sql_trail (hwo u)) hp
  · exact omitsOffset_ret_iff (removeHead b w) vs v
      (fun s => (replace s.2.modifier s.1, s.2)) renumbered_congr
      (fun _ => rfl) fun u => ForRemove_parameterized (ForRemove_sql_trail (hwo u)) hp
  · exact omitsOffset_ret_iff (updateHead b data w) (data.map Prod.snd ++ vs) v
      (fun s => (replace s.2.modifier s.1, s.2)) renumbered_congr
      (fun _ => rfl) fun u => ForUpdate_parameterized (ForUpdate_sql_trail data (hwo u)) hp

/-- The amended C6 at the builder with the predicate `id = 7` and the value -2: the
clauses are omitted. -/
theorem clause_omitted_iff_negative_witness :
    whereClause idBuilder = some (" WHERE id=?".toList, [.int 7]) ∧
      idBuilder.isPrepare = false ∧
      OmitsLimit ForQuery idBuilder (-2) ∧ ¬ OmitsOffset ForRemove idBuilder 0 :=
  have h := clause_omitted_iff_negative idBuilder [] " WHERE id=?".toList [.int 7]
    (by decide)
  ⟨by decide, rfl, ((h (-2)).2.2.2 rfl).1.1.2 (by decide),
    fun e => absurd (((h 0).2.2.2 rfl).2.2.1.1 e) (by decide)⟩

/-! ## C7: failure of the output formatter in inlining mode -/

theorem foldlM_inline_none_iff (tok : Str) (vs : List Value) (sql : Str) :
    vs.foldlM
        (fun sql val =>
          match val with
          | .text s => some (Replace sql tok s)
          | _ => none)
        sql = none ↔
      ∃ v ∈ vs, isText v = false := by
  induction vs generalizing sql with
  | nil => simp
  | cons v vs ih =>
    rw [List.foldlM_cons]
    cases v with
    | text t =>
      simp only [Option.bind_eq_bind, Option.some_bind, ih, List.mem_cons, exists_eq_or_imp,
        isText]
      simp
    | int n => simp [isText]
    | null => simp [isText]

theorem toSql_none_iff (b : Builder) (sql : Str) :
    toSql b sql = none ↔ b.isPrepare = true ∧ ∃ v ∈ Params b, isText v = false := by
  unfold toSql
  by_cases hp : b.isPrepare = true
  · simp only [hp, Bool.not_true, Bool.false_eq_true, if_false, true_and]
    exact foldlM_inline_none_iff _ _ _
  · simp [hp]

theorem stReturn_none_iff (s : St) :
    stReturn s = none ↔ s.2.isPrepare = true ∧ ∃ v ∈ s.2.values, isText v = false := by
  unfold stReturn
  rw [← Params_eq s.2, ← toSql_none_iff s.2 s.1]
  cases toSql s.2 s.1 <;> simp

theorem trail_not_text (b : Builder) (head : Str) (pv : List Value)
    (h : b.limit > -1 ∨ b.offset > -1) :
    ∃ v ∈ (trail b head pv).2.values, isText v = false := by
  rcases h with h | h
  · exact ⟨.int b.limit, by simp [trail, limitValue, h], rfl⟩
  · exact ⟨.int b.offset, by simp [trail, offsetValue, h], rfl⟩

/-- C7, as the claim states it, fails: in inlining mode with the limit set to 10,
`ForInsert` of a row whose only value is a text returns a statement. -/
theorem insert_inlines_with_limit :
    inlineBuilder.isPrepare = true ∧ inlineBuilder.limit = 10 ∧
      shown (ForInsert inlineBuilder [[("name".toList, .text "a".toList)]]) =
        some ("INSERT INTO [users]([name]) VALUES(a)".toList, [.text "a".toList]) := by
  decide

/-- C7, amended: in inlining mode the output formatter fails, returning no text, if and
only if the parameter list holds a value that is not a text; so `ForQuery`, `ForRemove` and
`ForUpdate` fail whenever the limit or the offset is greater than -1, while `ForInsert`,
which renders neither, fails if and only if a value of a row is not a text. -/
theorem inlining_fails_iff (b : Builder) (sql : Str) (data : List (Str × Value))
    (rows : List (List (Str × Value))) (hp : b.isPrepare = true) :
    (toSql b sql = none ↔ ∃ v ∈ Params b, isText v = false) ∧
      (b.limit > -1 ∨ b.offset > -1 →
        ForQuery b = none ∧ ForRemove b = none ∧ ForUpdate b data = none) ∧
      (ForInsert b rows = none ↔ ∃ row ∈ rows, ∃ e ∈ row, isText e.2 = false) := by
  refine ⟨by simp [toSql_none_iff, hp], fun h => ⟨?_, ?_, ?_⟩, ?_⟩
  · unfold ForQuery
    rw [ForQuery_sql_eq]
    cases hw : whereClause b with
    | none => rfl
    | some r =>
      obtain ⟨w, vs⟩ := r
      show stReturn (stReplace (trail b (queryHead b w) vs)) = none
      rw [stReturn_none_iff, stReplace_values]
      exact ⟨hp, trail_not_text b (queryHead b w) vs h⟩
  · unfold ForRemove
    rw [ForRemove_sql_eq]
    cases hw : whereClause b with
    | none => rfl
    | some r =>
      obtain ⟨w, vs⟩ := r
      show stReturn (_, (trail b (removeHead b w) vs).2) = none
      rw [stReturn_none_iff]
      exact ⟨hp, trail_not_text b (removeHead b w) vs h⟩
  · unfold ForUpdate
    rw [ForUpdate_sql_eq]
    cases hw : whereClause b with
    | none => rfl
    | some r =>
      obtain ⟨w, vs⟩ := r
      show stReturn (_, (trail b (updateHead b data w) (data.map Prod.snd ++ vs)).2) = none
      rw [stReturn_none_iff]
      exact ⟨hp, trail_not_text b (updateHead b data w) (data.map Prod.snd ++ vs) h⟩
  · unfold ForInsert
    show stReturn (_, (ForInsert_sql b rows).2) = none ↔ _
    rw [stReturn_none_iff, ForInsert_sql_eq]
    simp only [hp, true_and, List.mem_flatten, List.mem_map]
    constructor
    · rintro ⟨v, ⟨l, ⟨row, hrow, rfl⟩, hv⟩, ht⟩
      obtain ⟨e, he, rfl⟩ := List.mem_map.1 hv
      exact ⟨row, hrow, e, he, ht⟩
    · rintro ⟨row, hrow, e, he, ht⟩
      exact ⟨e.2, ⟨_, ⟨row, hrow, rfl⟩, List.mem_map.2 ⟨e, he, rfl⟩⟩, ht⟩

/-- The amended C7 at the statement whose only parameter is the integer limit 10: the three
generators fail. -/
theorem inlining_fails_iff_witness :
    inlineBuilder.isPrepare = true ∧
      (ForQuery inlineBuilder = none ∧ ForRemove inlineBuilder = none ∧
        ForUpdate inlineBuilder [("name".toList, .text "a".toList)] = none) :=
  ⟨rfl, (inlining_fails_iff inlineBuilder [] [("name".toList, .text "a".toList)] [] rfl).2.1
    (Or.inl (by decide))⟩

/-! ## C8: the substitution of inlining mode -/

theorem cut_char_append {c : Char} (pre0 s : Str) (h : c ∉ pre0) :
    cut [c] (pre0 ++ s) = (cut [c] s).map fun r => (pre0 ++ r.1, r.2) := by
  induction pre0 with
  | nil =>
    simp only [List.nil_append]
    cases cut [c] s <;> simp
  | cons x p ih =>
    have hx : ¬ c = x := fun e => h (by simp [e])
    have hp : c ∉ p := fun e => h (List.mem_cons_of_mem _ e)
    have e1 : List.isPrefixOf [c] (x :: (p ++ s)) = false := by
      simp [List.isPrefixOf, hx]
    show cut [c] (x :: (p ++ s)) = _
    rw [cut, e1, ih hp]
    cases cut [c] s <;> simp

theorem Replace_of_cut_some {s old new pre post : Str} (h : cut old s = some (pre, post)) :
    Replace s old new = pre ++ new ++ post := by
  simp [Replace, h]

theorem Replace_of_cut_none {s old new : Str} (h : cut old s = none) :
    Replace s old new = s := by
  simp [Replace, h]

theorem cut_char_absent {c : Char} {t : Str} (ht : c ∉ t) : cut [c] t = none := by
  cases hct : cut [c] t with
  | none => rfl
  | some r =>
    have e := cut_some hct
    exact absurd (by rw [e]; simp) ht

theorem foldl_Replace_absent {c : Char} (us : List Str) (t : Str) (ht : c ∉ t) :
    us.foldl (fun sql v => Replace sql [c] v) t = t := by
  induction us with
  | nil => rfl
  | cons u us ihu =>
    rw [List.foldl_cons, Replace_of_cut_none (cut_char_absent ht)]
    exact ihu

theorem foldl_Replace_eq_substituteEach {c : Char} (vs : List Str) (hv : ∀ v ∈ vs, c ∉ v)
    (pre0 s : Str) (h : c ∉ pre0) :
    vs.foldl (fun sql v => Replace sql [c] v) (pre0 ++ s) =
      pre0 ++ substituteEach [c] s vs := by
  induction vs generalizing pre0 s with
  | nil => simp [substituteEach]
  | cons v vs ih =>
    have hv1 : c ∉ v := hv v (List.mem_cons_self _ _)
    have hvs : ∀ u ∈ vs, c ∉ u := fun u hu => hv u (List.mem_cons_of_mem _ hu)
    rw [List.foldl_cons]
    have hcut := cut_char_append pre0 s h
    cases hc : cut [c] s with
    | none =>
      rw [hc] at hcut
      have hs : c ∉ pre0 ++ s := by
        simp only [List.mem_append, not_or]
        exact ⟨h, cut_char_none hc⟩
      rw [Replace_of_cut_none hcut, foldl_Replace_absent vs _ hs]
      simp [substituteEach, hc]
    | some r =>
      obtain ⟨pre, post⟩ := r
      rw [hc] at hcut
      rw [Replace_of_cut_some hcut]
      have hpre : c ∉ pre0 ++ pre ++ v := by
        simp only [List.mem_append, not_or]
        exact ⟨⟨h, cut_char_pre hc⟩, hv1⟩
      rw [ih hvs (pre0 ++ pre ++ v) post hpre]
      simp [substituteEach, hc, List.append_assoc]

theorem foldlM_texts (tok : Str) (vs : List Str) (sql : Str) :
    (vs.map Value.text).foldlM
        (fun sql val =>
          match val with
          | .text s => some (Replace sql tok s)
          | _ => none)
        sql =
      some (vs.foldl (fun sql v => Replace sql tok v) sql) := by
  induction vs generalizing sql with
  | nil => rfl
  | cons v vs ih =>
    rw [List.map_cons, List.foldlM_cons, List.foldl_cons]
    exact ih _

theorem toSql_texts (b : Builder) (vs : List Str) (sql : Str) (hp : b.isPrepare = true)
    (hv : b.values = vs.map Value.text) :
    toSql b sql = some (vs.foldl (fun sql v => Replace sql (b.modifier.Ph []) v) sql) := by
  unfold toSql
  rw [Params_eq, hv]
  simp only [hp, Bool.not_true, Bool.false_eq_true, if_false]
  exact foldlM_texts _ _ _

/-- Where the failing input of C8 is excluded, the formatter does what the claim says: in
inlining mode, for a token of one character and text parameters that do not hold it, the
formatter returns the text in which the `i`-th occurrence of the token in the original
text is replaced by the `i`-th parameter. -/
theorem inlining_of_clean_values (b : Builder) (c : Char) (vs : List Str) (sql : Str)
    (hp : b.isPrepare = true) (hc : b.modifier.Ph [] = [c])
    (hv : b.values = vs.map Value.text) (hclean : ∀ v ∈ vs, c ∉ v) :
    toSql b sql = some (substituteEach [c] sql vs) := by
  rw [toSql_texts b vs sql hp hv, hc]
  have := foldl_Replace_eq_substituteEach vs hclean [] sql (by simp)
  simpa using this

/-- C8 at the failing input: in inlining mode, with the two text parameters `x?` and `y`,
the formatter turns `UPDATE [users] SET [a]=?, [b]=?` into `... SET [a]=xy, [b]=?`: the
second parameter replaces the marker inside the first value, not the second placeholder of
the original text, which is what the substitution of the spec yields; `ForUpdate` with the
assignments `a = x?`, `b = y` returns that text. -/
theorem inlining_rescans_values :
    (toSql { inlineUsers with values := [.text "x?".toList, .text "y".toList] }
          "UPDATE [users] SET [a]=?, [b]=?".toList).map String.mk =
        some "UPDATE [users] SET [a]=xy, [b]=?" ∧
      String.mk (substituteEach "?".toList "UPDATE [users] SET [a]=?, [b]=?".toList
          ["x?".toList, "y".toList]) =
        "UPDATE [users] SET [a]=x?, [b]=y" ∧
      (ForUpdate inlineUsers
          [("a".toList, .text "x?".toList), ("b".toList, .text "y".toList)]).map
          (fun s => String.mk s.1) =
        some "UPDATE [users] SET [a]=xy, [b]=?" := by
  decide

/-! ## C10: the clause order of SELECT -/

theorem handleWhere_some {b b1 : Builder} {t : Str} (h : handleWhere b = some (t, b1)) :
    ∃ vs, renderConditions b.wheres b.conditions = some (t, vs) ∧
      b1 = { b with values := b.values ++ vs } := by
  unfold handleWhere at h
  split at h
  · simp at h
  · rename_i t' vs hr
    simp only [Option.some.injEq, Prod.mk.injEq] at h
    exact ⟨vs, by rw [hr, h.1], h.2.symm⟩

/-- C10: whenever the WHERE renderer returns the text `t` for a non-empty condition
stream, the text that `ForQuery` assembles before the renumbering pass is `SELECT ` + the
formatted columns joined by `, ` + ` FROM ` + the quoted table name, then ` WHERE ` + `t`
exactly when the condition stream is non-empty, then the ORDER BY clause exactly when there
is an order entry, then a blank and the group fragment exactly when it is non-empty, then
` LIMIT ` + marker exactly when the limit is greater than -1, then ` OFFSET ` + marker
exactly when the offset is greater than -1; this text goes through the renumbering pass
(if the flag is on) and the output formatter. -/
theorem query_clause_order (b b1 : Builder) (t : Str)
    (hw : b.conditions ≠ [] → handleWhere { b with values := [] } = some (t, b1)) :
    ∃ b2, ForQuery_sql b =
        some ("SELECT ".toList ++ Join (QuotedColumns b) ", ".toList ++ " FROM ".toList ++
            QuotedTableName b ++
            (if b.conditions ≠ [] then " WHERE ".toList ++ t else []) ++
            (if b.orders ≠ [] then handleOrderBy b.orders else []) ++
            (if b.group ≠ [] then " ".toList ++ b.group else []) ++
            (if b.limit > -1 then " LIMIT ".toList ++ b.modifier.PrePh else []) ++
            (if b.offset > -1 then " OFFSET ".toList ++ b.modifier.PrePh else []), b2) ∧
      ForQuery b =
        stReturn (stReplace
          ("SELECT ".toList ++ Join (QuotedColumns b) ", ".toList ++ " FROM ".toList ++
            QuotedTableName b ++
            (if b.conditions ≠ [] then " WHERE ".toList ++ t else []) ++
            (if b.orders ≠ [] then handleOrderBy b.orders else []) ++
            (if b.group ≠ [] then " ".toList ++ b.group else []) ++
            (if b.limit > -1 then " LIMIT ".toList ++ b.modifier.PrePh else []) ++
            (if b.offset > -1 then " OFFSET ".toList ++ b.modifier.PrePh else []), b2)) := by
  have key : ∃ vs, whereClause b =
      some (if b.conditions ≠ [] then " WHERE ".toList ++ t else [], vs) := by
    unfold whereClause
    by_cases hc : b.conditions = []
    · exact ⟨[], by simp [hc]⟩
    · obtain ⟨vs, hr, -⟩ := handleWhere_some (hw hc)
      have hr' : renderConditions b.wheres b.conditions = some (t, vs) := hr
      exact ⟨vs, by simp [hc, hr']⟩
  obtain ⟨vs, hk⟩ := key
  have h := ForQuery_sql_eq b
  rw [hk] at h
  have e : ForQuery_sql b =
      some ("SELECT ".toList ++ Join (QuotedColumns b) ", ".toList ++ " FROM ".toList ++
          QuotedTableName b ++
          (if b.conditions ≠ [] then " WHERE ".toList ++ t else []) ++
          (if b.orders ≠ [] then handleOrderBy b.orders else []) ++
          (if b.group ≠ [] then " ".toList ++ b.group else []) ++
          (if b.limit > -1 then " LIMIT ".toList ++ b.modifier.PrePh else []) ++
          (if b.offset > -1 then " OFFSET ".toList ++ b.modifier.PrePh else []),
        { b with values := vs ++ limitValue b ++ offsetValue b }) := by
    rw [h]
    simp only [orderClause, groupClause, limitClause, offsetClause, ne_eq, ite_not]
  refine ⟨_, e, ?_⟩
  unfold ForQuery
  rw [e]

/-- C10 at the builder `usersBuilder`, with every clause present. -/
theorem query_clause_order_witness :
    ((usersBuilder qmark).conditions ≠ [] →
        handleWhere { usersBuilder qmark with values := [] } =
          some ("id=? AND (name=? OR deleted IS NULL)".toList,
            { usersBuilder qmark with values := [.int 7, .text "a".toList] })) ∧
      (ForQuery_sql (usersBuilder qmark)).map (fun s => String.mk s.1) =
        some ("SELECT * FROM [users] WHERE id=? AND (name=? OR deleted IS NULL) " ++
          "ORDER BY age DESC LIMIT ? OFFSET ?") :=
  have hw : (usersBuilder qmark).conditions ≠ [] →
      handleWhere { usersBuilder qmark with values := [] } =
        some ("id=? AND (name=? OR deleted IS NULL)".toList,
          { usersBuilder qmark with values := [.int 7, .text "a".toList] }) := fun _ => rfl
  ⟨hw,
    match query_clause_order (usersBuilder qmark) _ _ hw with
    | ⟨_, h, _⟩ => by simp only [h, Option.map_some']; decide⟩

/-! ## C9: no WHERE clause without conditions -/

theorem infix_append_cons {pat a b : Str} {x : Char} (h : pat <:+: a ++ x :: b)
    (hx : x ∉ pat) : pat <:+: a ∨ pat <:+: b := by
  obtain ⟨s, t, e⟩ := h
  rcases List.append_eq_append_iff.1 e with ⟨a', ha, _⟩ | ⟨c', hc, hb⟩
  · exact Or.inl ⟨s, a', ha.symm⟩
  · rcases List.cons_eq_append_iff.1 hb with ⟨hc0, _⟩ | ⟨c2, hc2, hb2⟩
    · rw [hc0, List.append_nil] at hc
      exact Or.inl ⟨s, [], by rw [List.append_nil]; exact hc⟩
    · rw [hc2] at hc
      rcases List.append_eq_append_iff.1 hc with ⟨a', _, hp⟩ | ⟨d, _, hd⟩
      · exact absurd (by rw [hp]; simp) hx
      · rcases List.cons_eq_append_iff.1 hd with ⟨_, hp⟩ | ⟨d', _, hc3⟩
        · exact absurd (by rw [hp]; simp) hx
        · exact Or.inr ⟨d', t, by rw [hb2, hc3]⟩

theorem noWhere_nil : NoWhere [] := by decide

theorem noWhere_of_part {s t : Str} (h : t <:+: s) (hs : NoWhere s) : NoWhere t :=
  fun hk => hs (hk.trans h)

theorem noWhere_append_cons {a b : Str} {x : Char} (hx : x ∉ kwWHERE) (ha : NoWhere a)
    (hb : NoWhere b) : NoWhere (a ++ x :: b) := fun h =>
  (infix_append_cons h hx).elim ha hb

theorem noWhere_block {sep b : Str} (hs : ∀ x ∈ sep, x ∉ kwWHERE) (hb : NoWhere b) :
    NoWhere (sep ++ b) := by
  induction sep with
  | nil => exact hb
  | cons x sep ih =>
    have := noWhere_append_cons (hs x (List.mem_cons_self _ _)) noWhere_nil
      (ih fun y hy => hs y (List.mem_cons_of_mem _ hy))
    simpa using this

/-- Two texts free of WHERE stay so when appended, if the second is empty or starts with a
character outside the keyword. -/
theorem noWhere_append {a b : Str} (ha : NoWhere a) (hb : Clause b) : NoWhere (a ++ b) := by
  cases b with
  | nil => simpa using ha
  | cons x b =>
    have hx : x ∉ kwWHERE := hb.2 x (by simp)
    exact noWhere_append_cons hx ha
      (noWhere_of_part ⟨[x], [], by simp⟩ hb.1)

/-- Two texts free of WHERE stay so when appended, if the first ends with a character
outside the keyword. -/
theorem noWhere_snoc_append {a b : Str} {x : Char} (hx : x ∉ kwWHERE) (ha : NoWhere a)
    (hb : NoWhere b) : NoWhere (a ++ [x] ++ b) := by
  rw [List.append_assoc]
  exact noWhere_append_cons hx ha hb

theorem clause_nil : Clause [] := by decide

theorem clause_append {a b : Str} (ha : Clause a) (hb : Clause b) : Clause (a ++ b) := by
  refine ⟨noWhere_append ha.1 hb, ?_⟩
  cases a with
  | nil => simpa using hb.2
  | cons x a => simpa using ha.2

theorem clause_blank {t : Str} (h : NoWhere t) : Clause (' ' :: t) :=
  ⟨by simpa using noWhere_append_cons (by decide : ' ' ∉ kwWHERE) noWhere_nil h, by
    intro x hx
    have e : x = ' ' := by simpa using hx.symm
    rw [e]
    decide⟩

theorem noWhere_Join {ts : List Str} (h : ∀ t ∈ ts, NoWhere t) :
    NoWhere (Join ts ", ".toList) := by
  induction ts with
  | nil => exact noWhere_nil
  | cons a ts ih =>
    cases ts with
    | nil => exact h a (List.mem_cons_self _ _)
    | cons c rest =>
      have h1 := h a (List.mem_cons_self _ _)
      have h2 := ih fun t ht => h t (List.mem_cons_of_mem _ ht)
      have h3 : NoWhere (' ' :: Join (c :: rest) ", ".toList) := (clause_blank h2).1
      have := noWhere_append_cons (by decide : ',' ∉ kwWHERE) h1 h3
      simpa [Join] using this

theorem clause_limit {b : Builder} (h : NoWhere b.modifier.PrePh) : Clause (limitClause b) := by
  unfold limitClause
  split
  · have h1 := noWhere_snoc_append (by decide : ' ' ∉ kwWHERE)
      (by decide : NoWhere "LIMIT".toList) h
    exact clause_blank h1
  · exact clause_nil

theorem clause_offset {b : Builder} (h : NoWhere b.modifier.PrePh) :
    Clause (offsetClause b) := by
  unfold offsetClause
  split
  · have h1 := noWhere_snoc_append (by decide : ' ' ∉ kwWHERE)
      (by decide : NoWhere "OFFSET".toList) h
    exact clause_blank h1
  · exact clause_nil

theorem clause_group {b : Builder} (h : NoWhere b.group) : Clause (groupClause b) := by
  unfold groupClause
  split
  · exact clause_nil
  · exact clause_blank h

theorem clause_order {b : Builder} (h : ∀ e ∈ b.orders, NoWhere e.1 ∧ NoWhere e.2) :
    Clause (orderClause b) := by
  unfold orderClause
  split
  · exact clause_nil
  · rw [handleOrderBy_eq]
    have hj : NoWhere (Join (b.orders.map fun e => e.1 ++ " ".toList ++ e.2) ", ".toList) := by
      apply noWhere_Join
      intro t ht
      obtain ⟨e, he, rfl⟩ := List.mem_map.1 ht
      exact noWhere_snoc_append (by decide : ' ' ∉ kwWHERE) (h e he).1 (h e he).2
    have h1 := noWhere_snoc_append (by decide : ' ' ∉ kwWHERE)
      (by decide : NoWhere "ORDER BY".toList) hj
    exact clause_blank h1

theorem clause_trailing {b : Builder} (h : NoWhere b.modifier.PrePh) :
    Clause (limitClause b ++ offsetClause b) :=
  clause_append (clause_limit h) (clause_offset h)

theorem noWhere_queryHead {b : Builder} (h : NoWhereIn b) (tail : Str) (ht : Clause tail) :
    NoWhere (queryHead b [] ++ tail) := by
  have h1 : Clause (orderClause b ++ (groupClause b ++ tail)) :=
    clause_append (clause_order h.orders) (clause_append (clause_group h.group) ht)
  have h2 : NoWhere (QuotedTableName b ++ (orderClause b ++ (groupClause b ++ tail))) :=
    noWhere_append h.table h1
  have h3 := noWhere_snoc_append (by decide : ' ' ∉ kwWHERE)
    (by decide : NoWhere "FROM".toList) h2
  have h4 := noWhere_append (noWhere_Join h.columns) (clause_blank h3)
  have h5 := noWhere_snoc_append (by decide : ' ' ∉ kwWHERE)
    (by decide : NoWhere "SELECT".toList) h4
  have e : queryHead b [] ++ tail =
      "SELECT".toList ++ [' '] ++ (Join (QuotedColumns b) ", ".toList ++
        ' ' :: ("FROM".toList ++ [' '] ++
          (QuotedTableName b ++ (orderClause b ++ (groupClause b ++ tail))))) := by
    simp [queryHead, List.append_assoc]
  rw [e]
  exact h5

theorem noWhere_removeHead {b : Builder} (h : NoWhereIn b) (tail : Str) (ht : Clause tail) :
    NoWhere (removeHead b [] ++ tail) := by
  have h2 : NoWhere (QuotedTableName b ++ tail) := noWhere_append h.table ht
  have h3 := noWhere_snoc_append (by decide : ' ' ∉ kwWHERE)
    (by decide : NoWhere "DELETE FROM".toList) h2
  have e : removeHead b [] ++ tail = "DELETE FROM".toList ++ [' '] ++ (QuotedTableName b ++ tail) := by
    simp [removeHead, List.append_assoc]
  rw [e]
  exact h3

theorem noWhere_updateHead {b : Builder} (h : NoWhereIn b) (data : List (Str × Value))
    (hd : ∀ e ∈ data, NoWhere (b.modifier.QuoteName e.1)) (tail : Str) (ht : Clause tail) :
    NoWhere (updateHead b data [] ++ tail) := by
  have hs : NoWhere (setClause b data) := by
    apply noWhere_Join
    intro t ht
    obtain ⟨e, he, rfl⟩ := List.mem_map.1 ht
    exact noWhere_snoc_append (by decide : '=' ∉ kwWHERE) (hd e he) h.prePh
  have h1 : NoWhere (setClause b data ++ tail) := noWhere_append hs ht
  have h2 := noWhere_snoc_append (by decide : ' ' ∉ kwWHERE)
    (by decide : NoWhere "SET".toList) h1
  have h3 := noWhere_append h.table (clause_blank h2)
  have h4 := noWhere_snoc_append (by decide : ' ' ∉ kwWHERE)
    (by decide : NoWhere "UPDATE".toList) h3
  have e : updateHead b data [] ++ tail =
      "UPDATE".toList ++ [' '] ++ (QuotedTableName b ++
        ' ' :: ("SET".toList ++ [' '] ++ (setClause b data ++ tail))) := by
    simp [updateHead, List.append_assoc]
  rw [e]
  exact h4

theorem noWhere_replaceFrom {m : Modifier}
    (hph : ∀ i : Nat, m.Ph (itoa i) ≠ [] ∧ ∀ x ∈ m.Ph (itoa i), x ∉ kwWHERE)
    (fuel i : Nat) (s : Str) (hs : NoWhere s) : NoWhere (replaceFrom m fuel i s) := by
  induction fuel generalizing i s with
  | zero => exact hs
  | succ fuel ih =>
    unfold replaceFrom
    cases hc : cut m.PrePh s with
    | none => exact hs
    | some r =>
      obtain ⟨pre, post⟩ := r
      have e := cut_some hc
      have hpre : NoWhere pre := noWhere_of_part ⟨[], m.PrePh ++ post, by simp [e]⟩ hs
      have hpost : NoWhere post := noWhere_of_part ⟨pre ++ m.PrePh, [], by simp [e]⟩ hs
      have hrec := ih (i + 1) post hpost
      obtain ⟨hne, hch⟩ := hph i
      show NoWhere (pre ++ m.Ph (itoa i) ++ replaceFrom m fuel (i + 1) post)
      cases hP : m.Ph (itoa i) with
      | nil => exact absurd hP hne
      | cons x rest =>
        rw [hP] at hch
        have hblock := noWhere_block (fun y hy => hch y (List.mem_cons_of_mem _ hy)) hrec
        have := noWhere_append_cons (hch x (List.mem_cons_self _ _)) hpre hblock
        simpa [List.append_assoc] using this

theorem noWhere_replace {m : Modifier}
    (hph : ∀ i : Nat, m.Ph (itoa i) ≠ [] ∧ ∀ x ∈ m.Ph (itoa i), x ∉ kwWHERE)
    (s : Str) (hs : NoWhere s) : NoWhere (replace m s) := by
  unfold replace
  split
  · exact hs
  · exact noWhere_replaceFrom hph _ _ _ hs

theorem whereClause_of_nil {b : Builder} (hc : b.conditions = []) :
    whereClause b = some ([], []) := by
  unfold whereClause
  rw [if_pos hc]

theorem stReturn_values_nil (s : St) (h : s.2.values = []) : stReturn s = some s := by
  have e : toSql s.2 s.1 = some s.1 := by
    unfold toSql
    rw [Params_eq, h]
    split <;> rfl
  unfold stReturn
  rw [e]

theorem stReturn_some_of_not_text {X r : St} (hX : ∀ v ∈ X.2.values, isText v = false)
    (h : stReturn X = some r) : r = X := by
  by_cases hp : X.2.isPrepare = false
  · rw [stReturn_parameterized _ hp] at h
    exact (Option.some.inj h).symm
  · cases hv : X.2.values with
    | nil =>
      rw [stReturn_values_nil _ hv] at h
      exact (Option.some.inj h).symm
    | cons v vs =>
      have hn : stReturn X = none := by
        rw [stReturn_none_iff]
        refine ⟨by simpa using hp, v, by rw [hv]; simp, hX v (by rw [hv]; simp)⟩
      rw [hn] at h
      simp at h

theorem trail_nil_not_text (b : Builder) (head : Str) :
    ∀ v ∈ (trail b head []).2.values, isText v = false := by
  intro v hv
  simp only [trail, limitValue, offsetValue, List.nil_append, List.mem_append] at hv
  rcases hv with hv | hv
  · split at hv
    · rw [List.mem_singleton.1 hv]
      rfl
    · simp at hv
  · split at hv
    · rw [List.mem_singleton.1 hv]
      rfl
    · simp at hv

/-- C9, as the claim states it, fails: `ForQuery` on a builder without conditions whose
group fragment holds a subquery returns a text with the keyword WHERE; so it does with the
renumbering flag off, when neither the renumbering pass nor the WHERE renderer is called. -/
theorem where_in_group_fragment :
    subqueryBuilder.conditions = [] ∧
      (ForQuery subqueryBuilder).map (fun s => String.mk s.1) =
        some "SELECT * FROM [users] GROUP BY a HAVING a IN (SELECT a FROM t WHERE b=1)" ∧
      (ForQuery { subqueryBuilder with replace := false }).map (fun s => String.mk s.1) =
        some "SELECT * FROM [users] GROUP BY a HAVING a IN (SELECT a FROM t WHERE b=1)" ∧
      kwWHERE <:+:
        "SELECT * FROM [users] GROUP BY a HAVING a IN (SELECT a FROM t WHERE b=1)".toList := by
  decide

/-- C9, amended: for a builder with an empty condition stream the generators emit no WHERE
clause, so the keyword WHERE occurs in their text only if a text of the caller or of the
dialect brings it: when the quoted table name, the formatted columns, the order entries,
the group fragment, the quoted assignment fields and the marker are free of it and every
final marker is non-empty with no letter of it, no text returned by `ForQuery` or
`ForRemove`, and no text returned by `ForUpdate` in parameterized mode, holds the keyword
WHERE; in parameterized mode the three calls return. -/
theorem no_where_without_conditions (b : Builder) (hc : b.conditions = [])
    (hb : NoWhereIn b) :
    (∀ s, ForQuery b = some s → NoWhere s.1) ∧
      (∀ s, ForRemove b = some s → NoWhere s.1) ∧
      (∀ data : List (Str × Value), (∀ e ∈ data, NoWhere (b.modifier.QuoteName e.1)) →
        b.isPrepare = false → ∀ s, ForUpdate b data = some s → NoWhere s.1) ∧
      (b.isPrepare = false →
        (∃ s, ForQuery b = some s) ∧ (∃ s, ForRemove b = some s) ∧
          ∀ data : List (Str × Value), ∃ s, ForUpdate b data = some s) := by
  have hw := whereClause_of_nil hc
  have htr := clause_trailing hb.prePh
  refine ⟨fun s hs => ?_, fun s hs => ?_, fun data hd hp s hs => ?_,
    fun hp => ⟨?_, ?_, fun data => ?_⟩⟩
  · unfold ForQuery at hs
    rw [ForQuery_sql_trail hw] at hs
    have hs' : stReturn (stReplace (trail b (queryHead b []) [])) = some s := hs
    have e := stReturn_some_of_not_text
      (by rw [stReplace_values]; exact trail_nil_not_text b _) hs'
    have ht : NoWhere (trail b (queryHead b []) []).1 := by
      show NoWhere (queryHead b [] ++ limitClause b ++ offsetClause b)
      rw [List.append_assoc]
      exact noWhere_queryHead hb _ htr
    rw [e]
    unfold stReplace
    split
    · exact noWhere_replace hb.ph _ ht
    · exact ht
  · unfold ForRemove at hs
    rw [ForRemove_sql_trail hw] at hs
    have hs' : stReturn (replace b.modifier (trail b (removeHead b []) []).1,
        (trail b (removeHead b []) []).2) = some s := hs
    have hX : ∀ v ∈ ((replace b.modifier (trail b (removeHead b []) []).1,
        (trail b (removeHead b []) []).2) : St).2.values, isText v = false :=
      trail_nil_not_text b (removeHead b [])
    have e := stReturn_some_of_not_text hX hs'
    have ht : NoWhere (trail b (removeHead b []) []).1 := by
      show NoWhere (removeHead b [] ++ limitClause b ++ offsetClause b)
      rw [List.append_assoc]
      exact noWhere_removeHead hb _ htr
    rw [e]
    exact noWhere_replace hb.ph _ ht
  · have hu := ForUpdate_parameterized (ForUpdate_sql_trail data hw) hp
    rw [hu] at hs
    have ht : NoWhere (trail b (updateHead b data []) (data.map Prod.snd ++ [])).1 := by
      show NoWhere (updateHead b data [] ++ limitClause b ++ offsetClause b)
      rw [List.append_assoc]
      exact noWhere_updateHead hb data hd _ htr
    rw [← Option.some.inj hs]
    exact noWhere_replace hb.ph _ ht
  · exact ⟨_, ForQuery_parameterized (ForQuery_sql_trail hw) hp⟩
  · exact ⟨_, ForRemove_parameterized (ForRemove_sql_trail hw) hp⟩
  · exact ⟨_, ForUpdate_parameterized (ForUpdate_sql_trail data hw) hp⟩

theorem pagedBuilder_noWhereIn : NoWhereIn pagedBuilder :=
  ⟨by decide, by decide, by decide, by decide, by decide, fun _ =>
    (by decide : "?".toList ≠ [] ∧ ∀ x ∈ "?".toList, x ∉ kwWHERE)⟩

/-- The amended C9 at `From("users").Limit(10).Offset(0)` with the assignment `age = 5`:
the three returned texts are free of the keyword. -/
theorem no_where_without_conditions_witness :
    pagedBuilder.conditions = [] ∧
      (∃ s, ForQuery pagedBuilder = some s ∧ NoWhere s.1) ∧
      (∃ s, ForRemove pagedBuilder = some s ∧ NoWhere s.1) ∧
      (∃ s, ForUpdate pagedBuilder [("age".toList, .int 5)] = some s ∧ NoWhere s.1) :=
  have h := no_where_without_conditions pagedBuilder rfl pagedBuilder_noWhereIn
  ⟨rfl,
    match (h.2.2.2 rfl).1 with
    | ⟨s, hs⟩ => ⟨s, hs, h.1 s hs⟩,
    match (h.2.2.2 rfl).2.1 with
    | ⟨s, hs⟩ => ⟨s, hs, h.2.1 s hs⟩,
    match (h.2.2.2 rfl).2.2 [("age".toList, .int 5)] with
    | ⟨s, hs⟩ => ⟨s, hs, h.2.2.1 _ (by decide) rfl s hs⟩⟩

/-! ## Stale parameters -/

/-- Every generator resets the parameter list before it appends to it: when the two calls
visit the entries of every map in the same order (the order entries of `b`, the rows and
the assignments, each given by one list), `b` and `b` with the parameter list `vs` get the
same result from `ForQuery`, `ForRemove`, `ForInsert` and `ForUpdate`, in both output
modes and also when the call fails. -/
theorem stale_params_ignored (b : Builder) (vs : List Value)
    (rows : List (List (Str × Value))) (data : List (Str × Value)) :
    ForQuery { b with values := vs } = ForQuery b ∧
      ForRemove { b with values := vs } = ForRemove b ∧
      ForInsert { b with values := vs } rows = ForInsert b rows ∧
      ForUpdate { b with values := vs } data = ForUpdate b data ∧
      shown (ForQuery { b with values := vs }) = shown (ForQuery b) ∧
      shown (ForRemove { b with values := vs }) = shown (ForRemove b) ∧
      shown (ForInsert { b with values := vs } rows) = shown (ForInsert b rows) ∧
      shown (ForUpdate { b with values := vs } data) = shown (ForUpdate b data) := by
  have h1 : ForQuery { b with values := vs } = ForQuery b := rfl
  have h2 : ForRemove { b with values := vs } = ForRemove b := rfl
  have h3 : ForInsert { b with values := vs } rows = ForInsert b rows := rfl
  have h4 : ForUpdate { b with values := vs } data = ForUpdate b data := rfl
  exact ⟨h1, h2, h3, h4, by rw [h1], by rw [h2], by rw [h3], by rw [h4]⟩

/-! ## C13: what `Init` resets -/

/-- What `Init` does to each field of any builder: the condition stream, the registry, the
order mapping and the parameter list become empty, the projection the single unquoted
`*`, limit and offset -1, the renumbering flag on; the table name, the group fragment, the
inlining flag and the dialect stay what they were. -/
theorem Init_fields (b : Builder) :
    ((Init b).conditions = [] ∧ (Init b).wheres = [] ∧
        (Init b).selects.map (fun c => (c.fieldName, c.quote)) = [("*".toList, false)] ∧
        (Init b).orders = [] ∧ (Init b).values = [] ∧ (Init b).limit = -1 ∧
        (Init b).offset = -1 ∧ (Init b).replace = true) ∧
      (Init b).tableName = b.tableName ∧ (Init b).group = b.group ∧
      (Init b).isPrepare = b.isPrepare ∧ (Init b).modifier = b.modifier :=
  ⟨⟨rfl, rfl, rfl, rfl, rfl, rfl, rfl, rfl⟩, rfl, rfl, rfl, rfl⟩

/-- C13 at the failing input: after `From("users")`, `SetIsPrepare(true)` and a call of
`ForQuery`, `Init()` leaves the table name `users` and the inlining flag on, and a group
fragment stays as well; the other fields are reset. -/
theorem init_keeps_table_group_flag :
    usedBuilder.map (fun b => (String.mk (Init b).tableName, (Init b).isPrepare)) =
        some ("users", true) ∧
      usedBuilder.map (fun b => ((Init b).conditions, (Init b).orders, (Init b).values,
          (Init b).limit, (Init b).offset)) = some ([], [], [], -1, -1) ∧
      String.mk (Init havingBuilder).group = "GROUP BY n HAVING n > ?" :=
  ⟨rfl, rfl, rfl⟩

/-! ## C14: the default projection -/

/-- C14: for every dialect, a builder fresh from `NewBuilder` has the one formatted column
`*`, to which `QuoteName` is not applied, and `ForQuery` assembles the text `SELECT * FROM `
followed by the quoted table name, also after `From`; in particular the text begins with
`SELECT * FROM `. -/
theorem default_projection (m : Modifier) (tableName : Str) :
    QuotedColumns (NewBuilder m) = ["*".toList] ∧
      (∃ s, ForQuery_sql (NewBuilder m) = some s ∧
        s.1 = "SELECT * FROM ".toList ++ m.QuoteName [] ∧ "SELECT * FROM ".toList <+: s.1) ∧
      ∃ s, ForQuery_sql (From (NewBuilder m) tableName) = some s ∧
        s.1 = "SELECT * FROM ".toList ++ m.QuoteName tableName ∧
        "SELECT * FROM ".toList <+: s.1 := by
  refine ⟨rfl, ⟨_, rfl, ?_, ?_⟩, ⟨_, rfl, ?_, ?_⟩⟩
  · simp [NewBuilder, Init, QuotedColumns, QuotedTableName, Join, stOrder, stGroup, stLimit,
      stOffset]
  · simp [NewBuilder, Init, QuotedColumns, QuotedTableName, Join, stOrder, stGroup, stLimit,
      stOffset]
  · simp [NewBuilder, Init, From, QuotedColumns, QuotedTableName, Join, stOrder, stGroup,
      stLimit, stOffset]
  · simp [NewBuilder, Init, From, QuotedColumns, QuotedTableName, Join, stOrder, stGroup,
      stLimit, stOffset]

/-! ## C15: the form of INSERT -/

/-- The text that `ForInsert` assembles is never the form of the spec: it has no blank
after the keyword VALUES, so it is one character shorter. -/
theorem insert_text_shorter (b : Builder) (data : List (List (Str × Value))) :
    (ForInsert_sql b data).1.length + 1 = (insertForm b data).length ∧
      (ForInsert_sql b data).1 ≠ insertForm b data := by
  have h : (ForInsert_sql b data).1.length + 1 = (insertForm b data).length := by
    rw [ForInsert_sql_eq]
    simp only [insertForm, List.length_append]
    have e1 : " VALUES ".toList.length = " VALUES".toList.length + 1 := by decide
    rw [e1]
    omega
  refine ⟨h, fun e => ?_⟩
  rw [e] at h
  omega

/-- The field list of `ForInsert` is that of the first row: the assembled text up to the
keyword VALUES does not change with the later rows. -/
theorem insert_fields_of_first_row (b : Builder) (row : List (Str × Value))
    (rest : List (List (Str × Value))) :
    (ForInsert_sql b (row :: rest)).1 =
      "INSERT INTO ".toList ++ QuotedTableName b ++
        ("(".toList ++ Join (row.map fun e => b.modifier.QuoteName e.1) ", ".toList ++
          ")".toList) ++
        (" VALUES".toList ++ Join ((row :: rest).map (tuple b.modifier)) ", ".toList) := by
  rw [ForInsert_sql_eq]
  rfl

/-- C15, as the claim states it, fails: for the two rows `{name: a, age: 1}`,
`{name: b, age: 2}` the text that `ForInsert` assembles is
`INSERT INTO [users]([name], [age]) VALUES(?, ?), (?, ?)`, with no blank between the
keyword VALUES and the first tuple, where the form of the claim is
`INSERT INTO [users]([name], [age]) VALUES (?, ?), (?, ?)`; the call returns the text
without the blank. -/
theorem insert_no_blank_after_values :
    String.mk (ForInsert_sql (From (NewBuilder qmark) "users".toList) twoRows).1 =
        "INSERT INTO [users]([name], [age]) VALUES(?, ?), (?, ?)" ∧
      String.mk (insertForm (From (NewBuilder qmark) "users".toList) twoRows) =
        "INSERT INTO [users]([name], [age]) VALUES (?, ?), (?, ?)" ∧
      (ForInsert (From (NewBuilder qmark) "users".toList) twoRows).map
          (fun s => String.mk s.1) =
        some "INSERT INTO [users]([name], [age]) VALUES(?, ?), (?, ?)" := by
  decide

/-! ## C16: limit and offset as trailing clauses -/

theorem trail_unset (b : Builder) (head : Str) (pv : List Value) :
    (trail (Offset (Limit b (-1)) (-1)) head pv).1 = head ∧
      Params (trail (Offset (Limit b (-1)) (-1)) head pv).2 = pv := by
  simp [trail, Params_eq, limitClause, limitValue, offsetClause, offsetValue, Limit, Offset]

theorem trail_cases (b : Builder) (head : Str) (pv : List Value) :
    (b.limit > -1 → b.offset > -1 →
        (trail b head pv).1 = head ++ (" LIMIT ".toList ++ b.modifier.PrePh ++
          " OFFSET ".toList ++ b.modifier.PrePh) ∧
        Params (trail b head pv).2 = pv ++ [.int b.limit, .int b.offset]) ∧
      (b.limit > -1 → ¬ b.offset > -1 →
        (trail b head pv).1 = head ++ (" LIMIT ".toList ++ b.modifier.PrePh) ∧
        Params (trail b head pv).2 = pv ++ [.int b.limit]) ∧
      (¬ b.limit > -1 → b.offset > -1 →
        (trail b head pv).1 = head ++ (" OFFSET ".toList ++ b.modifier.PrePh) ∧
        Params (trail b head pv).2 = pv ++ [.int b.offset]) ∧
      (¬ b.limit > -1 → ¬ b.offset > -1 →
        (trail b head pv).1 = head ∧ Params (trail b head pv).2 = pv) := by
  refine ⟨fun h1 h2 => ?_, fun h1 h2 => ?_, fun h1 h2 => ?_, fun h1 h2 => ?_⟩ <;>
    simp [trail, Params_eq, limitClause, limitValue, offsetClause, offsetValue, h1, h2]

theorem trailingClauses_of_trail {sql ret : Builder → Option St} {b : Builder} (head : Str)
    (pv : List Value)
    (h0 : sql (Offset (Limit b (-1)) (-1)) = some (trail (Offset (Limit b (-1)) (-1)) head pv))
    (h1 : sql b = some (trail b head pv))
    (hr : b.isPrepare = false → ∃ r, ret b = some r ∧ r.2 = (trail b head pv).2) :
    TrailingClauses sql ret b := by
  obtain ⟨c1, c2, c3, c4⟩ := trail_cases b head pv
  obtain ⟨u1, u2⟩ := trail_unset b head pv
  refine ⟨_, _, h0, h1, ?_, ?_, ?_, ?_, fun hp => ?_⟩
  · intro a1 a2
    rw [u1, u2]
    exact c1 a1 a2
  · intro a1 a2
    rw [u1, u2]
    exact c2 a1 a2
  · intro a1 a2
    rw [u1, u2]
    exact c3 a1 a2
  · intro a1 a2
    rw [u1, u2]
    exact c4 a1 a2
  · obtain ⟨r, hr1, hr2⟩ := hr hp
    exact ⟨r, hr1, by rw [hr2]⟩

/-- C16: for a builder whose WHERE renderer returns, `ForQuery`, `ForRemove` and
`ForUpdate` render limit and offset as trailing clauses: with both greater than -1 the
assembled text ends with ` LIMIT ` + marker + ` OFFSET ` + marker and the parameters end
with the limit and the offset in that order; with one of them only, that one clause and
that one value are appended; with neither, nothing is appended. -/
theorem limit_offset_trailing (b : Builder) (data : List (Str × Value)) (w : Str)
    (vs : List Value) (hw : whereClause b = some (w, vs)) :
    TrailingClauses ForQuery_sql ForQuery b ∧ TrailingClauses ForRemove_sql ForRemove b ∧
      TrailingClauses (fun x => ForUpdate_sql x data) (fun x => ForUpdate x data) b := by
  have hw0 : whereClause (Offset (Limit b (-1)) (-1)) = some (w, vs) := hw
  refine ⟨?_, ?_, ?_⟩
  · exact trailingClauses_of_trail (queryHead b w) vs (ForQuery_sql_trail hw0)
      (ForQuery_sql_trail hw) fun hp => ForQuery_returns (ForQuery_sql_trail hw) hp
  · exact trailingClauses_of_trail (removeHead b w) vs (ForRemove_sql_trail hw0)
      (ForRemove_sql_trail hw) fun hp => ForRemove_returns (ForRemove_sql_trail hw) hp
  · exact trailingClauses_of_trail (updateHead b data w) (data.map Prod.snd ++ vs)
      (ForUpdate_sql_trail data hw0) (ForUpdate_sql_trail data hw)
      fun hp => ForUpdate_returns (ForUpdate_sql_trail data hw) hp

/-- C16 at `From("users").Limit(10).Offset(0)`: the text of `ForQuery` ends with both
clauses and the parameters are `[10, 0]`. -/
theorem limit_offset_trailing_witness :
    whereClause pagedBuilder = some ([], []) ∧
      shown (ForQuery_sql pagedBuilder) =
        some ("SELECT * FROM [users] LIMIT ? OFFSET ?".toList, [.int 10, .int 0]) ∧
      (TrailingClauses ForQuery_sql ForQuery pagedBuilder ∧
        TrailingClauses ForRemove_sql ForRemove pagedBuilder ∧
        TrailingClauses (fun x => ForUpdate_sql x [("age".toList, .int 5)])
          (fun x => ForUpdate x [("age".toList, .int 5)]) pagedBuilder) :=
  ⟨by decide, by decide,
    limit_offset_trailing pagedBuilder [("age".toList, .int 5)] [] [] (by decide)⟩

/-! ## C17: the ORDER BY clause -/

theorem Join_eq_intersperse (ts : List Str) (sep : Str) :
    Join ts sep = (ts.intersperse sep).flatten := by
  induction ts with
  | nil => rfl
  | cons a ts ih =>
    cases ts with
    | nil => simp [Join]
    | cons c rest =>
      simp only [Join, List.intersperse, List.flatten_cons, List.append_assoc]
      rw [ih]

theorem length_intersperse_pieces (ts : List Str) (sep : Str) :
    (ts.intersperse sep).length = 2 * ts.length - 1 := by
  induction ts with
  | nil => rfl
  | cons a ts ih =>
    cases ts with
    | nil => rfl
    | cons c rest =>
      simp only [List.intersperse, List.length_cons] at ih ⊢
      omega

theorem head_intersperse (ts : List Str) (sep : Str) :
    (ts.intersperse sep).head? = ts.head? := by
  cases ts with
  | nil => rfl
  | cons a ts => cases ts <;> rfl

theorem getLast_intersperse (ts : List Str) (sep : Str) :
    (ts.intersperse sep).getLast? = ts.getLast? := by
  induction ts with
  | nil => rfl
  | cons a ts ih =>
    cases ts with
    | nil => rfl
    | cons c rest =>
      have hne : List.intersperse sep (c :: rest) ≠ [] := by
        cases rest <;> simp [List.intersperse]
      have hstep : ∀ (x : Str) (l : List Str), l ≠ [] → (x :: l).getLast? = l.getLast? := by
        intro x l hl
        cases l with
        | nil => exact absurd rfl hl
        | cons y l => exact List.getLast?_cons_cons
      show (a :: sep :: List.intersperse sep (c :: rest)).getLast? = _
      rw [List.getLast?_cons_cons, hstep _ _ hne, ih, List.getLast?_cons_cons]

/-- C17: for the order entries traversed as `(f1, d1)`, ..., `(fn, dn)`, `handleOrderBy`
returns ` ORDER BY ` followed by the texts `fi di` joined by `, `: the clause is the
concatenation of the `2n - 1` pieces made of the `n` entries, each the field name as it is,
a blank and the direction, with the separator `, ` between two entries, so that the first
and the last piece are entries. -/
theorem order_by_joined (orders : List (Str × Str)) :
    handleOrderBy orders =
        " ORDER BY ".toList ++
          Join (orders.map fun e => e.1 ++ " ".toList ++ e.2) ", ".toList ∧
      handleOrderBy orders =
        " ORDER BY ".toList ++
          ((orders.map fun e => e.1 ++ " ".toList ++ e.2).intersperse ", ".toList).flatten ∧
      ((orders.map fun e => e.1 ++ " ".toList ++ e.2).intersperse ", ".toList).length =
        2 * orders.length - 1 ∧
      ((orders.map fun e => e.1 ++ " ".toList ++ e.2).intersperse ", ".toList).head? =
        orders.head?.map (fun e => e.1 ++ " ".toList ++ e.2) ∧
      ((orders.map fun e => e.1 ++ " ".toList ++ e.2).intersperse ", ".toList).getLast? =
        orders.getLast?.map (fun e => e.1 ++ " ".toList ++ e.2) := by
  refine ⟨handleOrderBy_eq orders, ?_, ?_, ?_, ?_⟩
  · rw [handleOrderBy_eq, Join_eq_intersperse]
  · rw [length_intersperse_pieces, List.length_map]
  · rw [head_intersperse, List.head?_map]
  · rw [getLast_intersperse, List.getLast?_map]

/-- The ORDER BY clause of the two entries `a ASC`, `b DESC`. -/
theorem order_by_two_entries :
    String.mk (handleOrderBy [("a".toList, "ASC".toList), ("b".toList, "DESC".toList)]) =
      " ORDER BY a ASC, b DESC" := by
  decide

/-! ## C18: INSERT without validation of the rows -/

theorem length_flatten_values (data : List (List (Str × Value))) :
    (data.map fun row => row.map Prod.snd).flatten.length = (data.map List.length).sum := by
  induction data with
  | nil => rfl
  | cons row data ih => simp [ih]

/-- C18: in parameterized mode `ForInsert` returns a statement for every list of rows,
whatever their shapes: the assembled text is `INSERT INTO <table>(<fields>) VALUES<tuples>`
with as many fields as the first row has entries (none, that is `()`, for the empty list),
one tuple for each row, the tuple of a row holding as many placeholders as the row has
entries, and the parameter list has the sum of the row sizes as its length. -/
theorem insert_unvalidated (b : Builder) (data : List (List (Str × Value)))
    (hp : b.isPrepare = false) :
    ∃ s fields tuples,
      ForInsert b data = some s ∧ s.1 = replace b.modifier (ForInsert_sql b data).1 ∧
      (ForInsert_sql b data).1 =
        "INSERT INTO ".toList ++ QuotedTableName b ++
          ("(".toList ++ Join fields ", ".toList ++ ")".toList) ++
          (" VALUES".toList ++ Join tuples ", ".toList) ∧
      fields = (data.head?.getD []).map (fun e => b.modifier.QuoteName e.1) ∧
      fields.length = (data.head?.getD []).length ∧
      (data = [] → "(".toList ++ Join fields ", ".toList ++ ")".toList = "()".toList) ∧
      tuples = data.map (fun row =>
        "(".toList ++ Join (List.replicate row.length b.modifier.PrePh) ", ".toList ++
          ")".toList) ∧
      tuples.length = data.length ∧
      Params s.2 = (data.map fun row => row.map Prod.snd).flatten ∧
      (Params s.2).length = (data.map List.length).sum := by
  have h1 := ForInsert_sql_eq b data
  have htup : data.map (tuple b.modifier) = data.map (fun row =>
      "(".toList ++ Join (List.replicate row.length b.modifier.PrePh) ", ".toList ++
        ")".toList) :=
    List.map_congr_left fun row _ => tuple_eq_replicate b.modifier row
  refine ⟨(replace b.modifier (ForInsert_sql b data).1, (ForInsert_sql b data).2), _, _, ?_,
    rfl, ?_, rfl, ?_, ?_, rfl, ?_, ?_, ?_⟩
  · unfold ForInsert
    show stReturn (replace (ForInsert_sql b data).2.modifier (ForInsert_sql b data).1,
      (ForInsert_sql b data).2) = _
    have hmod : (ForInsert_sql b data).2.modifier = b.modifier := by rw [h1]
    have hprep : (ForInsert_sql b data).2.isPrepare = b.isPrepare := by rw [h1]
    rw [hmod]
    exact stReturn_parameterized _ (hprep.trans hp)
  · rw [h1, htup]
  · rw [List.length_map]
  · intro hd
    rw [hd]
    rfl
  · rw [List.length_map]
  · rw [h1, Params_eq]
  · rw [h1, Params_eq]
    exact length_flatten_values data

/-- C18 at three rows of different shapes and at the empty list: statements are returned,
with the tuples `(?)`, `(?, ?)`, `()` and three parameters, and with the field list `()`. -/
theorem insert_unvalidated_witness :
    (From (NewBuilder qmark) "users".toList).isPrepare = false ∧
      shown (ForInsert (From (NewBuilder qmark) "users".toList) raggedRows) =
        some ("INSERT INTO [users]([a]) VALUES(?), (?, ?), ()".toList,
          [.int 1, .int 2, .int 3]) ∧
      shown (ForInsert (From (NewBuilder qmark) "users".toList) []) =
        some ("INSERT INTO [users]() VALUES".toList, []) ∧
      ∃ s, ForInsert (From (NewBuilder qmark) "users".toList) raggedRows = some s ∧
        (Params s.2).length = (raggedRows.map List.length).sum :=
  ⟨rfl, by decide, by decide,
    match insert_unvalidated (From (NewBuilder qmark) "users".toList) raggedRows rfl with
    | ⟨s, _, _, h1, _, _, _, _, _, _, _, _, h2⟩ => ⟨s, h1, h2⟩⟩

/-! ## C19: OrderBy -/

theorem keys_mapSet (m : List (Str × Str)) (k v : Str) :
    (mapSet m k v).map Prod.fst =
      if k ∈ m.map Prod.fst then m.map Prod.fst else m.map Prod.fst ++ [k] := by
  induction m with
  | nil => simp [mapSet]
  | cons e m ih =>
    obtain ⟨k', v'⟩ := e
    unfold mapSet
    by_cases h : k' = k
    · simp [h]
    · have h' : ¬ k = k' := fun e => h e.symm
      simp only [h, if_false, List.map_cons, ih, List.mem_cons, h', false_or]
      split <;> simp

theorem lookup_cons_key (f k v : Str) (m : List (Str × Str)) :
    ((k, v) :: m).lookup f = if f = k then some v else m.lookup f := by
  by_cases h : f = k
  · subst h
    have hb : (f == f) = true := beq_self_eq_true f
    simp only [List.lookup, hb, if_true]
  · have hb : (f == k) = false := beq_eq_false_iff_ne.2 h
    simp only [List.lookup, hb, h, if_false]

theorem lookup_mapSet (m : List (Str × Str)) (k v f : Str) :
    (mapSet m k v).lookup f = if f = k then some v else m.lookup f := by
  induction m with
  | nil =>
    unfold mapSet
    rw [lookup_cons_key]
  | cons e m ih =>
    obtain ⟨k', v'⟩ := e
    unfold mapSet
    by_cases h : k' = k
    · subst h
      simp only [if_true, lookup_cons_key]
      split <;> rfl
    · simp only [h, if_false, lookup_cons_key, ih]
      by_cases hf : f = k'
      · have hfk : ¬ f = k := fun e => h (hf.symm.trans e)
        simp only [hf, if_true]
        rw [if_neg (fun e => h e)]
      · simp only [hf, if_false]

theorem nodup_mapSet (m : List (Str × Str)) (k v : Str) (h : (m.map Prod.fst).Nodup) :
    ((mapSet m k v).map Prod.fst).Nodup := by
  rw [keys_mapSet]
  split
  · exact h
  · rename_i hk
    rw [List.nodup_append]
    refine ⟨h, List.nodup_singleton k, ?_⟩
    intro a ha hb
    rw [List.mem_singleton] at hb
    exact hk (hb ▸ ha)

theorem mem_keys_mapSet (m : List (Str × Str)) (k v a : Str) :
    a ∈ (mapSet m k v).map Prod.fst ↔ a ∈ m.map Prod.fst ∨ a = k := by
  rw [keys_mapSet]
  split
  · rename_i hk
    constructor
    · exact Or.inl
    · rintro (h | h)
      · exact h
      · rw [h]; exact hk
  · simp

theorem OrderByAll_eq (b : Builder) (calls : List (Str × Str)) :
    OrderByAll b calls =
      { b with orders := calls.foldl (fun m c => mapSet m c.1 c.2) b.orders } := by
  induction calls generalizing b with
  | nil => rfl
  | cons c cs ih =>
    show OrderByAll (OrderBy b c.1 c.2) cs = _
    rw [ih]
    rfl

theorem nodup_foldl_mapSet (calls : List (Str × Str)) (m : List (Str × Str))
    (h : (m.map Prod.fst).Nodup) :
    ((calls.foldl (fun m c => mapSet m c.1 c.2) m).map Prod.fst).Nodup := by
  induction calls generalizing m with
  | nil => exact h
  | cons c cs ih => exact ih _ (nodup_mapSet m c.1 c.2 h)

theorem lookup_foldl_mapSet (calls : List (Str × Str)) (m : List (Str × Str)) (f : Str) :
    (calls.foldl (fun m c => mapSet m c.1 c.2) m).lookup f =
      (lastDirection calls f).or (m.lookup f) := by
  induction calls generalizing m with
  | nil => rfl
  | cons c cs ih =>
    rw [List.foldl_cons, ih, lookup_mapSet]
    unfold lastDirection
    rw [List.reverse_cons, List.lookup_append, lookup_cons_key]
    cases List.lookup f cs.reverse with
    | some d => rfl
    | none =>
      by_cases hf : f = c.1
      · simp [hf, Option.or]
      · simp [hf, Option.or, List.lookup]

theorem mem_keys_foldl_mapSet (calls : List (Str × Str)) (m : List (Str × Str)) (a : Str) :
    a ∈ (calls.foldl (fun m c => mapSet m c.1 c.2) m).map Prod.fst ↔
      a ∈ m.map Prod.fst ∨ a ∈ calls.map Prod.fst := by
  induction calls generalizing m with
  | nil => simp
  | cons c cs ih =>
    rw [List.foldl_cons, ih, mem_keys_mapSet]
    simp only [List.map_cons, List.mem_cons]
    tauto

theorem mem_iff_lookup (l : List (Str × Str)) (h : (l.map Prod.fst).Nodup) (f d : Str) :
    (f, d) ∈ l ↔ l.lookup f = some d := by
  induction l with
  | nil => simp [List.lookup]
  | cons e l ih =>
    obtain ⟨k, v⟩ := e
    rw [List.map_cons, List.nodup_cons] at h
    rw [lookup_cons_key, List.mem_cons, ih h.2]
    by_cases hf : f = k
    · subst hf
      simp only [if_true, Prod.mk.injEq, true_and, Option.some.injEq]
      constructor
      · rintro (e | e)
        · exact e.symm
        · exact absurd (List.mem_map.2 ⟨(f, d), (ih h.2).2 e, rfl⟩) h.1
      · intro e
        exact Or.inl e.symm
    · simp [hf]

theorem length_keys_eq_dedup (l keys : List Str) (hl : l.Nodup) (h : ∀ a, a ∈ l ↔ a ∈ keys) :
    l.length = keys.dedup.length :=
  ((List.perm_ext_iff_of_nodup hl (List.nodup_dedup keys)).2
    fun a => (h a).trans List.mem_dedup.symm).length_eq

/-- C19: after any sequence of `OrderBy` calls on a builder whose order mapping is a map
(no field twice), only the order mapping has changed; it is again a map, holds one entry
for each distinct field name among its former fields and the names passed, so as many
entries as distinct names passed when it was empty before, and gives each field passed
the direction of the most recent call for it; whatever the order in which the clause
visits the entries, `handleOrderBy` renders exactly these entries, each once. -/
theorem order_by_last_wins (b : Builder) (calls : List (Str × Str))
    (h : (b.orders.map Prod.fst).Nodup) :
    OrderByAll b calls = { b with orders := (OrderByAll b calls).orders } ∧
      ((OrderByAll b calls).orders.map Prod.fst).Nodup ∧
      (∀ f, (OrderByAll b calls).orders.lookup f =
        (lastDirection calls f).or (b.orders.lookup f)) ∧
      (OrderByAll b calls).orders.length =
        (b.orders.map Prod.fst ++ calls.map Prod.fst).dedup.length ∧
      (b.orders = [] →
        (OrderByAll b calls).orders.length = (calls.map Prod.fst).dedup.length) ∧
      ∀ t : List (Str × Str), t.Perm (OrderByAll b calls).orders →
        handleOrderBy t =
            " ORDER BY ".toList ++ Join (t.map fun e => e.1 ++ " ".toList ++ e.2) ", ".toList ∧
          t.length = (b.orders.map Prod.fst ++ calls.map Prod.fst).dedup.length ∧
          (t.map Prod.fst).Nodup ∧
          ∀ f d, (f, d) ∈ t ↔ (lastDirection calls f).or (b.orders.lookup f) = some d := by
  have e := OrderByAll_eq b calls
  have eo : (OrderByAll b calls).orders =
      calls.foldl (fun m c => mapSet m c.1 c.2) b.orders := by rw [e]
  have hnd : ((OrderByAll b calls).orders.map Prod.fst).Nodup := by
    rw [eo]
    exact nodup_foldl_mapSet calls b.orders h
  have hlook : ∀ f, (OrderByAll b calls).orders.lookup f =
      (lastDirection calls f).or (b.orders.lookup f) := by
    intro f
    rw [eo]
    exact lookup_foldl_mapSet calls b.orders f
  have hlen : (OrderByAll b calls).orders.length =
      (b.orders.map Prod.fst ++ calls.map Prod.fst).dedup.length := by
    rw [← List.length_map (OrderByAll b calls).orders Prod.fst]
    apply length_keys_eq_dedup _ _ hnd
    intro a
    rw [eo, mem_keys_foldl_mapSet, List.mem_append]
  refine ⟨?_, hnd, hlook, hlen, ?_, ?_⟩
  · rw [eo, e]
  · intro h0
    rw [hlen, h0]
    rfl
  · intro t ht
    refine ⟨handleOrderBy_eq t, ?_, ?_, ?_⟩
    · rw [ht.length_eq, hlen]
    · exact ((ht.map Prod.fst).nodup_iff).2 hnd
    · intro f d
      rw [ht.mem_iff, mem_iff_lookup _ hnd, hlook]

/-- C19 at `OrderBy(f, ASC)` followed by `OrderBy(f, DESC)` on a fresh builder: the
mapping holds the single entry `f DESC`, and `ForQuery` renders it. -/
theorem order_by_last_wins_witness :
    ((From (NewBuilder qmark) "users".toList).orders.map Prod.fst).Nodup ∧
      twiceOrdered.orders = [("f".toList, "DESC".toList)] ∧
      (ForQuery twiceOrdered).map (fun s => String.mk s.1) =
        some "SELECT * FROM [users] ORDER BY f DESC" ∧
      twiceOrdered.orders.length =
        ([("f".toList, "ASC".toList), ("f".toList, "DESC".toList)].map Prod.fst).dedup.length :=
  ⟨by decide, by decide, by decide,
    (order_by_last_wins (From (NewBuilder qmark) "users".toList)
      [("f".toList, "ASC".toList), ("f".toList, "DESC".toList)] (by decide)).2.2.2.2.1 rfl⟩

/-! ## C11: rendering twice -/

theorem ForQuery_builder {b : Builder} {s : St} (h : ForQuery b = some s) :
    s.2 = { b with values := s.2.values } := by
  unfold ForQuery at h
  rw [ForQuery_sql_eq] at h
  cases hw : whereClause b with
  | none => simp [hw] at h
  | some r =>
    obtain ⟨w, vs⟩ := r
    rw [hw] at h
    simp only [stReturn] at h
    split at h
    · rename_i out _
      simp only [Option.some.injEq] at h
      rw [← h]
      show (stReplace _).2 = { b with values := (stReplace _).2.values }
      rw [stReplace_values]
    · simp at h

theorem perm_eq_of_length_le_one {t l : List (Str × Str)} (ht : t.Perm l)
    (hl : l.length ≤ 1) : t = l := by
  cases l with
  | nil => exact ht.eq_nil
  | cons a l =>
    cases l with
    | nil => exact List.perm_singleton.1 ht
    | cons c l => simp at hl

/-- C11, as the claim states it, fails: the order entries live in a Go map, which every
`range` loop may visit in another order; with the entries `a ASC` and `b DESC`, a first
call of `ForQuery` that visits them in this order returns `... ORDER BY a ASC, b DESC`,
and a second call in succession that visits them in the other order returns
`... ORDER BY b DESC, a ASC`. -/
theorem requery_differs :
    (ForQuery twoOrders).map (fun s => String.mk s.1) =
        some "SELECT * FROM [users] ORDER BY a ASC, b DESC" ∧
      List.Perm [("b".toList, "DESC".toList), ("a".toList, "ASC".toList)] twoOrders.orders ∧
      ((ForQuery twoOrders).bind fun s =>
          ForQuery (nextCall s.2 [("b".toList, "DESC".toList), ("a".toList, "ASC".toList)])).map
          (fun s => String.mk s.1) =
        some "SELECT * FROM [users] ORDER BY b DESC, a ASC" := by
  decide

/-- C11, amended: when a call of `ForQuery` returns, a second call in succession that
visits the order mapping in the same order, as it must when the mapping has at most one
entry, returns the same text and leaves the same builder, hence the same `Params()`:
the parameters do not accumulate and the columns are not quoted twice. -/
theorem requery_same_traversal (b : Builder) (s : St) (t : List (Str × Str))
    (h : ForQuery b = some s) (ht : t.Perm s.2.orders)
    (hsame : t = s.2.orders ∨ s.2.orders.length ≤ 1) :
    ForQuery (nextCall s.2 t) = some s ∧
      shown (ForQuery (nextCall s.2 t)) = shown (ForQuery b) := by
  have ht' : t = s.2.orders := hsame.elim id fun hl => perm_eq_of_length_le_one ht hl
  have e1 : nextCall s.2 t = s.2 := by rw [ht']; rfl
  have e2 : ForQuery s.2 = ForQuery b := by
    rw [ForQuery_builder h]
    rfl
  rw [e1, e2, h]
  exact ⟨rfl, rfl⟩

/-- The amended C11 at `usersBuilder`, which has one order entry: the second call returns
what the first returned. -/
theorem requery_same_traversal_witness :
    ForQuery (usersBuilder qmark) = some usersRendered ∧
      List.Perm [("age".toList, "DESC".toList)] usersRendered.2.orders ∧
      ForQuery (nextCall usersRendered.2 [("age".toList, "DESC".toList)]) =
        some usersRendered :=
  ⟨rfl, by decide,
    (requery_same_traversal (usersBuilder qmark) usersRendered
      [("age".toList, "DESC".toList)] rfl (by decide) (Or.inl rfl)).1⟩

/-! ## C15, amended: the form of INSERT without the blank -/

/-- C15, amended: for every non-empty list of rows `row :: rest`, the text that `ForInsert`
assembles before the renumbering pass is `INSERT INTO ` + the quoted table + `(` + the
quoted keys of the first row joined by `, ` + `)` + ` VALUES` + the parenthesised
placeholder tuples of the rows joined by `, `, so the first tuple, which begins with `(`,
follows the keyword VALUES with no blank between them, and the text is one character
shorter than the form with a blank; the field list is that of the first row only: with
other later rows `rest2` the text up to the tuples is the same. -/
theorem insert_form_without_blank (b : Builder) (row : List (Str × Value))
    (rest rest2 : List (List (Str × Value))) :
    (ForInsert_sql b (row :: rest)).1 =
        "INSERT INTO ".toList ++ QuotedTableName b ++ "(".toList ++
          Join (row.map fun e => b.modifier.QuoteName e.1) ", ".toList ++ ")".toList ++
          " VALUES".toList ++ Join ((row :: rest).map (tuple b.modifier)) ", ".toList ∧
      (ForInsert_sql b (row :: rest2)).1 =
        "INSERT INTO ".toList ++ QuotedTableName b ++ "(".toList ++
          Join (row.map fun e => b.modifier.QuoteName e.1) ", ".toList ++ ")".toList ++
          " VALUES".toList ++ Join ((row :: rest2).map (tuple b.modifier)) ", ".toList ∧
      "(".toList <+: Join ((row :: rest).map (tuple b.modifier)) ", ".toList ∧
      (ForInsert_sql b (row :: rest)).1.length + 1 = (insertForm b (row :: rest)).length ∧
      (ForInsert_sql b (row :: rest)).1 ≠ insertForm b (row :: rest) := by
  have hform : ∀ rs : List (List (Str × Value)), (ForInsert_sql b (row :: rs)).1 =
      "INSERT INTO ".toList ++ QuotedTableName b ++ "(".toList ++
        Join (row.map fun e => b.modifier.QuoteName e.1) ", ".toList ++ ")".toList ++
        " VALUES".toList ++ Join ((row :: rs).map (tuple b.modifier)) ", ".toList := by
    intro rs
    rw [ForInsert_sql_eq]
    simp only [List.head?_cons, Option.getD_some, List.append_assoc]
  refine ⟨hform rest, hform rest2, ?_, (insert_text_shorter b (row :: rest)).1,
    (insert_text_shorter b (row :: rest)).2⟩
  cases rest with
  | nil => exact ⟨_, rfl⟩
  | cons r rs => exact ⟨_, rfl⟩

/-! ## C12, amended: stale parameters and the traversal of the maps -/

theorem perm_eq_of_short {α : Type} {t l : List α} (ht : t.Perm l) (hl : l.length ≤ 1) :
    t = l := by
  cases l with
  | nil => exact ht.eq_nil
  | cons a l =>
    cases l with
    | nil => exact List.perm_singleton.1 ht
    | cons c l => simp at hl

theorem rows_eq_of_short {α : Type} {r1 r2 : List (List α)}
    (h : List.Forall₂ List.Perm r1 r2) (hs : ∀ row ∈ r2, row.length ≤ 1) : r1 = r2 := by
  induction h with
  | nil => rfl
  | cons hp _ ih =>
    rw [perm_eq_of_short hp (hs _ (List.mem_cons_self _ _)),
      ih fun row hr => hs row (List.mem_cons_of_mem _ hr)]

/-- The generators other than `ForQuery` do not read the order entries, and none reads the
old content of the parameter list: text and parameters are the same on `b` with any
parameter list in any traversal of the order entries. -/
theorem orders_and_values_not_read (b : Builder) (vs : List Value) (u1 u2 : List (Str × Str))
    (rows : List (List (Str × Value))) (data : List (Str × Value)) :
    shown (ForRemove (nextCall { b with values := vs } u1)) =
        shown (ForRemove (nextCall b u2)) ∧
      shown (ForInsert (nextCall { b with values := vs } u1) rows) =
        shown (ForInsert (nextCall b u2) rows) ∧
      shown (ForUpdate (nextCall { b with values := vs } u1) data) =
        shown (ForUpdate (nextCall b u2) data) := by
  refine ⟨?_, ?_, ?_⟩
  · unfold ForRemove
    rw [ForRemove_sql_eq, ForRemove_sql_eq]
    have hw : whereClause (nextCall { b with values := vs } u1) =
        whereClause (nextCall b u2) := rfl
    rw [hw]
    cases whereClause (nextCall b u2) with
    | none => rfl
    | some r => exact shown_stReturn_congr _ _ _ rfl rfl rfl
  · unfold ForInsert
    rw [ForInsert_sql_eq, ForInsert_sql_eq]
    exact shown_stReturn_congr _ _ _ rfl rfl rfl
  · unfold ForUpdate
    rw [ForUpdate_sql_eq, ForUpdate_sql_eq]
    have hw : whereClause (nextCall { b with values := vs } u1) =
        whereClause (nextCall b u2) := rfl
    rw [hw]
    cases whereClause (nextCall b u2) with
    | none => rfl
    | some r => exact shown_stReturn_congr _ _ _ rfl rfl rfl

/-- C12, as the claim states it, fails: the order entries `a ASC` and `b DESC` live in a Go
map, and so do the assignments of `ForUpdate`; `staleTwo` differs from `twoOrders` only in
the content of its parameter list (it holds `stale`), and a call on it that visits the
same order entries in the other order returns `... ORDER BY b DESC, a ASC` where the call
on `twoOrders` returns `... ORDER BY a ASC, b DESC`; likewise `ForUpdate` with the
assignments `a = 1`, `b = 2` returns `... SET [a]=?, [b]=?` with the parameters 1, 2 on
the one builder and `... SET [b]=?, [a]=?` with the parameters 2, 1 on the other. -/
theorem stale_params_other_traversal :
    staleTwo = nextCall { twoOrders with values := [.text "stale".toList] }
        [("b".toList, "DESC".toList), ("a".toList, "ASC".toList)] ∧
      List.Perm staleTwo.orders twoOrders.orders ∧
      (ForQuery twoOrders).map (fun s => String.mk s.1) =
        some "SELECT * FROM [users] ORDER BY a ASC, b DESC" ∧
      (ForQuery staleTwo).map (fun s => String.mk s.1) =
        some "SELECT * FROM [users] ORDER BY b DESC, a ASC" ∧
      List.Perm [("b".toList, Value.int 2), ("a".toList, Value.int 1)]
        [("a".toList, Value.int 1), ("b".toList, Value.int 2)] ∧
      (ForUpdate twoOrders [("a".toList, .int 1), ("b".toList, .int 2)]).map
          (fun s => (String.mk s.1, Params s.2)) =
        some ("UPDATE [users] SET [a]=?, [b]=?", [.int 1, .int 2]) ∧
      (ForUpdate staleTwo [("b".toList, .int 2), ("a".toList, .int 1)]).map
          (fun s => (String.mk s.1, Params s.2)) =
        some ("UPDATE [users] SET [b]=?, [a]=?", [.int 2, .int 1]) :=
  ⟨rfl, by decide, by decide, by decide, by decide, by decide, by decide⟩

/-- C12, amended: every generator resets the parameter list before it appends to it, so
its result does not depend on stale parameters once the two calls visit the entries of
the maps in the same order. For `b` and `b` with the parameter list `vs`: `ForQuery`
returns the same text and leaves the same `Params()` when the two calls visit the order
entries in the same order (`t1` and `t2` are two traversals of the one mapping, equal or
of at most one entry); `ForRemove` does so in any traversals `u1`, `u2`, as it reads no
map; `ForInsert` does so when the two calls visit the entries of every row in the same
order (`rows1` and `rows2` are traversals of the same rows, equal or of rows with at most
one entry), and `ForUpdate` when they visit the assignments in the same order (`data1`
and `data2`, equal or of at most one entry). In each case both calls fail or both
return. -/
theorem stale_params_same_traversal (b : Builder) (vs : List Value)
    (t1 t2 : List (Str × Str)) (rows1 rows2 : List (List (Str × Value)))
    (data1 data2 : List (Str × Value))
    (ht : t1.Perm t2) (hts : t1 = t2 ∨ t2.length ≤ 1)
    (hr : List.Forall₂ List.Perm rows1 rows2)
    (hrs : rows1 = rows2 ∨ ∀ row ∈ rows2, row.length ≤ 1)
    (hd : data1.Perm data2) (hds : data1 = data2 ∨ data2.length ≤ 1) :
    shown (ForQuery (nextCall { b with values := vs } t1)) =
        shown (ForQuery (nextCall b t2)) ∧
      (∀ u1 u2, shown (ForRemove (nextCall { b with values := vs } u1)) =
        shown (ForRemove (nextCall b u2))) ∧
      (∀ u1 u2, shown (ForInsert (nextCall { b with values := vs } u1) rows1) =
        shown (ForInsert (nextCall b u2) rows2)) ∧
      (∀ u1 u2, shown (ForUpdate (nextCall { b with values := vs } u1) data1) =
        shown (ForUpdate (nextCall b u2) data2)) := by
  have et : t1 = t2 := hts.elim id fun hl => perm_eq_of_short ht hl
  have er : rows1 = rows2 := hrs.elim id fun hl => rows_eq_of_short hr hl
  have ed : data1 = data2 := hds.elim id fun hl => perm_eq_of_short hd hl
  have hq : ForQuery (nextCall { b with values := vs } t2) = ForQuery (nextCall b t2) := rfl
  rw [et, er, ed, hq]
  exact ⟨rfl, fun u1 u2 => (orders_and_values_not_read b vs u1 u2 rows2 data2).1,
    fun u1 u2 => (orders_and_values_not_read b vs u1 u2 rows2 data2).2.1,
    fun u1 u2 => (orders_and_values_not_read b vs u1 u2 rows2 data2).2.2⟩

/-- The amended C12 at `usersBuilder`, which has one order entry, with the stale parameter
`stale`, the two rows of `twoRows` and the single assignment `age = 5`: the four generators
return the same text and leave the same parameters on both builders; `ForQuery` leaves the
four parameters 7, `a`, 10, 0 on the builder that held `stale`. -/
theorem stale_params_same_traversal_witness :
    List.Perm [("age".toList, "DESC".toList)] (usersBuilder qmark).orders ∧
      List.Forall₂ List.Perm twoRows twoRows ∧
      List.Perm [("age".toList, Value.int 5)] [("age".toList, Value.int 5)] ∧
      (shown (ForQuery (nextCall { usersBuilder qmark with values := [.text "stale".toList] }
            [("age".toList, "DESC".toList)])) =
          shown (ForQuery (nextCall (usersBuilder qmark) (usersBuilder qmark).orders)) ∧
        (∀ u1 u2,
          shown (ForRemove
              (nextCall { usersBuilder qmark with values := [.text "stale".toList] } u1)) =
            shown (ForRemove (nextCall (usersBuilder qmark) u2))) ∧
        (∀ u1 u2,
          shown (ForInsert
              (nextCall { usersBuilder qmark with values := [.text "stale".toList] } u1)
              twoRows) =
            shown (ForInsert (nextCall (usersBuilder qmark) u2) twoRows)) ∧
        (∀ u1 u2,
          shown (ForUpdate
              (nextCall { usersBuilder qmark with values := [.text "stale".toList] } u1)
              [("age".toList, .int 5)]) =
            shown (ForUpdate (nextCall (usersBuilder qmark) u2) [("age".toList, .int 5)]))) ∧
      (shown (ForQuery (nextCall { usersBuilder qmark with values := [.text "stale".toList] }
          [("age".toList, "DESC".toList)]))).map Prod.snd =
        some [.int 7, .text "a".toList, .int 10, .int 0] :=
  ⟨by decide,
    List.Forall₂.cons (List.Perm.refl _) (List.Forall₂.cons (List.Perm.refl _) List.Forall₂.nil),
    by decide,
    stale_params_same_traversal (usersBuilder qmark) [.text "stale".toList]
      [("age".toList, "DESC".toList)] (usersBuilder qmark).orders twoRows twoRows
      [("age".toList, .int 5)] [("age".toList, .int 5)] (by decide) (Or.inr (by decide))
      (List.Forall₂.cons (List.Perm.refl _)
        (List.Forall₂.cons (List.Perm.refl _) List.Forall₂.nil))
      (Or.inl rfl) (by decide) (Or.inr (by decide)),
    by decide⟩

end querybuilder
